import Mathlib

/-!
Verification of the nanoSpec chat frontend core: the chunk-safe append
helper, the knowledge-graph merge and importance-scoring pipeline
(`kgGraph.ts`), and the event-sourced chat reducer (`eventReducer.ts`),
both embedded from `src/unnamed/part_005`.

Conventions of the embedding:
* JS strings are Lean `String`; `s.startsWith(p)` / `s.endsWith(p)` are
  modelled on the character lists.
* JS numbers are modelled as `ℚ` (the code performs only field
  arithmetic, comparisons, `Math.max/min/abs/round/trunc`); IEEE-754
  rounding is abstracted away.
* A JS `Record<string, T>` is an insertion-ordered association list
  `List (String × T)`: assigning an existing key updates it in place,
  assigning a fresh key appends it, and `Object.keys`/`Object.values`
  enumerate in list order.
* Read-only record accesses of the form `r[k] ?? 0` are modelled by
  total functions `String → ℚ` with default `0`, updated pointwise.
* `undefined`/optional fields become `Option`; `x ?? y` becomes
  `Option.getD`; truthiness tests on strings compare against `""`.
-/

namespace NanoSpec

/-! ## JS string primitives -/

/-- JS `s.startsWith(p)`. -/
def jsStartsWith (s p : String) : Bool := p.toList.isPrefixOf s.toList

/-- JS `s.endsWith(p)`. -/
def jsEndsWith (s p : String) : Bool := p.toList.isSuffixOf s.toList

/-- JS string truthiness fallback `a || b`. -/
def jsOrStr (a b : String) : String := if a = "" then b else a

/-! ## `appendChunk` (eventReducer.ts)

```ts
function appendChunk(existing: string | undefined, incoming: string | undefined): string {
  const current = existing ?? "";
  const chunk = incoming ?? "";
  if (!chunk) return current;
  if (!current) return chunk;
  if (chunk.startsWith(current)) return chunk;
  if (current.endsWith(chunk)) return current;
  return `${current}${chunk}`;
}
``` -/

def appendChunk (existing incoming : Option String) : String :=
  let current := existing.getD ""
  let chunk := incoming.getD ""
  if chunk = "" then current
  else if current = "" then chunk
  else if jsStartsWith chunk current then chunk
  else if jsEndsWith current chunk then current
  else current ++ chunk

/-! Basic facts about `appendChunk`. -/

theorem jsStartsWith_self (s : String) : jsStartsWith s s = true := by
  simp [jsStartsWith, List.isPrefixOf_iff_prefix]

theorem jsEndsWith_append (a b : String) : jsEndsWith (a ++ b) b = true := by
  simp [jsEndsWith, List.isSuffixOf_iff_suffix]

theorem str_empty_iff (a : String) : a = "" ↔ a.toList = [] := by
  rw [String.ext_iff]
  constructor <;> intro h <;> simpa [String.toList] using h

theorem str_eq_of_startsWith_of_endsWith {c s : String}
    (h1 : jsStartsWith s c = true) (h2 : jsEndsWith c s = true) : s = c := by
  simp only [jsStartsWith, List.isPrefixOf_iff_prefix, decide_eq_true_eq] at h1
  simp only [jsEndsWith, List.isSuffixOf_iff_suffix, decide_eq_true_eq] at h2
  have hlen1 := h1.length_le
  have hlen2 := h2.length_le
  have h3 : c.toList = s.toList := h1.eq_of_length_le (by omega)
  rw [String.ext_iff]
  simpa [String.toList] using h3.symm

/-- `appendChunk` applied twice with the same incoming chunk is a no-op. -/
theorem appendChunk_idem (a b : Option String) :
    appendChunk (some (appendChunk a b)) b = appendChunk a b := by
  rcases b with _ | b
  · simp [appendChunk]
  rcases a with _ | a
  · by_cases hb : b = "" <;>
      simp [appendChunk, hb, jsStartsWith_self]
  by_cases hb : b = ""
  · simp [appendChunk, hb]
  by_cases ha : a = ""
  · simp [appendChunk, hb, ha, jsStartsWith_self]
  by_cases h1 : jsStartsWith b a
  · simp [appendChunk, hb, ha, h1, jsStartsWith_self]
  by_cases h2 : jsEndsWith a b
  · simp [appendChunk, hb, ha, h1, h2]
  · have hab : ¬ (a ++ b) = "" := by
      rw [str_empty_iff]
      simp only [String.toList, String.data_append, List.append_eq_nil]
      rw [str_empty_iff] at ha
      simp only [String.toList] at ha
      tauto
    have hsw : ¬ jsStartsWith b (a ++ b) = true := by
      intro h
      simp only [jsStartsWith, List.isPrefixOf_iff_prefix, decide_eq_true_eq] at h
      have hlen := h.length_le
      simp only [String.toList, String.data_append, List.length_append] at hlen
      rw [str_empty_iff] at ha
      simp only [String.toList] at ha
      exact ha (List.length_eq_zero.mp (by omega))
    simp [appendChunk, hb, ha, hab, hsw, h1, h2, jsEndsWith_append]

/-- C1: the chunk-safe append function `appendChunk` satisfies, for all
strings `C` (accumulated) and `S` (incoming): if `S` is empty the result is
`C`; if `C` is empty the result is `S`; if `S` starts with `C` the result is
`S`; if `C` ends with `S` the result is `C`; otherwise, the result is the
concatenation `C ++ S`; and the four concrete accumulate examples hold. -/
theorem C1_appendChunk_spec (c s : String) :
    (s = "" → appendChunk (some c) (some s) = c) ∧
    (c = "" → appendChunk (some c) (some s) = s) ∧
    (jsStartsWith s c = true → appendChunk (some c) (some s) = s) ∧
    (jsEndsWith c s = true → appendChunk (some c) (some s) = c) ∧
    (s ≠ "" → c ≠ "" → jsStartsWith s c ≠ true → jsEndsWith c s ≠ true →
      appendChunk (some c) (some s) = c ++ s) ∧
    appendChunk (some "") (some "Hello") = "Hello" ∧
    appendChunk (some "Hello") (some "Hello World") = "Hello World" ∧
    appendChunk (some "Hello World") (some "World") = "Hello World" ∧
    appendChunk (some "Hello") (some " World") = "Hello World" := by
  refine ⟨?_, ?_, ?_, ?_, ?_, by decide, by decide, by decide, by decide⟩
  · intro hs; simp [appendChunk, hs]
  · intro hc
    by_cases hs : s = "" <;> simp [appendChunk, hc, hs]
  · intro hsw
    by_cases hs : s = ""
    · subst hs
      have : c = "" := by
        simpa [jsStartsWith, List.isPrefixOf_iff_prefix, str_empty_iff c] using hsw
      simp [appendChunk, this]
    · by_cases hc : c = "" <;> simp [appendChunk, hs, hc, hsw]
  · intro hew
    by_cases hs : s = ""
    · simp [appendChunk, hs]
    · by_cases hc : c = ""
      · exfalso
        apply hs
        rw [str_empty_iff]
        have := by simpa [jsEndsWith, List.isSuffixOf_iff_suffix, decide_eq_true_eq] using hew
        have hle := List.IsSuffix.length_le this
        subst hc
        simpa using List.length_eq_zero.mp (by simpa [String.toList] using Nat.le_zero.mp hle)
      · by_cases hsw : jsStartsWith s c = true
        · have := str_eq_of_startsWith_of_endsWith hsw hew
          simp [appendChunk, hs, hc, this, jsStartsWith_self]
        · simp [appendChunk, hs, hc, hsw, hew]
  · intro hs hc hsw hew
    simp [appendChunk, hs, hc, hsw, hew]

/-- Witness for C1: instantiates every hypothesis at the concrete input
`C = "Hello"`, `S = " World"`. -/
theorem C1_appendChunk_spec_witness :
    appendChunk (some "Hello") (some " World") = "Hello" ++ " World" :=
  (C1_appendChunk_spec "Hello" " World").2.2.2.2.1
    (by decide) (by decide) (by decide) (by decide)

/-! ## Insertion-ordered records

A JS `Record<string, T>` is an association list; key assignment updates in
place when the key exists and appends otherwise, mirroring JS property
insertion order. -/

def recUpsert (m : List (String × α)) (k : String) (v : α) : List (String × α) :=
  match m with
  | [] => [(k, v)]
  | (k', v') :: rest => if k' = k then (k, v) :: rest else (k', v') :: recUpsert rest k v

/-- Pointwise update of a defaulted record view `String → α`
(modelling `r[k] = v` where reads are `r[k] ?? default`). -/
def fupd (f : String → α) (k : String) (v : α) : String → α :=
  fun x => if x = k then v else f x

/-- JS `[...new Set(list)]`: deduplicate keeping first occurrences. -/
def jsSetDedupAux : List String → List String → List String
  | _, [] => []
  | seen, x :: xs =>
    if x ∈ seen then jsSetDedupAux seen xs else x :: jsSetDedupAux (x :: seen) xs

def jsSetDedup (l : List String) : List String := jsSetDedupAux [] l

/-- JS numeric truthiness fallback `w || 0` on a finite number. -/
def jsOrQ (w : ℚ) : ℚ := if w = 0 then 0 else w

theorem jsOrQ_eq (w : ℚ) : jsOrQ w = w := by
  unfold jsOrQ; split <;> simp_all

/-! ## Knowledge-graph data model (types/kgGraph.ts) -/

structure KgSubgraphNode where
  key : String
  id : String
  name : String
  node_type : String
  labels : List String
deriving DecidableEq, Repr

structure KgSubgraphEdge where
  source : String
  target : String
  type : String
  weight : ℚ
  confidence_key : Option String
deriving DecidableEq, Repr

structure KgSubgraphSummary where
  node_count : ℚ
  edge_count : ℚ
deriving DecidableEq, Repr

structure KgSubgraph where
  summary : KgSubgraphSummary
  nodes : List KgSubgraphNode
  edges : List KgSubgraphEdge
deriving DecidableEq, Repr

structure KgNodeMetrics where
  pagerank : ℚ
  weighted_degree : ℚ
  edge_type_diversity : ℚ
  in_degree : ℚ
  out_degree : ℚ
  weighted_in_degree : ℚ
  weighted_out_degree : ℚ
deriving DecidableEq, Repr

structure KgNodeScore where
  importance_score : ℚ
  normalized_pagerank : ℚ
  normalized_weighted_degree : ℚ
  normalized_edge_type_diversity : ℚ
  rank_in_type : ℕ
  is_top_in_type : Bool
deriving DecidableEq, Repr

structure KgNode where
  key : String
  id : String
  name : String
  node_type : String
  labels : List String
  seen_count : ℕ
  metrics : KgNodeMetrics
  score : KgNodeScore
deriving DecidableEq, Repr

structure KgEdge where
  key : String
  source : String
  target : String
  type : String
  weight : ℚ
  confidence_key : Option String
  seen_count : ℕ
deriving DecidableEq, Repr

structure KgSummary where
  node_count : ℕ
  edge_count : ℕ
  node_type_count : ℕ
deriving DecidableEq, Repr

structure KgScoringWeights where
  pagerank : ℚ
  weighted_degree : ℚ
  edge_type_diversity : ℚ
deriving DecidableEq, Repr

structure KgScoring where
  scope : String
  per_node_type_ranking : Bool
  weights : KgScoringWeights
  edge_weighting : String
deriving DecidableEq, Repr

structure KgMergedGraph where
  nodes_by_key : List (String × KgNode)
  edges_by_key : List (String × KgEdge)
  summary : KgSummary
  scoring : KgScoring
deriving DecidableEq, Repr

/-! ## kgGraph.ts constants and helpers -/

def EMPTY_METRICS : KgNodeMetrics :=
  { pagerank := 0, weighted_degree := 0, edge_type_diversity := 0,
    in_degree := 0, out_degree := 0, weighted_in_degree := 0, weighted_out_degree := 0 }

def EMPTY_SCORE : KgNodeScore :=
  { importance_score := 0, normalized_pagerank := 0, normalized_weighted_degree := 0,
    normalized_edge_type_diversity := 0, rank_in_type := 0, is_top_in_type := false }

def createEmptyKgMergedGraph : KgMergedGraph :=
  { nodes_by_key := []
    edges_by_key := []
    summary := { node_count := 0, edge_count := 0, node_type_count := 0 }
    scoring :=
      { scope := "query_local"
        per_node_type_ranking := true
        weights := { pagerank := 11/20, weighted_degree := 3/10, edge_type_diversity := 3/20 }
        edge_weighting := "confidence_aware_fallback_1.0" } }

/-- JS `String.prototype.trim`: strip whitespace from both ends. -/
def jsTrim (s : String) : String :=
  String.mk (((s.toList.dropWhile fun c => c.isWhitespace).reverse.dropWhile
    fun c => c.isWhitespace).reverse)

def stableNodeType (nodeType : String) : String :=
  if jsTrim nodeType = "" then "Unknown" else jsTrim nodeType

def edgeKey (edge : KgSubgraphEdge) : String :=
  edge.source ++ "|" ++ edge.type ++ "|" ++ edge.target

def recomputeSummary (graph : KgMergedGraph) : KgSummary :=
  { node_count := graph.nodes_by_key.length
    edge_count := graph.edges_by_key.length
    node_type_count :=
      (jsSetDedup (graph.nodes_by_key.map (fun p => stableNodeType p.2.node_type))).length }

/-! ## `mergeSubgraphIntoThreadGraph` (kgGraph.ts)

The loop bodies of the two `for` loops become `mergeSubgraphNodeStep` and
`mergeSubgraphEdgeStep`, folded over the subgraph's nodes and edges. -/

def mergeSubgraphNodeStep (m : List (String × KgNode)) (node : KgSubgraphNode) :
    List (String × KgNode) :=
  match List.lookup node.key m with
  | none =>
      recUpsert m node.key
        { key := node.key
          id := jsOrStr node.id node.key
          name := jsOrStr node.name (jsOrStr node.id node.key)
          node_type := stableNodeType node.node_type
          labels := jsSetDedup node.labels
          seen_count := 1
          metrics := EMPTY_METRICS
          score := EMPTY_SCORE }
  | some existing =>
      recUpsert m node.key
        { existing with
          id := jsOrStr node.id existing.id
          name := jsOrStr node.name existing.name
          node_type := stableNodeType (jsOrStr node.node_type existing.node_type)
          labels := jsSetDedup (existing.labels ++ node.labels)
          seen_count := existing.seen_count + 1 }

def mergeSubgraphEdgeStep (m : List (String × KgEdge)) (edge : KgSubgraphEdge) :
    List (String × KgEdge) :=
  let key := edgeKey edge
  match List.lookup key m with
  | none =>
      recUpsert m key
        { key := key
          source := edge.source
          target := edge.target
          type := edge.type
          weight := max 0 (jsOrQ edge.weight)
          confidence_key := edge.confidence_key
          seen_count := 1 }
  | some existing =>
      recUpsert m key
        { existing with
          weight := max existing.weight (max 0 (jsOrQ edge.weight))
          confidence_key := edge.confidence_key.orElse (fun _ => existing.confidence_key)
          seen_count := existing.seen_count + 1 }

def mergeSubgraphIntoThreadGraph (graph : KgMergedGraph) (subgraph : KgSubgraph) :
    KgMergedGraph :=
  let nextNodes := subgraph.nodes.foldl mergeSubgraphNodeStep graph.nodes_by_key
  let nextEdges := subgraph.edges.foldl mergeSubgraphEdgeStep graph.edges_by_key
  let merged := { graph with nodes_by_key := nextNodes, edges_by_key := nextEdges }
  { merged with summary := recomputeSummary merged }

/-! ## Record lemmas -/

theorem lookup_recUpsert_self (m : List (String × α)) (k : String) (v : α) :
    List.lookup k (recUpsert m k v) = some v := by
  induction m with
  | nil => simp [recUpsert]
  | cons p rest ih =>
    obtain ⟨k', v'⟩ := p
    by_cases h : k' = k
    · simp [recUpsert, h, List.lookup]
    · have hbeq : (k == k') = false := beq_eq_false_iff_ne.mpr (fun hh => h hh.symm)
      simp [recUpsert, h, List.lookup, ih, hbeq]

theorem lookup_recUpsert_ne (m : List (String × α)) (k k2 : String) (v : α)
    (h : k2 ≠ k) : List.lookup k2 (recUpsert m k v) = List.lookup k2 m := by
  have hbeq : (k2 == k) = false := beq_eq_false_iff_ne.mpr h
  induction m with
  | nil => simp [recUpsert, List.lookup, hbeq]
  | cons p rest ih =>
    obtain ⟨k', v'⟩ := p
    by_cases h' : k' = k
    · subst h'
      simp [recUpsert, List.lookup, hbeq]
    · simp [recUpsert, List.lookup, h', ih]

theorem length_recUpsert_le (m : List (String × α)) (k : String) (v : α) :
    m.length ≤ (recUpsert m k v).length := by
  induction m with
  | nil => simp [recUpsert]
  | cons p rest ih =>
    obtain ⟨k', v'⟩ := p
    by_cases h : k' = k
    all_goals simp [recUpsert, h]
    all_goals omega

/-! ## Merge-step lemmas -/

theorem mergeNodeStep_length_le (m : List (String × KgNode)) (node : KgSubgraphNode) :
    m.length ≤ (mergeSubgraphNodeStep m node).length := by
  simp only [mergeSubgraphNodeStep]
  cases h : List.lookup node.key m
  all_goals simp [length_recUpsert_le]

theorem mergeEdgeStep_length_le (m : List (String × KgEdge)) (edge : KgSubgraphEdge) :
    m.length ≤ (mergeSubgraphEdgeStep m edge).length := by
  simp only [mergeSubgraphEdgeStep]
  cases h : List.lookup (edgeKey edge) m <;> simp [length_recUpsert_le]

theorem foldl_nodeStep_length_le (nodes : List KgSubgraphNode) (m : List (String × KgNode)) :
    m.length ≤ (nodes.foldl mergeSubgraphNodeStep m).length := by
  induction nodes generalizing m with
  | nil => simp
  | cons n rest ih =>
    exact le_trans (mergeNodeStep_length_le m n) (by simpa using ih (mergeSubgraphNodeStep m n))

theorem foldl_edgeStep_length_le (edges : List KgSubgraphEdge) (m : List (String × KgEdge)) :
    m.length ≤ (edges.foldl mergeSubgraphEdgeStep m).length := by
  induction edges generalizing m with
  | nil => simp
  | cons e rest ih =>
    exact le_trans (mergeEdgeStep_length_le m e) (by simpa using ih (mergeSubgraphEdgeStep m e))

theorem mergeNodeStep_seen_mono (m : List (String × KgNode)) (node : KgSubgraphNode)
    (k : String) (n : KgNode) (h : List.lookup k m = some n) :
    ∃ n', List.lookup k (mergeSubgraphNodeStep m node) = some n' ∧
      n.seen_count ≤ n'.seen_count := by
  simp only [mergeSubgraphNodeStep]
  by_cases hk : node.key = k
  · subst hk
    rw [h]
    exact ⟨_, lookup_recUpsert_self .., by simp⟩
  · refine ⟨n, ?_, le_refl _⟩
    cases hl : List.lookup node.key m <;>
      simp [lookup_recUpsert_ne _ _ _ _ (fun h' => hk h'.symm), h]

theorem mergeEdgeStep_mono (m : List (String × KgEdge)) (edge : KgSubgraphEdge)
    (k : String) (e : KgEdge) (h : List.lookup k m = some e) :
    ∃ e', List.lookup k (mergeSubgraphEdgeStep m edge) = some e' ∧
      e.seen_count ≤ e'.seen_count ∧ e.weight ≤ e'.weight := by
  simp only [mergeSubgraphEdgeStep]
  by_cases hk : edgeKey edge = k
  · subst hk
    rw [h]
    exact ⟨_, lookup_recUpsert_self .., by simp, by simp⟩
  · refine ⟨e, ?_, le_refl _, le_refl _⟩
    cases hl : List.lookup (edgeKey edge) m <;>
      simp [lookup_recUpsert_ne _ _ _ _ (fun h' => hk h'.symm), h]

theorem foldl_nodeStep_seen_mono (nodes : List KgSubgraphNode) (k : String) :
    ∀ (m : List (String × KgNode)) (n : KgNode), List.lookup k m = some n →
      ∃ n', List.lookup k (nodes.foldl mergeSubgraphNodeStep m) = some n' ∧
        n.seen_count ≤ n'.seen_count := by
  induction nodes with
  | nil => exact fun m n h => ⟨n, h, le_refl _⟩
  | cons x rest ih =>
    intro m n h
    obtain ⟨n1, h1, hle1⟩ := mergeNodeStep_seen_mono m x k n h
    obtain ⟨n2, h2, hle2⟩ := ih (mergeSubgraphNodeStep m x) n1 h1
    exact ⟨n2, by simpa using h2, le_trans hle1 hle2⟩

theorem foldl_edgeStep_mono (edges : List KgSubgraphEdge) (k : String) :
    ∀ (m : List (String × KgEdge)) (e : KgEdge), List.lookup k m = some e →
      ∃ e', List.lookup k (edges.foldl mergeSubgraphEdgeStep m) = some e' ∧
        e.seen_count ≤ e'.seen_count ∧ e.weight ≤ e'.weight := by
  induction edges with
  | nil => exact fun m e h => ⟨e, h, le_refl _, le_refl _⟩
  | cons x rest ih =>
    intro m e h
    obtain ⟨e1, h1, hs1, hw1⟩ := mergeEdgeStep_mono m x k e h
    obtain ⟨e2, h2, hs2, hw2⟩ := ih (mergeSubgraphEdgeStep m x) e1 h1
    exact ⟨e2, by simpa using h2, le_trans hs1 hs2, le_trans hw1 hw2⟩

theorem foldl_edgeStep_no_key (edges : List KgSubgraphEdge) (k : String) :
    ∀ (m : List (String × KgEdge)), (∀ e ∈ edges, edgeKey e ≠ k) →
      List.lookup k (edges.foldl mergeSubgraphEdgeStep m) = List.lookup k m := by
  induction edges with
  | nil => simp
  | cons x rest ih =>
    intro m h
    have hx : edgeKey x ≠ k := h x (by simp)
    have step : List.lookup k (mergeSubgraphEdgeStep m x) = List.lookup k m := by
      simp only [mergeSubgraphEdgeStep]
      cases hl : List.lookup (edgeKey x) m <;>
        simp [lookup_recUpsert_ne _ _ _ _ (fun h' => hx h'.symm)]
    rw [List.foldl_cons, ih (mergeSubgraphEdgeStep m x) (fun e he => h e (by simp [he])), step]

theorem foldl_edgeStep_single (edges : List KgSubgraphEdge) (k : String)
    (en : KgSubgraphEdge) :
    ∀ (m : List (String × KgEdge)) (ex : KgEdge),
      edges.filter (fun e => edgeKey e == k) = [en] → List.lookup k m = some ex →
      List.lookup k (edges.foldl mergeSubgraphEdgeStep m) = some
        { ex with
          weight := max ex.weight (max 0 (jsOrQ en.weight))
          confidence_key := en.confidence_key.orElse (fun _ => ex.confidence_key)
          seen_count := ex.seen_count + 1 } := by
  induction edges with
  | nil => intro m ex hf hx; simp at hf
  | cons x rest ih =>
    intro m ex hf hx
    by_cases hk : edgeKey x = k
    · have hxen : x = en ∧ rest.filter (fun e => edgeKey e == k) = [] := by
        rw [List.filter_cons] at hf
        simp only [hk, beq_self_eq_true, if_true] at hf
        exact ⟨(List.cons_eq_cons.mp hf).1, (List.cons_eq_cons.mp hf).2⟩
      obtain ⟨hxen, hrest⟩ := hxen
      subst hxen
      have hnone : ∀ e ∈ rest, edgeKey e ≠ k := by
        intro e he hke
        have : e ∈ rest.filter (fun e => edgeKey e == k) := by
          simp [List.mem_filter, he, hke]
        simp [hrest] at this
      rw [List.foldl_cons, foldl_edgeStep_no_key rest k _ hnone]
      simp only [mergeSubgraphEdgeStep]
      rw [hk, hx]
      exact lookup_recUpsert_self ..
    · have hstep : List.lookup k (mergeSubgraphEdgeStep m x) = some ex := by
        simp only [mergeSubgraphEdgeStep]
        cases hl : List.lookup (edgeKey x) m <;>
          simp [lookup_recUpsert_ne _ _ _ _ (fun h' => hk h'.symm), hx]
      have hf' : rest.filter (fun e => edgeKey e == k) = [en] := by
        rw [List.filter_cons] at hf
        simpa [hk] using hf
      rw [List.foldl_cons]
      exact ih (mergeSubgraphEdgeStep m x) ex hf' hstep

theorem foldl_edgeStep_single_none (edges : List KgSubgraphEdge) (k : String)
    (en : KgSubgraphEdge) :
    ∀ (m : List (String × KgEdge)),
      edges.filter (fun e => edgeKey e == k) = [en] → List.lookup k m = none →
      List.lookup k (edges.foldl mergeSubgraphEdgeStep m) = some
        { key := k
          source := en.source
          target := en.target
          type := en.type
          weight := max 0 (jsOrQ en.weight)
          confidence_key := en.confidence_key
          seen_count := 1 } := by
  induction edges with
  | nil => intro m hf hx; simp at hf
  | cons x rest ih =>
    intro m hf hx
    by_cases hk : edgeKey x = k
    · have hxen : x = en ∧ rest.filter (fun e => edgeKey e == k) = [] := by
        rw [List.filter_cons] at hf
        simp only [hk, beq_self_eq_true, if_true] at hf
        exact ⟨(List.cons_eq_cons.mp hf).1, (List.cons_eq_cons.mp hf).2⟩
      obtain ⟨hxen, hrest⟩ := hxen
      subst hxen
      have hnone : ∀ e ∈ rest, edgeKey e ≠ k := by
        intro e he hke
        have : e ∈ rest.filter (fun e => edgeKey e == k) := by
          simp [List.mem_filter, he, hke]
        simp [hrest] at this
      rw [List.foldl_cons, foldl_edgeStep_no_key rest k _ hnone]
      simp only [mergeSubgraphEdgeStep]
      rw [hk, hx]
      exact lookup_recUpsert_self ..
    · have hstep : List.lookup k (mergeSubgraphEdgeStep m x) = none := by
        simp only [mergeSubgraphEdgeStep]
        cases hl : List.lookup (edgeKey x) m <;>
          simp [lookup_recUpsert_ne _ _ _ _ (fun h' => hk h'.symm), hx]
      have hf' : rest.filter (fun e => edgeKey e == k) = [en] := by
        rw [List.filter_cons] at hf
        simpa [hk] using hf
      rw [List.foldl_cons]
      exact ih (mergeSubgraphEdgeStep m x) hf' hstep

theorem merge_nodes_by_key (g : KgMergedGraph) (s : KgSubgraph) :
    (mergeSubgraphIntoThreadGraph g s).nodes_by_key =
      s.nodes.foldl mergeSubgraphNodeStep g.nodes_by_key := rfl

theorem merge_edges_by_key (g : KgMergedGraph) (s : KgSubgraph) :
    (mergeSubgraphIntoThreadGraph g s).edges_by_key =
      s.edges.foldl mergeSubgraphEdgeStep g.edges_by_key := rfl

/-- C3 (amended): per incoming subgraph edge keyed by `(source,type,target)`:
a missing key is inserted with `seen_count = 1` and the edge's own
`confidence_key`; an existing key gets `weight = max(existing, new)`,
`seen_count + 1`, and — unlike the claim's "first non-null confidence_key
is retained" — the *incoming* non-null `confidence_key` takes precedence
over the stored one (`edge.confidence_key ?? existing.confidence_key`).
Merging `A-TREATS-B` with `w = 0.4` and again with `w = 0.9` yields exactly
one edge with weight `0.9` and `seen_count 2`. -/
theorem C3_edge_merge_spec (graph : KgMergedGraph) (s : KgSubgraph) (k : String)
    (en : KgSubgraphEdge)
    (hf : s.edges.filter (fun e => edgeKey e == k) = [en]) :
    (List.lookup k graph.edges_by_key = none →
      List.lookup k (mergeSubgraphIntoThreadGraph graph s).edges_by_key = some
        { key := k, source := en.source, target := en.target, type := en.type,
          weight := max 0 (jsOrQ en.weight), confidence_key := en.confidence_key,
          seen_count := 1 }) ∧
    (∀ ex, List.lookup k graph.edges_by_key = some ex →
      List.lookup k (mergeSubgraphIntoThreadGraph graph s).edges_by_key = some
        { ex with
          weight := max ex.weight (max 0 (jsOrQ en.weight)),
          confidence_key := en.confidence_key.orElse (fun _ => ex.confidence_key),
          seen_count := ex.seen_count + 1 }) ∧
    ((mergeSubgraphIntoThreadGraph
        (mergeSubgraphIntoThreadGraph createEmptyKgMergedGraph
          { summary := { node_count := 2, edge_count := 1 }
            nodes := [{ key := "A", id := "A", name := "A", node_type := "Drug", labels := ["Drug"] },
                      { key := "B", id := "B", name := "B", node_type := "Drug", labels := ["Drug"] }]
            edges := [{ source := "A", target := "B", type := "TREATS", weight := mkRat 2 5,
                        confidence_key := none }] })
        { summary := { node_count := 2, edge_count := 1 }
          nodes := [{ key := "A", id := "A", name := "A", node_type := "Drug", labels := ["Drug"] },
                    { key := "B", id := "B", name := "B", node_type := "Drug", labels := ["Drug"] }]
          edges := [{ source := "A", target := "B", type := "TREATS", weight := mkRat 9 10,
                      confidence_key := none }] }).edges_by_key.map
        (fun p => (p.2.weight, p.2.seen_count)) = [(mkRat 9 10, 2)]) := by
  refine ⟨?_, ?_, ?_⟩
  case refine_3 =>
    norm_num [mergeSubgraphIntoThreadGraph, mergeSubgraphEdgeStep, mergeSubgraphNodeStep,
      recUpsert, recomputeSummary, createEmptyKgMergedGraph, edgeKey, jsOrQ, jsOrStr,
      jsSetDedup, jsSetDedupAux, stableNodeType, EMPTY_METRICS, EMPTY_SCORE, List.lookup]
  · intro hnone
    rw [merge_edges_by_key]
    exact foldl_edgeStep_single_none s.edges k en graph.edges_by_key hf hnone
  · intro ex hsome
    rw [merge_edges_by_key]
    exact foldl_edgeStep_single s.edges k en graph.edges_by_key ex hf hsome

/-- Witness for C3: concrete insert of a fresh `A-TREATS-B` edge. -/
theorem C3_edge_merge_spec_witness :
    List.lookup "A|TREATS|B"
      (mergeSubgraphIntoThreadGraph createEmptyKgMergedGraph
        { summary := { node_count := 0, edge_count := 1 }
          nodes := []
          edges := [{ source := "A", target := "B", type := "TREATS", weight := mkRat 2 5,
                      confidence_key := none }] }).edges_by_key = some
      { key := "A|TREATS|B", source := "A", target := "B", type := "TREATS",
        weight := max 0 (jsOrQ (mkRat 2 5)), confidence_key := none, seen_count := 1 } :=
  (C3_edge_merge_spec createEmptyKgMergedGraph _ "A|TREATS|B"
    { source := "A", target := "B", type := "TREATS", weight := mkRat 2 5, confidence_key := none }
    (by decide)).1 (by decide)

/-- Counterexample for C3 as stated: the first non-null `confidence_key`
observed for `A-TREATS-B` is `"confA"`, but after a second merge carrying
`"confB"` the stored `confidence_key` is `"confB"`, not the first one. -/
theorem C3_counterexample :
    (List.lookup "A|TREATS|B"
      (mergeSubgraphIntoThreadGraph
        (mergeSubgraphIntoThreadGraph createEmptyKgMergedGraph
          { summary := { node_count := 0, edge_count := 1 }
            nodes := []
            edges := [{ source := "A", target := "B", type := "TREATS", weight := mkRat 2 5,
                        confidence_key := some "confA" }] })
        { summary := { node_count := 0, edge_count := 1 }
          nodes := []
          edges := [{ source := "A", target := "B", type := "TREATS", weight := mkRat 9 10,
                      confidence_key := some "confB" }] }).edges_by_key).map
      KgEdge.confidence_key = some (some "confB") ∧
    ("confB" : String) ≠ "confA" := by decide

/-- C5: merging a subgraph never decreases the node count, the edge count,
any existing node's or edge's `seen_count`, nor any existing edge's weight,
and an edge merged against exactly one incoming edge with non-negative
weight ends with `weight = max(prior, new)`. -/
theorem C5_merge_monotonic (graph : KgMergedGraph) (s : KgSubgraph) :
    graph.nodes_by_key.length ≤ (mergeSubgraphIntoThreadGraph graph s).nodes_by_key.length ∧
    graph.edges_by_key.length ≤ (mergeSubgraphIntoThreadGraph graph s).edges_by_key.length ∧
    (mergeSubgraphIntoThreadGraph graph s).summary.node_count =
      (mergeSubgraphIntoThreadGraph graph s).nodes_by_key.length ∧
    (mergeSubgraphIntoThreadGraph graph s).summary.edge_count =
      (mergeSubgraphIntoThreadGraph graph s).edges_by_key.length ∧
    (∀ k n, List.lookup k graph.nodes_by_key = some n →
      ∃ n', List.lookup k (mergeSubgraphIntoThreadGraph graph s).nodes_by_key = some n' ∧
        n.seen_count ≤ n'.seen_count) ∧
    (∀ k e, List.lookup k graph.edges_by_key = some e →
      ∃ e', List.lookup k (mergeSubgraphIntoThreadGraph graph s).edges_by_key = some e' ∧
        e.seen_count ≤ e'.seen_count ∧ e.weight ≤ e'.weight) ∧
    (∀ k en ex, s.edges.filter (fun e => edgeKey e == k) = [en] → 0 ≤ en.weight →
      List.lookup k graph.edges_by_key = some ex →
      ∃ e', List.lookup k (mergeSubgraphIntoThreadGraph graph s).edges_by_key = some e' ∧
        e'.weight = max ex.weight en.weight ∧ ex.weight ≤ e'.weight) := by
  refine ⟨?_, ?_, rfl, rfl, ?_, ?_, ?_⟩
  · rw [merge_nodes_by_key]; exact foldl_nodeStep_length_le s.nodes graph.nodes_by_key
  · rw [merge_edges_by_key]; exact foldl_edgeStep_length_le s.edges graph.edges_by_key
  · intro k n h
    rw [merge_nodes_by_key]
    exact foldl_nodeStep_seen_mono s.nodes k graph.nodes_by_key n h
  · intro k e h
    rw [merge_edges_by_key]
    exact foldl_edgeStep_mono s.edges k graph.edges_by_key e h
  · intro k en ex hf h0 hsome
    rw [merge_edges_by_key]
    refine ⟨_, foldl_edgeStep_single s.edges k en graph.edges_by_key ex hf hsome, ?_, ?_⟩
    · simp [jsOrQ_eq, max_eq_right h0]
    · simp [jsOrQ_eq, max_eq_right h0, le_max_left]

/-- Witness for C5: concrete merge of `A-TREATS-B` with weight `0.9` over a
graph already holding that edge with weight `0.4`. -/
theorem C5_merge_monotonic_witness :
    ∃ e', List.lookup "A|TREATS|B"
      (mergeSubgraphIntoThreadGraph
        (mergeSubgraphIntoThreadGraph createEmptyKgMergedGraph
          { summary := { node_count := 0, edge_count := 1 }
            nodes := []
            edges := [{ source := "A", target := "B", type := "TREATS", weight := mkRat 2 5,
                        confidence_key := none }] })
        { summary := { node_count := 0, edge_count := 1 }
          nodes := []
          edges := [{ source := "A", target := "B", type := "TREATS", weight := mkRat 9 10,
                      confidence_key := none }] }).edges_by_key = some e' ∧
      e'.weight = max (mkRat 2 5) (mkRat 9 10) ∧ mkRat 2 5 ≤ e'.weight := by
  obtain ⟨e', h1, h2, h3⟩ :=
    (C5_merge_monotonic
      (mergeSubgraphIntoThreadGraph createEmptyKgMergedGraph
        { summary := { node_count := 0, edge_count := 1 }
          nodes := []
          edges := [{ source := "A", target := "B", type := "TREATS", weight := mkRat 2 5,
                      confidence_key := none }] })
      { summary := { node_count := 0, edge_count := 1 }
        nodes := []
        edges := [{ source := "A", target := "B", type := "TREATS", weight := mkRat 9 10,
                    confidence_key := none }] }).2.2.2.2.2.2 "A|TREATS|B"
      { source := "A", target := "B", type := "TREATS", weight := mkRat 9 10, confidence_key := none }
      { key := "A|TREATS|B", source := "A", target := "B", type := "TREATS",
        weight := mkRat 2 5, confidence_key := none, seen_count := 1 }
      (by decide) (by decide) (by decide)
  exact ⟨e', h1, h2, h3⟩

/-! ## `computeWeightedPageRank` (kgGraph.ts)

The PageRank record `ranks` is a defaulted record view `String → ℚ`
(reads in the source are `ranks[key] ?? 0`).  The adjacency record is an
association list of rows, iterated in `Object.keys` order; each row is an
association list of `(target, weight)` entries with unique targets (the
source accumulates into `adjacency[source][target]`). -/

/-- `Math.abs`. -/
def jsAbs (x : ℚ) : ℚ := if x < 0 then -x else x

/-- `Math.max(a, b)` on two finite numbers. -/
def jsMax (a b : ℚ) : ℚ := if a < b then b else a

/-- `Math.min(a, b)` on two finite numbers. -/
def jsMin (a b : ℚ) : ℚ := if a < b then a else b

/-- Damping factor `0.85`. -/
def PAGERANK_DAMPING : ℚ := mkRat 17 20

/-- Convergence tolerance `1e-9`. -/
def PAGERANK_TOL : ℚ := mkRat 1 1000000000

/-- Iteration cap `100`. -/
def PAGERANK_MAX_ITER : ℕ := 100

/-- Sum of a defaulted record view over an explicit key list. -/
def sumOver (L : List String) (f : String → ℚ) : ℚ := (L.map f).sum

/-- The inner loop `for ([target, weight] of Object.entries(adjacency[source]))`:
`next[target] = (next[target] ?? 0) + scale * weight`. -/
def applyRow (scale : ℚ) (next : String → ℚ) (row : List (String × ℚ)) : String → ℚ :=
  row.foldl (fun acc tw => fupd acc tw.1 (acc tw.1 + scale * tw.2)) next

/-- The dangling mass `Σ ranks[key]` over keys with non-positive out-weight. -/
def prDangling (L : List String) (outW ranks : String → ℚ) : ℚ :=
  (L.map (fun k => if outW k ≤ 0 then ranks k else 0)).sum

/-- The teleport term `(1 - damping) / n`. -/
def prTeleport (L : List String) : ℚ :=
  (1 - PAGERANK_DAMPING) / mkRat L.length 1

/-- One power-iteration round of `computeWeightedPageRank`. -/
def pagerankIter (nodeKeys : List String) (adj : List (String × List (String × ℚ)))
    (outW : String → ℚ) (ranks : String → ℚ) : String → ℚ :=
  let n : ℚ := mkRat nodeKeys.length 1
  let dangling := prDangling nodeKeys outW ranks
  let base : String → ℚ := fun t =>
    if t ∈ nodeKeys then prTeleport nodeKeys + PAGERANK_DAMPING * dangling / n else 0
  adj.foldl
    (fun next srow =>
      if outW srow.1 ≤ 0 then next
      else if ranks srow.1 ≤ 0 then next
      else applyRow (PAGERANK_DAMPING * ranks srow.1 / outW srow.1) next srow.2)
    base

/-- The iteration loop with early exit once the L1 delta drops below `tol`. -/
def pagerankLoop (nodeKeys : List String) (adj : List (String × List (String × ℚ)))
    (outW : String → ℚ) : ℕ → (String → ℚ) → (String → ℚ)
  | 0, ranks => ranks
  | fuel + 1, ranks =>
    let next := pagerankIter nodeKeys adj outW ranks
    let delta := (nodeKeys.map (fun k => jsAbs (next k - ranks k))).sum
    if delta < PAGERANK_TOL then next
    else pagerankLoop nodeKeys adj outW fuel next

def computeWeightedPageRank (nodeKeys : List String)
    (adj : List (String × List (String × ℚ))) (outW : String → ℚ) : String → ℚ :=
  if nodeKeys.length = 0 then fun _ => 0
  else
    pagerankLoop nodeKeys adj outW PAGERANK_MAX_ITER
      (fun k => if k ∈ nodeKeys then 1 / mkRat nodeKeys.length 1 else 0)

/-! ## Sum helpers over key lists -/

theorem sumOver_add (L : List String) (f g : String → ℚ) :
    sumOver L (fun t => f t + g t) = sumOver L f + sumOver L g := by
  unfold sumOver
  induction L with
  | nil => simp
  | cons a rest ih => simp [ih]; ring

theorem sumOver_zero (L : List String) : sumOver L (fun _ => 0) = 0 := by
  simp [sumOver]

theorem sumOver_congr (L : List String) (f g : String → ℚ)
    (h : ∀ t ∈ L, f t = g t) : sumOver L f = sumOver L g := by
  unfold sumOver
  induction L with
  | nil => simp
  | cons a rest ih =>
    simp only [List.map_cons, List.sum_cons]
    rw [h a (by simp), ih (fun t ht => h t (by simp [ht]))]

theorem sumOver_mul_left (L : List String) (c : ℚ) (f : String → ℚ) :
    sumOver L (fun t => c * f t) = c * sumOver L f := by
  unfold sumOver
  induction L with
  | nil => simp
  | cons a rest ih => simp [ih]; ring

theorem sumOver_nonneg (L : List String) (f : String → ℚ)
    (h : ∀ t ∈ L, 0 ≤ f t) : 0 ≤ sumOver L f := by
  unfold sumOver
  exact List.sum_nonneg (by intro x hx; obtain ⟨t, ht, rfl⟩ := List.mem_map.mp hx; exact h t ht)

theorem sumOver_single (L : List String) (hnd : L.Nodup) (a : String) (ha : a ∈ L) (w : ℚ) :
    sumOver L (fun t => if a = t then w else 0) = w := by
  unfold sumOver
  induction L with
  | nil => simp at ha
  | cons b rest ih =>
    rcases List.mem_cons.mp ha with hb | hb
    · subst hb
      have hna : a ∉ rest := (List.nodup_cons.mp hnd).1
      have hz : (rest.map (fun t => if a = t then w else 0)).sum = 0 := by
        rw [List.sum_eq_zero]
        intro x hx
        obtain ⟨t, ht, rfl⟩ := List.mem_map.mp hx
        have hat : a ≠ t := fun h => hna (h ▸ ht)
        simp [hat]
      simp [hz]
    · have hab : a ≠ b := by
        rintro rfl
        exact (List.nodup_cons.mp hnd).1 hb
      simp only [List.map_cons, List.sum_cons, if_neg hab]
      rw [ih (List.nodup_cons.mp hnd).2 hb, zero_add]

theorem sumOver_const (L : List String) (c : ℚ) :
    sumOver L (fun _ => c) = L.length * c := by
  unfold sumOver
  induction L with
  | nil => simp
  | cons a rest ih =>
    simp only [List.map_cons, List.sum_cons, ih, List.length_cons]
    push_cast
    ring

theorem sumOver_mem_const (L : List String) (c : ℚ) :
    sumOver L (fun t => if t ∈ L then c else 0) = L.length * c := by
  rw [sumOver_congr L _ (fun _ => c) (fun t ht => by simp [ht])]
  exact sumOver_const L c

/-! ## Pointwise characterisation of a PageRank round -/

/-- Total weight a row's entries contribute to target `t`. -/
def contribAt (row : List (String × ℚ)) (t : String) : ℚ :=
  ((row.filter (fun p => p.1 == t)).map Prod.snd).sum

theorem contribAt_cons (a : String) (w : ℚ) (rest : List (String × ℚ)) (t : String) :
    contribAt ((a, w) :: rest) t = (if a = t then w else 0) + contribAt rest t := by
  by_cases h : a = t <;> simp [contribAt, List.filter_cons, h]

theorem contribAt_nonneg (row : List (String × ℚ)) (t : String)
    (h : ∀ q ∈ row, 0 ≤ q.2) : 0 ≤ contribAt row t := by
  refine List.sum_nonneg ?_
  intro x hx
  obtain ⟨q, hq, rfl⟩ := List.mem_map.mp hx
  exact h q (List.mem_of_mem_filter hq)

theorem applyRow_apply (scale : ℚ) (row : List (String × ℚ)) :
    ∀ (next : String → ℚ) (t : String),
      applyRow scale next row t = next t + scale * contribAt row t := by
  induction row with
  | nil => intro next t; simp [applyRow, contribAt]
  | cons p rest ih =>
    intro next t
    obtain ⟨a, w⟩ := p
    have hstep : applyRow scale next ((a, w) :: rest) =
        applyRow scale (fupd next a (next a + scale * w)) rest := rfl
    rw [hstep, ih, contribAt_cons]
    by_cases hat : a = t
    · subst hat
      simp [fupd]
      ring
    · have hta : ¬ t = a := fun h => hat h.symm
      simp [fupd, hat, hta]

/-- The contribution of a single adjacency row `(source, row)` to target `t`. -/
def prSourceTerm (outW ranks : String → ℚ) (srow : String × List (String × ℚ))
    (t : String) : ℚ :=
  if outW srow.1 ≤ 0 then 0
  else if ranks srow.1 ≤ 0 then 0
  else (PAGERANK_DAMPING * ranks srow.1 / outW srow.1) * contribAt srow.2 t

theorem prFold_apply (outW ranks : String → ℚ) (adj : List (String × List (String × ℚ))) :
    ∀ (base : String → ℚ) (t : String),
      (adj.foldl
        (fun next srow =>
          if outW srow.1 ≤ 0 then next
          else if ranks srow.1 ≤ 0 then next
          else applyRow (PAGERANK_DAMPING * ranks srow.1 / outW srow.1) next srow.2)
        base) t
      = base t + (adj.map (fun srow => prSourceTerm outW ranks srow t)).sum := by
  induction adj with
  | nil => intro base t; simp
  | cons srow rest ih =>
    intro base t
    rw [List.foldl_cons, ih]
    unfold prSourceTerm
    by_cases h1 : outW srow.1 ≤ 0
    · simp only [h1, if_true, List.map_cons, List.sum_cons]
      ring
    · by_cases h2 : ranks srow.1 ≤ 0
      · simp only [h1, h2, if_false, if_true, List.map_cons, List.sum_cons]
        ring
      · simp only [h1, h2, if_false, List.map_cons, List.sum_cons]
        rw [applyRow_apply]
        ring

theorem pagerankIter_apply (nodeKeys : List String)
    (adj : List (String × List (String × ℚ))) (outW ranks : String → ℚ) (t : String) :
    pagerankIter nodeKeys adj outW ranks t =
      (if t ∈ nodeKeys then
        prTeleport nodeKeys +
          PAGERANK_DAMPING * prDangling nodeKeys outW ranks / mkRat nodeKeys.length 1
       else 0)
      + (adj.map (fun srow => prSourceTerm outW ranks srow t)).sum := by
  simp only [pagerankIter]
  rw [prFold_apply]

theorem damping_eq : PAGERANK_DAMPING = 17/20 := by
  norm_num [PAGERANK_DAMPING, mkRat, Rat.normalize]

theorem tol_pos : 0 < PAGERANK_TOL := by
  norm_num [PAGERANK_TOL, mkRat, Rat.normalize]

theorem mkRat_len (L : List String) : mkRat L.length 1 = (L.length : ℚ) := by
  rw [Rat.mkRat_one]
  push_cast
  rfl

theorem sumOver_list_sum {α : Type} (L : List String) (adj : List α) (g : α → String → ℚ) :
    sumOver L (fun t => (adj.map (fun s => g s t)).sum) =
      (adj.map (fun s => sumOver L (g s))).sum := by
  induction adj with
  | nil => simpa using sumOver_zero L
  | cons s rest ih =>
    simp only [List.map_cons, List.sum_cons]
    rw [← ih, ← sumOver_add]

theorem sumOver_contribAt (L : List String) (hnd : L.Nodup) (row : List (String × ℚ))
    (hsub : ∀ q ∈ row, q.1 ∈ L) :
    sumOver L (fun t => contribAt row t) = (row.map Prod.snd).sum := by
  induction row with
  | nil => simpa [contribAt] using sumOver_zero L
  | cons q rest ih =>
    obtain ⟨a, w⟩ := q
    rw [sumOver_congr L _ _ (fun t _ => contribAt_cons a w rest t), sumOver_add,
      sumOver_single L hnd a (hsub (a, w) (by simp)),
      ih (fun q hq => hsub q (by simp [hq]))]
    simp

theorem sumOver_sourceTerm (L : List String) (hnd : L.Nodup) (outW ranks : String → ℚ)
    (p : String × List (String × ℚ)) (hsum : (p.2.map Prod.snd).sum = outW p.1)
    (hsub : ∀ q ∈ p.2, q.1 ∈ L) (hr : 0 ≤ ranks p.1) :
    sumOver L (fun t => prSourceTerm outW ranks p t) =
      if outW p.1 ≤ 0 then 0 else PAGERANK_DAMPING * ranks p.1 := by
  by_cases h1 : outW p.1 ≤ 0
  · rw [sumOver_congr L _ (fun _ => 0) (fun t _ => by simp [prSourceTerm, h1])]
    simp [sumOver_zero, h1]
  · by_cases h2 : ranks p.1 ≤ 0
    · have hz : ranks p.1 = 0 := le_antisymm h2 hr
      rw [sumOver_congr L _ (fun _ => 0) (fun t _ => by simp [prSourceTerm, h1, h2])]
      simp [sumOver_zero, h1, hz]
    · have ho : outW p.1 ≠ 0 := fun h => h1 (le_of_eq h)
      rw [sumOver_congr L _
          (fun t => (PAGERANK_DAMPING * ranks p.1 / outW p.1) * contribAt p.2 t)
          (fun t _ => by simp [prSourceTerm, h1, h2]),
        sumOver_mul_left, sumOver_contribAt L hnd p.2 hsub, hsum]
      rw [if_neg h1]
      field_simp

theorem pagerankIter_sum (L : List String) (adj : List (String × List (String × ℚ)))
    (outW ranks : String → ℚ) (hnd : L.Nodup) (hne : L ≠ [])
    (hfst : adj.map Prod.fst = L)
    (hrows : ∀ p ∈ adj, (p.2.map Prod.snd).sum = outW p.1 ∧ ∀ q ∈ p.2, q.1 ∈ L)
    (hr : ∀ t, 0 ≤ ranks t) :
    sumOver L (pagerankIter L adj outW ranks) =
      (1 - PAGERANK_DAMPING) + PAGERANK_DAMPING * sumOver L ranks := by
  have hlen : (0 : ℚ) < L.length := by
    have : 0 < L.length := List.length_pos.mpr hne
    exact_mod_cast this
  have hlenne : (L.length : ℚ) ≠ 0 := ne_of_gt hlen
  rw [sumOver_congr L _ _ (fun t _ => pagerankIter_apply L adj outW ranks t), sumOver_add]
  have hbase : sumOver L (fun t =>
      if t ∈ L then
        prTeleport L + PAGERANK_DAMPING * prDangling L outW ranks / mkRat L.length 1
      else 0) =
      (1 - PAGERANK_DAMPING) + PAGERANK_DAMPING * prDangling L outW ranks := by
    rw [sumOver_mem_const, prTeleport, mkRat_len]
    field_simp
  rw [hbase, sumOver_list_sum]
  have hterms : (adj.map (fun s => sumOver L (fun t => prSourceTerm outW ranks s t))).sum =
      (L.map (fun k => if outW k ≤ 0 then 0 else PAGERANK_DAMPING * ranks k)).sum := by
    have : adj.map (fun s => sumOver L (fun t => prSourceTerm outW ranks s t)) =
        adj.map (fun s => if outW s.1 ≤ 0 then 0 else PAGERANK_DAMPING * ranks s.1) := by
      apply List.map_congr_left
      intro p hp
      exact sumOver_sourceTerm L hnd outW ranks p (hrows p hp).1 (hrows p hp).2 (hr p.1)
    rw [this]
    have : adj.map (fun s => if outW s.1 ≤ 0 then 0 else PAGERANK_DAMPING * ranks s.1) =
        (adj.map Prod.fst).map (fun k => if outW k ≤ 0 then 0 else PAGERANK_DAMPING * ranks k) := by
      rw [List.map_map]
      simp [Function.comp]
    rw [this, hfst]
  rw [hterms]
  have hsplit : prDangling L outW ranks = sumOver L (fun k => if outW k ≤ 0 then ranks k else 0) := rfl
  have hfinal :
      PAGERANK_DAMPING * sumOver L (fun k => if outW k ≤ 0 then ranks k else 0) +
        (L.map (fun k => if outW k ≤ 0 then 0 else PAGERANK_DAMPING * ranks k)).sum =
      PAGERANK_DAMPING * sumOver L ranks := by
    rw [← sumOver_mul_left]
    have : (L.map (fun k => if outW k ≤ 0 then 0 else PAGERANK_DAMPING * ranks k)).sum =
        sumOver L (fun k => if outW k ≤ 0 then 0 else PAGERANK_DAMPING * ranks k) := rfl
    rw [this, ← sumOver_add, ← sumOver_mul_left]
    apply sumOver_congr
    intro t _
    by_cases h : outW t ≤ 0 <;> simp [h]
  rw [hsplit]
  rw [add_assoc, hfinal]

theorem damping_nonneg : 0 ≤ PAGERANK_DAMPING := by rw [damping_eq]; norm_num

theorem teleport_nonneg (L : List String) : 0 ≤ prTeleport L := by
  rw [prTeleport, mkRat_len, damping_eq]
  positivity

theorem prDangling_nonneg (L : List String) (outW ranks : String → ℚ)
    (hr : ∀ t, 0 ≤ ranks t) : 0 ≤ prDangling L outW ranks := by
  apply List.sum_nonneg
  intro x hx
  obtain ⟨k, _, rfl⟩ := List.mem_map.mp hx
  by_cases h : outW k ≤ 0 <;> simp [h, hr k]

theorem prSourceTerm_nonneg (outW ranks : String → ℚ) (p : String × List (String × ℚ))
    (hw : ∀ q ∈ p.2, 0 ≤ q.2) (t : String) : 0 ≤ prSourceTerm outW ranks p t := by
  unfold prSourceTerm
  by_cases h1 : outW p.1 ≤ 0
  · simp [h1]
  · by_cases h2 : ranks p.1 ≤ 0
    · simp [h1, h2]
    · simp only [h1, h2, if_false]
      have hscale : 0 ≤ PAGERANK_DAMPING * ranks p.1 / outW p.1 := by
        apply div_nonneg
        · exact mul_nonneg damping_nonneg (le_of_lt (lt_of_not_le h2))
        · exact le_of_lt (lt_of_not_le h1)
      exact mul_nonneg hscale (contribAt_nonneg p.2 t hw)

theorem pagerankIter_nonneg (L : List String) (adj : List (String × List (String × ℚ)))
    (outW ranks : String → ℚ) (hw : ∀ p ∈ adj, ∀ q ∈ p.2, 0 ≤ q.2)
    (hr : ∀ t, 0 ≤ ranks t) (t : String) :
    0 ≤ pagerankIter L adj outW ranks t := by
  rw [pagerankIter_apply]
  have hbase : 0 ≤ (if t ∈ L then
      prTeleport L + PAGERANK_DAMPING * prDangling L outW ranks / mkRat L.length 1
    else 0) := by
    split
    · have : 0 ≤ PAGERANK_DAMPING * prDangling L outW ranks / mkRat L.length 1 := by
        rw [mkRat_len]
        apply div_nonneg
        · exact mul_nonneg damping_nonneg (prDangling_nonneg L outW ranks hr)
        · positivity
      exact add_nonneg (teleport_nonneg L) this
    · exact le_refl 0
  refine add_nonneg hbase (List.sum_nonneg ?_)
  intro x hx
  obtain ⟨p, hp, rfl⟩ := List.mem_map.mp hx
  exact prSourceTerm_nonneg outW ranks p (hw p hp) t

theorem pagerankIter_teleport_le (L : List String) (adj : List (String × List (String × ℚ)))
    (outW ranks : String → ℚ) (hw : ∀ p ∈ adj, ∀ q ∈ p.2, 0 ≤ q.2)
    (hr : ∀ t, 0 ≤ ranks t) (t : String) (ht : t ∈ L) :
    prTeleport L ≤ pagerankIter L adj outW ranks t := by
  rw [pagerankIter_apply, if_pos ht]
  have h1 : 0 ≤ PAGERANK_DAMPING * prDangling L outW ranks / mkRat L.length 1 := by
    rw [mkRat_len]
    apply div_nonneg
    · exact mul_nonneg damping_nonneg (prDangling_nonneg L outW ranks hr)
    · positivity
  have h2 : 0 ≤ (adj.map (fun srow => prSourceTerm outW ranks srow t)).sum := by
    apply List.sum_nonneg
    intro x hx
    obtain ⟨p, hp, rfl⟩ := List.mem_map.mp hx
    exact prSourceTerm_nonneg outW ranks p (hw p hp) t
  linarith

theorem pagerankIter_allDangling (L : List String) (adj : List (String × List (String × ℚ)))
    (outW ranks : String → ℚ) (h0 : ∀ k, outW k ≤ 0) (t : String) :
    pagerankIter L adj outW ranks t =
      if t ∈ L then
        prTeleport L + PAGERANK_DAMPING * prDangling L outW ranks / mkRat L.length 1
      else 0 := by
  rw [pagerankIter_apply]
  have : (adj.map (fun srow => prSourceTerm outW ranks srow t)).sum = 0 := by
    apply List.sum_eq_zero
    intro x hx
    obtain ⟨p, _, rfl⟩ := List.mem_map.mp hx
    simp [prSourceTerm, h0 p.1]
  rw [this, add_zero]

theorem pagerankLoop_succ (L : List String) (adj : List (String × List (String × ℚ)))
    (outW : String → ℚ) (fuel : ℕ) (ranks : String → ℚ) :
    pagerankLoop L adj outW (fuel + 1) ranks =
      if (L.map (fun k => jsAbs (pagerankIter L adj outW ranks k - ranks k))).sum <
          PAGERANK_TOL
      then pagerankIter L adj outW ranks
      else pagerankLoop L adj outW fuel (pagerankIter L adj outW ranks) := rfl

theorem pagerankLoop_inv (L : List String) (adj : List (String × List (String × ℚ)))
    (outW : String → ℚ) (hnd : L.Nodup) (hne : L ≠ [])
    (hfst : adj.map Prod.fst = L)
    (hrows : ∀ p ∈ adj, (p.2.map Prod.snd).sum = outW p.1 ∧ ∀ q ∈ p.2, q.1 ∈ L ∧ 0 ≤ q.2) :
    ∀ (fuel : ℕ) (ranks : String → ℚ), (∀ t, 0 ≤ ranks t) → sumOver L ranks = 1 →
      (∀ t, 0 ≤ pagerankLoop L adj outW fuel ranks t) ∧
      sumOver L (pagerankLoop L adj outW fuel ranks) = 1 ∧
      (1 ≤ fuel → ∀ k ∈ L, prTeleport L ≤ pagerankLoop L adj outW fuel ranks k) := by
  have hw : ∀ p ∈ adj, ∀ q ∈ p.2, 0 ≤ q.2 := fun p hp q hq => ((hrows p hp).2 q hq).2
  have hrows' : ∀ p ∈ adj, (p.2.map Prod.snd).sum = outW p.1 ∧ ∀ q ∈ p.2, q.1 ∈ L :=
    fun p hp => ⟨(hrows p hp).1, fun q hq => ((hrows p hp).2 q hq).1⟩
  intro fuel
  induction fuel with
  | zero =>
    intro ranks h0 h1
    exact ⟨h0, h1, fun h => absurd h (by omega)⟩
  | succ fuel ih =>
    intro ranks h0 h1
    have hnext0 : ∀ t, 0 ≤ pagerankIter L adj outW ranks t :=
      pagerankIter_nonneg L adj outW ranks hw h0
    have hnextsum : sumOver L (pagerankIter L adj outW ranks) = 1 := by
      rw [pagerankIter_sum L adj outW ranks hnd hne hfst hrows' h0, h1]
      ring
    have hnextlb : ∀ k ∈ L, prTeleport L ≤ pagerankIter L adj outW ranks k :=
      fun k hk => pagerankIter_teleport_le L adj outW ranks hw h0 k hk
    rw [pagerankLoop_succ]
    by_cases hd : (L.map (fun k => jsAbs (pagerankIter L adj outW ranks k - ranks k))).sum <
        PAGERANK_TOL
    · rw [if_pos hd]
      exact ⟨hnext0, hnextsum, fun _ => hnextlb⟩
    · rw [if_neg hd]
      obtain ⟨ha, hb, hc⟩ := ih (pagerankIter L adj outW ranks) hnext0 hnextsum
      refine ⟨ha, hb, fun _ k hk => ?_⟩
      cases fuel with
      | zero => simpa [pagerankLoop] using hnextlb k hk
      | succ f => exact hc (by omega) k hk

/-- With no positive out-weight anywhere (no effective edges), the loop
converges immediately to the uniform distribution. -/
theorem computeWeightedPageRank_zero_out (L : List String)
    (adj : List (String × List (String × ℚ))) (outW : String → ℚ)
    (hne : L ≠ []) (h0 : ∀ k, outW k ≤ 0) (k : String) :
    computeWeightedPageRank L adj outW k =
      if k ∈ L then 1 / mkRat L.length 1 else 0 := by
  have hlen : (0 : ℚ) < L.length := by
    have : 0 < L.length := List.length_pos.mpr hne
    exact_mod_cast this
  have hlenne : (L.length : ℚ) ≠ 0 := ne_of_gt hlen
  have hlen0 : ¬ L.length = 0 := fun h => hne (List.length_eq_zero.mp h)
  have hcw : computeWeightedPageRank L adj outW =
      pagerankLoop L adj outW PAGERANK_MAX_ITER
        (fun k => if k ∈ L then 1 / mkRat L.length 1 else 0) := by
    unfold computeWeightedPageRank
    rw [if_neg hlen0]
  set init : String → ℚ := fun k => if k ∈ L then 1 / mkRat L.length 1 else 0 with hinitdef
  have hinitsum : sumOver L init = 1 := by
    rw [hinitdef, sumOver_mem_const, mkRat_len]
    field_simp
  have hdang : prDangling L outW init = 1 := by
    have hco : sumOver L (fun t => if outW t ≤ 0 then init t else 0) = sumOver L init :=
      sumOver_congr _ _ _ (fun t _ => by rw [if_pos (h0 t)])
    calc prDangling L outW init
        = sumOver L (fun t => if outW t ≤ 0 then init t else 0) := rfl
      _ = sumOver L init := hco
      _ = 1 := hinitsum
  have hiter : ∀ t, pagerankIter L adj outW init t = init t := by
    intro t
    rw [pagerankIter_allDangling L adj outW init h0, hdang]
    by_cases ht : t ∈ L
    · rw [if_pos ht, hinitdef]
      simp only [ht, if_true]
      rw [prTeleport, mkRat_len, damping_eq]
      field_simp
    · rw [if_neg ht, hinitdef]
      simp [ht]
  have hdelta :
      (L.map (fun k => jsAbs (pagerankIter L adj outW init k - init k))).sum = 0 := by
    apply List.sum_eq_zero
    intro x hx
    obtain ⟨t, _, rfl⟩ := List.mem_map.mp hx
    rw [hiter t]
    simp [jsAbs]
  rw [hcw]
  show pagerankLoop L adj outW PAGERANK_MAX_ITER init k = if k ∈ L then 1 / mkRat L.length 1 else 0
  rw [show PAGERANK_MAX_ITER = 99 + 1 from rfl, pagerankLoop_succ,
    if_pos (by rw [hdelta]; exact tol_pos), hiter k, hinitdef]

/-- C4: at the result of the weighted PageRank power iteration (damping 0.85,
uniform initial rank `1/N`, dangling mass redistributed uniformly), the rank
sum equals `1` exactly (hence is within `±1e-6`); on a graph with nodes but
no out-weight (no edges) every node's rank equals `1/N`; and every node
keeps a strictly positive teleport-mass rank.  Hypotheses record that the
adjacency structure is the one `recomputeMergedImportanceStats` builds:
one row per node key, row sums equal to the out-weights, targets among the
node keys, non-negative weights. -/
theorem C4_pagerank_validity (L : List String) (adj : List (String × List (String × ℚ)))
    (outW : String → ℚ) (hnd : L.Nodup) (hne : L ≠ [])
    (hfst : adj.map Prod.fst = L)
    (hrows : ∀ p ∈ adj, (p.2.map Prod.snd).sum = outW p.1 ∧ ∀ q ∈ p.2, q.1 ∈ L ∧ 0 ≤ q.2) :
    (sumOver L (computeWeightedPageRank L adj outW) = 1 ∧
      jsAbs (sumOver L (computeWeightedPageRank L adj outW) - 1) ≤ mkRat 1 1000000) ∧
    ((∀ k, outW k ≤ 0) →
      ∀ k ∈ L, computeWeightedPageRank L adj outW k = 1 / mkRat L.length 1) ∧
    (∀ k ∈ L, 0 < computeWeightedPageRank L adj outW k) := by
  have hlen : (0 : ℚ) < L.length := by
    have : 0 < L.length := List.length_pos.mpr hne
    exact_mod_cast this
  have hlenne : (L.length : ℚ) ≠ 0 := ne_of_gt hlen
  have hlen0 : ¬ L.length = 0 := fun h => hne (List.length_eq_zero.mp h)
  have hcw : computeWeightedPageRank L adj outW =
      pagerankLoop L adj outW PAGERANK_MAX_ITER
        (fun k => if k ∈ L then 1 / mkRat L.length 1 else 0) := by
    unfold computeWeightedPageRank
    rw [if_neg hlen0]
  have hinit0 : ∀ t, 0 ≤ (fun k => if k ∈ L then 1 / mkRat L.length 1 else 0) t := by
    intro t
    by_cases h : t ∈ L
    · simp only [h, if_true, mkRat_len]
      positivity
    · simp [h]
  have hinitsum : sumOver L (fun k => if k ∈ L then 1 / mkRat L.length 1 else 0) = 1 := by
    rw [sumOver_mem_const, mkRat_len]
    field_simp
  have htel : 0 < prTeleport L := by
    rw [prTeleport, mkRat_len, damping_eq]
    positivity
  obtain ⟨hpos, hsum, hlb⟩ :=
    pagerankLoop_inv L adj outW hnd hne hfst hrows PAGERANK_MAX_ITER
      (fun k => if k ∈ L then 1 / mkRat L.length 1 else 0) hinit0 hinitsum
  refine ⟨⟨by rw [hcw]; exact hsum, ?_⟩, ?_, ?_⟩
  · rw [hcw, hsum]
    norm_num [jsAbs, PAGERANK_TOL, mkRat, Rat.normalize]
  · intro h0 k hk
    rw [computeWeightedPageRank_zero_out L adj outW hne h0 k, if_pos hk]
  · intro k hk
    rw [hcw]
    exact lt_of_lt_of_le htel (hlb (by norm_num [PAGERANK_MAX_ITER]) k hk)

/-- Witness for C4: a single node `"a"` with an empty adjacency row. -/
theorem C4_pagerank_validity_witness :
    sumOver ["a"] (computeWeightedPageRank ["a"] [("a", [])] (fun _ => 0)) = 1 ∧
    computeWeightedPageRank ["a"] [("a", [])] (fun _ => 0) "a" = 1 / mkRat 1 1 ∧
    0 < computeWeightedPageRank ["a"] [("a", [])] (fun _ => 0) "a" := by
  have h := C4_pagerank_validity ["a"] [("a", [])] (fun _ => 0) (by decide)
    (by decide) (by decide)
    (by intro p hp
        simp only [List.mem_singleton] at hp
        subst hp
        exact ⟨by decide, by intro q hq; simp at hq⟩)
  exact ⟨h.1.1, h.2.1 (fun k => le_refl 0) "a" (by decide), h.2.2 "a" (by decide)⟩

/-! ## `recomputeMergedImportanceStats` (kgGraph.ts)

The single edge loop that fills `outWeight`, `inWeight`, `outDegree`,
`inDegree`, `edgeTypeSets` and `adjacency` is split into one fold per
accumulator (the accumulators are independent).  `Object.keys(adjacency)`
is the node-key list, since `adjacency` is initialised with exactly the
node keys and edges only touch existing rows. -/

/-- `Math.round` (round half toward `+∞`, JS semantics). -/
def jsRound (x : ℚ) : ℤ := ⌊x + mkRat 1 2⌋

/-- `round6`: `Math.round(value * 1_000_000) / 1_000_000`. -/
def round6 (x : ℚ) : ℚ := (jsRound (x * 1000000) : ℚ) / 1000000

/-- `Math.trunc`. -/
def jsTrunc (x : ℚ) : ℤ := if x < 0 then ⌈x⌉ else ⌊x⌋

/-- `clamp(value, min, max)` from kgGraph.ts. -/
def clamp (value mn mx : ℚ) : ℚ :=
  if value < mn then mn else if mx < value then mx else value

/-- `Math.min(...points)` over a non-empty list (`[]` is never passed). -/
def listMinQ : List ℚ → ℚ
  | [] => 0
  | x :: xs => xs.foldl jsMin x

/-- `Math.max(...points)` over a non-empty list (`[]` is never passed). -/
def listMaxQ : List ℚ → ℚ
  | [] => 0
  | x :: xs => xs.foldl jsMax x

/-- `minMaxNormalize(values, keys)` — a record over `keys`, read as a
defaulted view (reads outside `keys` do not occur in the source). -/
def minMaxNormalize (values : String → ℚ) (keys : List String) : String → ℚ :=
  if keys = [] then fun _ => 0
  else
    let points := keys.map values
    let mn := listMinQ points
    let mx := listMaxQ points
    let span := mx - mn
    if span ≤ mkRat 1 1000000000000 then
      fun k => if k ∈ keys then (if 0 < mx then 1 else 0) else 0
    else
      fun k => if k ∈ keys then (values k - mn) / span else 0

/-- Both edge endpoints resolve in `nodes_by_key` (the dangling-reference
guard `if (!graph.nodes_by_key[edge.source] || ...) continue`). -/
def edgeEndpointsPresent (g : KgMergedGraph) (e : KgEdge) : Bool :=
  (List.lookup e.source g.nodes_by_key).isSome && (List.lookup e.target g.nodes_by_key).isSome

def kgOutWeight (g : KgMergedGraph) : String → ℚ :=
  (g.edges_by_key.map Prod.snd).foldl
    (fun f e =>
      if edgeEndpointsPresent g e then
        fupd f e.source (f e.source + max 0 (jsOrQ e.weight))
      else f)
    (fun _ => 0)

def kgInWeight (g : KgMergedGraph) : String → ℚ :=
  (g.edges_by_key.map Prod.snd).foldl
    (fun f e =>
      if edgeEndpointsPresent g e then
        fupd f e.target (f e.target + max 0 (jsOrQ e.weight))
      else f)
    (fun _ => 0)

def kgOutDegree (g : KgMergedGraph) : String → ℚ :=
  (g.edges_by_key.map Prod.snd).foldl
    (fun f e =>
      if edgeEndpointsPresent g e then fupd f e.source (f e.source + 1) else f)
    (fun _ => 0)

def kgInDegree (g : KgMergedGraph) : String → ℚ :=
  (g.edges_by_key.map Prod.snd).foldl
    (fun f e =>
      if edgeEndpointsPresent g e then fupd f e.target (f e.target + 1) else f)
    (fun _ => 0)

/-- JS `Set.prototype.add`: append if absent. -/
def addTypeOnce (l : List String) (ty : String) : List String :=
  if ty ∈ l then l else l ++ [ty]

def kgEdgeTypeSets (g : KgMergedGraph) : String → List String :=
  (g.edges_by_key.map Prod.snd).foldl
    (fun f e =>
      if edgeEndpointsPresent g e then
        let f1 := fupd f e.source (addTypeOnce (f e.source) e.type)
        fupd f1 e.target (addTypeOnce (f1 e.target) e.type)
      else f)
    (fun _ => [])

/-- `adjacency[source][target] = (adjacency[source][target] ?? 0) + weight`. -/
def bumpRow (row : List (String × ℚ)) (t : String) (w : ℚ) : List (String × ℚ) :=
  recUpsert row t ((List.lookup t row).getD 0 + w)

def kgAdjRow (g : KgMergedGraph) : String → List (String × ℚ) :=
  (g.edges_by_key.map Prod.snd).foldl
    (fun f e =>
      if edgeEndpointsPresent g e then
        fupd f e.source (bumpRow (f e.source) e.target (max 0 (jsOrQ e.weight)))
      else f)
    (fun _ => [])

def kgNodeKeys (g : KgMergedGraph) : List String := g.nodes_by_key.map Prod.fst

def kgAdj (g : KgMergedGraph) : List (String × List (String × ℚ)) :=
  (kgNodeKeys g).map (fun k => (k, kgAdjRow g k))

def kgPagerank (g : KgMergedGraph) : String → ℚ :=
  computeWeightedPageRank (kgNodeKeys g) (kgAdj g) (kgOutWeight g)

def kgWeightedDegree (g : KgMergedGraph) : String → ℚ :=
  fun k => kgOutWeight g k + kgInWeight g k

def kgDiversity (g : KgMergedGraph) : String → ℚ :=
  fun k => mkRat (kgEdgeTypeSets g k).length 1

/-- `stableNodeType(graph.nodes_by_key[key].node_type)`. -/
def nodeTypeOf (g : KgMergedGraph) (k : String) : String :=
  stableNodeType (((List.lookup k g.nodes_by_key).map KgNode.node_type).getD "")

/-- `graph.nodes_by_key[a.key].name || a.key` in the sort comparator. -/
def nodeNameOf (g : KgMergedGraph) (k : String) : String :=
  jsOrStr (((List.lookup k g.nodes_by_key).map KgNode.name).getD "") k

/-- `byType` grouping: `byType[t].push(key)` in node-key order, types in
first-occurrence order. -/
def groupByType (typeOf : String → String) (keys : List String) :
    List (String × List String) :=
  keys.foldl
    (fun acc k =>
      match List.lookup (typeOf k) acc with
      | none => acc ++ [(typeOf k, [k])]
      | some ks => recUpsert acc (typeOf k) (ks ++ [k]))
    []

/-- The per-type composite score `0.55·normPR + 0.3·normWD + 0.15·normDIV`. -/
def kgGroupScore (g : KgMergedGraph) (keys : List String) : String → ℚ :=
  fun k =>
    mkRat 11 20 * minMaxNormalize (kgPagerank g) keys k +
    mkRat 3 10 * minMaxNormalize (kgWeightedDegree g) keys k +
    mkRat 3 20 * minMaxNormalize (kgDiversity g) keys k

/-- The sort comparator of `recomputeMergedImportanceStats`, as the Boolean
relation "`compare(a, b) ≤ 0`": score descending, then raw PageRank
descending, then raw weighted degree descending, then name ascending
(`localeCompare` modelled as code-point order). -/
def cmpKeysLE (score pr wd : String → ℚ) (nameOf : String → String) (a b : String) : Bool :=
  if score a ≠ score b then decide (score b < score a)
  else if pr a ≠ pr b then decide (pr b < pr a)
  else if wd a ≠ wd b then decide (wd b < wd a)
  else !decide (nameOf b < nameOf a)

/-- `rankByKey`: position + 1 in the sorted order. -/
def rankOfSorted (sorted : List String) : String → ℕ :=
  sorted.enum.foldl (fun acc ik => fupd acc ik.2 (ik.1 + 1)) (fun _ => 0)

/-- Placeholder for the total lookup `graph.nodes_by_key[key]`
(in the source the key is always present). -/
def defaultKgNode : KgNode :=
  { key := "", id := "", name := "", node_type := "", labels := [], seen_count := 0,
    metrics := EMPTY_METRICS, score := EMPTY_SCORE }

/-- One `byType` partition of the `recomputeMergedImportanceStats` body:
normalise, score, sort (stable), rank, and rebuild each node.  `importance`
is `scored.find(row => row.key === key).score`, i.e. the key's own score. -/
def recomputeTypeGroup (g : KgMergedGraph) (keys : List String) :
    List (String × KgNode) :=
  let score := kgGroupScore g keys
  let sorted := keys.mergeSort (cmpKeysLE score (kgPagerank g) (kgWeightedDegree g) (nodeNameOf g))
  let rankByKey := rankOfSorted sorted
  let topKey := sorted.head?
  keys.map (fun k =>
    let base := (List.lookup k g.nodes_by_key).getD defaultKgNode
    (k,
      { base with
        metrics :=
          { pagerank := round6 (kgPagerank g k)
            weighted_degree := round6 (kgWeightedDegree g k)
            edge_type_diversity := (jsTrunc (kgDiversity g k) : ℚ)
            in_degree := (jsTrunc (kgInDegree g k) : ℚ)
            out_degree := (jsTrunc (kgOutDegree g k) : ℚ)
            weighted_in_degree := round6 (kgInWeight g k)
            weighted_out_degree := round6 (kgOutWeight g k) }
        score :=
          { importance_score := round6 (clamp (score k) 0 1)
            normalized_pagerank := round6 (clamp (minMaxNormalize (kgPagerank g) keys k) 0 1)
            normalized_weighted_degree :=
              round6 (clamp (minMaxNormalize (kgWeightedDegree g) keys k) 0 1)
            normalized_edge_type_diversity :=
              round6 (clamp (minMaxNormalize (kgDiversity g) keys k) 0 1)
            rank_in_type := rankByKey k
            is_top_in_type := topKey == some k } }))

def recomputeMergedImportanceStats (graph : KgMergedGraph) : KgMergedGraph :=
  if (kgNodeKeys graph).length = 0 then
    { graph with summary := recomputeSummary graph }
  else
    let byType := groupByType (nodeTypeOf graph) (kgNodeKeys graph)
    let nextNodes := (byType.map (fun tg => recomputeTypeGroup graph tg.2)).flatten
    { graph with
      nodes_by_key := nextNodes
      summary := recomputeSummary { graph with nodes_by_key := nextNodes } }

/-! ## C6: enumeration-order dependence at full ties -/

theorem minMaxNormalize_congr_val (values : String → ℚ) (keys : List String)
    (a b : String) (ha : a ∈ keys) (hb : b ∈ keys) (hv : values a = values b) :
    minMaxNormalize values keys a = minMaxNormalize values keys b := by
  unfold minMaxNormalize
  split
  · rfl
  · dsimp only
    split <;> simp [ha, hb, hv]

/-- Two nodes of the same type with the *same* name: every comparator
component ties. -/
def tieNode (k : String) : KgNode :=
  { key := k, id := k, name := "same", node_type := "T", labels := [],
    seen_count := 1, metrics := EMPTY_METRICS, score := EMPTY_SCORE }

def tieGraphA : KgMergedGraph :=
  { nodes_by_key := [("k1", tieNode "k1"), ("k2", tieNode "k2")]
    edges_by_key := []
    summary := { node_count := 2, edge_count := 0, node_type_count := 1 }
    scoring := createEmptyKgMergedGraph.scoring }

def tieGraphB : KgMergedGraph :=
  { nodes_by_key := [("k2", tieNode "k2"), ("k1", tieNode "k1")]
    edges_by_key := []
    summary := { node_count := 2, edge_count := 0, node_type_count := 1 }
    scoring := createEmptyKgMergedGraph.scoring }

theorem tieGraph_rank (g : KgMergedGraph) (k1 k2 : String)
    (hnodes : kgNodeKeys g = [k1, k2])
    (hout : ∀ k, kgOutWeight g k ≤ 0)
    (hwd : kgWeightedDegree g k1 = kgWeightedDegree g k2)
    (hdv : kgDiversity g k1 = kgDiversity g k2)
    (hnm : nodeNameOf g k1 = nodeNameOf g k2)
    (hne12 : k1 ≠ k2) :
    [k1, k2].mergeSort
      (cmpKeysLE (kgGroupScore g [k1, k2]) (kgPagerank g) (kgWeightedDegree g)
        (nodeNameOf g)) = [k1, k2] := by
  have hpr : kgPagerank g k1 = kgPagerank g k2 := by
    unfold kgPagerank
    rw [computeWeightedPageRank_zero_out _ _ _ (by rw [hnodes]; simp) hout,
      computeWeightedPageRank_zero_out _ _ _ (by rw [hnodes]; simp) hout, hnodes]
    simp
  have h1m : k1 ∈ [k1, k2] := by simp
  have h2m : k2 ∈ [k1, k2] := by simp
  have hscore : kgGroupScore g [k1, k2] k1 = kgGroupScore g [k1, k2] k2 := by
    unfold kgGroupScore
    rw [minMaxNormalize_congr_val _ _ _ _ h1m h2m hpr,
      minMaxNormalize_congr_val _ _ _ _ h1m h2m hwd,
      minMaxNormalize_congr_val _ _ _ _ h1m h2m hdv]
  have hcmp : cmpKeysLE (kgGroupScore g [k1, k2]) (kgPagerank g) (kgWeightedDegree g)
      (nodeNameOf g) k1 k2 = true := by
    unfold cmpKeysLE
    rw [if_neg (by simp [hscore]), if_neg (by simp [hpr]), if_neg (by simp [hwd]), hnm]
    simp
  apply List.mergeSort_of_sorted
  exact List.pairwise_cons.mpr ⟨fun b hb => by simp at hb; subst hb; exact hcmp,
    List.pairwise_singleton _ _⟩

/-- Counterexample for C6 as stated: `tieGraphA` and `tieGraphB` hold the
same nodes (a permutation) and the same (empty) edge set, yet node `"k1"`
is ranked 1 in one enumeration order and 2 in the other — the tie on
(score, PageRank, degree, name) falls back to enumeration order, so the
order is *not* independent of enumeration. -/
theorem C6_counterexample :
    tieGraphA.nodes_by_key.Perm tieGraphB.nodes_by_key ∧
    tieGraphA.edges_by_key = tieGraphB.edges_by_key ∧
    (List.lookup "k1" (recomputeMergedImportanceStats tieGraphA).nodes_by_key).map
      (fun n => n.score.rank_in_type) = some 1 ∧
    (List.lookup "k1" (recomputeMergedImportanceStats tieGraphB).nodes_by_key).map
      (fun n => n.score.rank_in_type) = some 2 := by
  refine ⟨List.Perm.swap _ _ _, rfl, ?_, ?_⟩
  · have hsort := tieGraph_rank tieGraphA "k1" "k2" rfl
      (fun k => le_of_eq rfl) rfl rfl rfl (by decide)
    have hby : groupByType (nodeTypeOf tieGraphA) (kgNodeKeys tieGraphA) =
        [("T", ["k1", "k2"])] := by decide
    simp only [recomputeMergedImportanceStats]
    rw [if_neg (by decide), hby]
    simp only [List.map_cons, List.map_nil, List.flatten, List.append_nil,
      recomputeTypeGroup]
    rw [hsort]
    rfl
  · have hsort := tieGraph_rank tieGraphB "k2" "k1" rfl
      (fun k => le_of_eq rfl) rfl rfl rfl (by decide)
    have hby : groupByType (nodeTypeOf tieGraphB) (kgNodeKeys tieGraphB) =
        [("T", ["k2", "k1"])] := by decide
    simp only [recomputeMergedImportanceStats]
    rw [if_neg (by decide), hby]
    simp only [List.map_cons, List.map_nil, List.flatten, List.append_nil,
      recomputeTypeGroup]
    rw [hsort]
    rfl

/-! ## Association-list facts used for enumeration-order reasoning -/

theorem lookup_mem {α : Type} {m : List (String × α)} {k : String} {v : α}
    (h : List.lookup k m = some v) : (k, v) ∈ m := by
  induction m with
  | nil => simp at h
  | cons p rest ih =>
    obtain ⟨k', v'⟩ := p
    by_cases hk : k = k'
    · subst hk
      simp only [List.lookup_cons_self, Option.some.injEq] at h
      simp [h]
    · have hbeq : (k == k') = false := beq_eq_false_iff_ne.mpr hk
      simp only [List.lookup, hbeq] at h
      exact List.mem_cons_of_mem _ (ih h)

theorem lookup_of_mem_nodup {α : Type} {m : List (String × α)} {k : String} {v : α}
    (hnd : (m.map Prod.fst).Nodup) (h : (k, v) ∈ m) : List.lookup k m = some v := by
  induction m with
  | nil => simp at h
  | cons p rest ih =>
    obtain ⟨k', v'⟩ := p
    simp only [List.map_cons, List.nodup_cons] at hnd
    rcases List.mem_cons.mp h with he | he
    · rw [show k = k' from congrArg Prod.fst he]
      simp [show v' = v from congrArg Prod.snd he.symm]
    · have hk : k ≠ k' := by
        rintro rfl
        exact hnd.1 (List.mem_map.mpr ⟨(k, v), he, rfl⟩)
      have hbeq : (k == k') = false := beq_eq_false_iff_ne.mpr hk
      simp only [List.lookup, hbeq]
      exact ih hnd.2 he

theorem lookup_eq_of_perm {α : Type} {l1 l2 : List (String × α)} (h : l1.Perm l2) :
    (l1.map Prod.fst).Nodup → ∀ k, List.lookup k l1 = List.lookup k l2 := by
  induction h with
  | nil => exact fun _ _ => rfl
  | cons p h ih =>
    intro hnd k
    have hnd' := by
      simp only [List.map_cons] at hnd
      exact hnd.of_cons
    cases hkp : (k == p.1) <;> simp [List.lookup, hkp, ih hnd' k]
  | swap x y l =>
    intro hnd k
    have hxy : y.1 ≠ x.1 := by
      simp only [List.map_cons, List.nodup_cons, List.mem_cons] at hnd
      exact fun he => hnd.1 (Or.inl he)
    cases hky : (k == y.1) <;> cases hkx : (k == x.1)
    all_goals simp [List.lookup, hky, hkx]
    exact absurd ((eq_of_beq hky).symm.trans (eq_of_beq hkx)) hxy
  | trans h1 h2 ih1 ih2 =>
    intro hnd k
    rw [ih1 hnd k, ih2 ((h1.map Prod.fst).nodup_iff.mp hnd) k]

theorem lookup_map_self {α : Type} (keys : List String) (F : String → α) (k : String) :
    List.lookup k (keys.map (fun x => (x, F x))) =
      if k ∈ keys then some (F k) else none := by
  induction keys with
  | nil => simp
  | cons x rest ih =>
    by_cases hk : k = x
    · subst hk
      simp [List.lookup]
    · have hbeq : (k == x) = false := beq_eq_false_iff_ne.mpr hk
      simp [List.lookup, hbeq, ih, hk]

theorem recUpsert_map_fst_of_lookup {α : Type} (m : List (String × α)) (k : String) (v : α)
    (h : (List.lookup k m).isSome) : (recUpsert m k v).map Prod.fst = m.map Prod.fst := by
  induction m with
  | nil => simp at h
  | cons p rest ih =>
    obtain ⟨k', v'⟩ := p
    by_cases hk : k' = k
    · subst hk
      simp [recUpsert]
    · have hbeq : (k == k') = false := beq_eq_false_iff_ne.mpr (fun he => hk he.symm)
      simp only [List.lookup, hbeq] at h
      simp [recUpsert, hk, ih h]

theorem mem_recUpsert_of_nodup {α : Type} {m : List (String × α)} {k : String} {v : α}
    {p : String × α} (hnd : (m.map Prod.fst).Nodup) (h : p ∈ recUpsert m k v) :
    p = (k, v) ∨ (p ∈ m ∧ p.1 ≠ k) := by
  induction m with
  | nil =>
    simp [recUpsert] at h
    simp [h]
  | cons q rest ih =>
    obtain ⟨k', v'⟩ := q
    simp only [List.map_cons, List.nodup_cons] at hnd
    by_cases hk : k' = k
    · subst hk
      simp only [recUpsert, if_pos rfl] at h
      rcases List.mem_cons.mp h with he | he
      · exact Or.inl he
      · have hpk : p.1 ≠ k' := by
          intro hc
          exact hnd.1 (List.mem_map.mpr ⟨p, he, hc⟩)
        exact Or.inr ⟨List.mem_cons_of_mem _ he, hpk⟩
    · simp only [recUpsert, if_neg hk] at h
      rcases List.mem_cons.mp h with he | he
      · subst he
        exact Or.inr ⟨List.mem_cons_self _ _, fun hc => hk hc⟩
      · rcases ih hnd.2 he with h1 | h1
        · exact Or.inl h1
        · exact Or.inr ⟨List.mem_cons_of_mem _ h1.1, h1.2⟩

/-! ## `groupByType` characterisation -/

/-- One step of the `byType` fold. -/
def groupStep (f : String → String) (acc : List (String × List String)) (k : String) :
    List (String × List String) :=
  match List.lookup (f k) acc with
  | none => acc ++ [(f k, [k])]
  | some ks => recUpsert acc (f k) (ks ++ [k])

theorem groupByType_eq_foldl (f : String → String) (keys : List String) :
    groupByType f keys = keys.foldl (groupStep f) [] := rfl

/-- Invariant of the `byType` fold: distinct types, each entry is the
filter of the processed keys by its type, every processed key's type is
present, every present type has a witness. -/
def GroupInv (f : String → String) (done : List String)
    (acc : List (String × List String)) : Prop :=
  (acc.map Prod.fst).Nodup ∧
  (∀ p ∈ acc, p.2 = done.filter (fun k => f k == p.1)) ∧
  (∀ k ∈ done, f k ∈ acc.map Prod.fst) ∧
  (∀ t ∈ acc.map Prod.fst, ∃ k ∈ done, f k = t)

theorem groupStep_inv (f : String → String) (done : List String)
    (acc : List (String × List String)) (k : String) (h : GroupInv f done acc) :
    GroupInv f (done ++ [k]) (groupStep f acc k) := by
  obtain ⟨h1, h2, h3, h4⟩ := h
  unfold groupStep
  cases hl : List.lookup (f k) acc with
  | none =>
    have hfk : f k ∉ acc.map Prod.fst := by
      intro hm
      obtain ⟨p, hp, he⟩ := List.mem_map.mp hm
      have := List.lookup_eq_none_iff.mp hl p hp
      rw [bne_iff_ne] at this
      exact this he.symm
    refine ⟨?_, ?_, ?_, ?_⟩
    · rw [List.map_append]
      apply List.Nodup.append h1 (by simp)
      simp only [List.map_cons, List.map_nil]
      intro a ha hb
      simp only [List.mem_cons, List.not_mem_nil, or_false] at hb
      exact hfk (hb ▸ ha)
    · intro p hp
      rcases List.mem_append.mp hp with hp | hp
      · rw [h2 p hp, List.filter_append]
        have hne : ¬ (f k == p.1) = true := by
          rw [beq_iff_eq]
          exact fun he => hfk (he ▸ List.mem_map.mpr ⟨p, hp, rfl⟩)
        simp [List.filter_cons, hne]
      · simp only [List.mem_cons, List.not_mem_nil, or_false] at hp
        subst hp
        rw [List.filter_append]
        have hdone : done.filter (fun k' => f k' == f k) = [] := by
          rw [List.filter_eq_nil_iff]
          intro k' hk'
          rw [beq_iff_eq]
          exact fun he => hfk (he ▸ h3 k' hk')
        simp [hdone, List.filter_cons]
    · intro k' hk'
      rw [List.map_append]
      rcases List.mem_append.mp hk' with h | h
      · exact List.mem_append_left _ (h3 k' h)
      · simp only [List.mem_cons, List.not_mem_nil, or_false] at h
        subst h
        simp
    · intro t ht
      rw [List.map_append] at ht
      rcases List.mem_append.mp ht with h | h
      · obtain ⟨k', hk', he⟩ := h4 t h
        exact ⟨k', List.mem_append_left _ hk', he⟩
      · simp only [List.map_cons, List.map_nil, List.mem_cons, List.not_mem_nil, or_false] at h
        subst h
        exact ⟨k, by simp, rfl⟩
  | some ks =>
    have hmem : (f k, ks) ∈ acc := lookup_mem hl
    have hfst : (recUpsert acc (f k) (ks ++ [k])).map Prod.fst = acc.map Prod.fst :=
      recUpsert_map_fst_of_lookup acc (f k) _ (by rw [hl]; rfl)
    refine ⟨by rw [hfst]; exact h1, ?_, ?_, ?_⟩
    · intro p hp
      rcases mem_recUpsert_of_nodup h1 hp with he | ⟨hin, hne⟩
      · subst he
        rw [List.filter_append, ← h2 (f k, ks) hmem]
        simp [List.filter_cons]
      · rw [h2 p hin, List.filter_append]
        have hne' : ¬ (f k == p.1) = true := by
          rw [beq_iff_eq]
          exact fun he => hne he.symm
        simp [List.filter_cons, hne']
    · intro k' hk'
      rw [hfst]
      rcases List.mem_append.mp hk' with h | h
      · exact h3 k' h
      · simp only [List.mem_cons, List.not_mem_nil, or_false] at h
        subst h
        exact List.mem_map.mpr ⟨_, hmem, rfl⟩
    · intro t ht
      rw [hfst] at ht
      obtain ⟨k', hk', he⟩ := h4 t ht
      exact ⟨k', List.mem_append_left _ hk', he⟩

theorem groupByType_inv (f : String → String) (keys : List String) :
    GroupInv f keys (groupByType f keys) := by
  have main : ∀ (ks done : List String) (acc : List (String × List String)),
      GroupInv f done acc → GroupInv f (done ++ ks) (ks.foldl (groupStep f) acc) := by
    intro ks
    induction ks with
    | nil =>
      intro done acc h
      simpa using h
    | cons k rest ih =>
      intro done acc h
      have := ih (done ++ [k]) (groupStep f acc k) (groupStep_inv f done acc k h)
      simpa [List.append_assoc] using this
  have h0 : GroupInv f [] [] := ⟨by simp, by simp, by simp, by simp⟩
  have := main keys [] [] h0
  simpa [groupByType_eq_foldl] using this

theorem flatten_filter_cons (f : String → String) (k : String) (rest : List String) :
    ∀ (types : List String), types.Nodup → f k ∈ types →
      List.Perm ((types.map (fun t => (k :: rest).filter (fun x => f x == t))).flatten)
        (k :: (types.map (fun t => rest.filter (fun x => f x == t))).flatten) := by
  intro types
  induction types with
  | nil =>
    intro _ h
    simp at h
  | cons t ts ih =>
    intro hnd hmem
    simp only [List.map_cons, List.flatten_cons]
    by_cases hft : f k = t
    · have hne : ∀ t' ∈ ts,
          (k :: rest).filter (fun x => f x == t') = rest.filter (fun x => f x == t') := by
        intro t' ht'
        rw [List.filter_cons]
        have hb : ¬ (f k == t') = true := by
          rw [beq_iff_eq, hft]
          rintro rfl
          exact (List.nodup_cons.mp hnd).1 ht'
        simp [hb]
      rw [List.filter_cons]
      have hb : (f k == t) = true := beq_iff_eq.mpr hft
      simp only [hb, if_true]
      rw [List.map_congr_left hne]
      simp
    · rw [List.filter_cons]
      have hb : ¬ (f k == t) = true := by rw [beq_iff_eq]; exact hft
      simp only [hb, if_false, Bool.false_eq_true]
      have hmem' : f k ∈ ts := by
        rcases List.mem_cons.mp hmem with h | h
        · exact absurd h hft
        · exact h
      have hp := ih (List.nodup_cons.mp hnd).2 hmem'
      exact (hp.append_left _).trans List.perm_middle

theorem filter_partition_perm (f : String → String) :
    ∀ (keys types : List String), types.Nodup → (∀ k ∈ keys, f k ∈ types) →
      List.Perm ((types.map (fun t => keys.filter (fun x => f x == t))).flatten) keys := by
  intro keys
  induction keys with
  | nil =>
    intro types _ _
    have : types.map (fun t => ([] : List String).filter (fun x => f x == t)) =
        types.map (fun _ => []) := by simp
    rw [this]
    simp [List.flatten_eq_nil_iff]
  | cons k rest ih =>
    intro types hnd hcov
    have h1 := flatten_filter_cons f k rest types hnd (hcov k (by simp))
    exact h1.trans ((ih types hnd (fun x hx => hcov x (by simp [hx]))).cons k)

/-! ## Congruence of the per-node statistics in the graph inputs -/

/-- The fields of a node that `recomputeMergedImportanceStats` does not
overwrite. -/
def nodeCore (n : KgNode) : String × String × String × String × List String × ℕ :=
  (n.key, n.id, n.name, n.node_type, n.labels, n.seen_count)

theorem edgeEndpointsPresent_congr (g1 g2 : KgMergedGraph)
    (hsome : ∀ k, (List.lookup k g1.nodes_by_key).isSome =
      (List.lookup k g2.nodes_by_key).isSome) :
    edgeEndpointsPresent g1 = edgeEndpointsPresent g2 := by
  funext e
  unfold edgeEndpointsPresent
  rw [hsome, hsome]

theorem kgStats_congr (g1 g2 : KgMergedGraph)
    (hsome : ∀ k, (List.lookup k g1.nodes_by_key).isSome =
      (List.lookup k g2.nodes_by_key).isSome)
    (hedges : g1.edges_by_key = g2.edges_by_key) :
    kgOutWeight g1 = kgOutWeight g2 ∧ kgInWeight g1 = kgInWeight g2 ∧
    kgOutDegree g1 = kgOutDegree g2 ∧ kgInDegree g1 = kgInDegree g2 ∧
    kgEdgeTypeSets g1 = kgEdgeTypeSets g2 ∧ kgAdjRow g1 = kgAdjRow g2 := by
  have hp := edgeEndpointsPresent_congr g1 g2 hsome
  refine ⟨?_, ?_, ?_, ?_, ?_, ?_⟩ <;>
    simp only [kgOutWeight, kgInWeight, kgOutDegree, kgInDegree, kgEdgeTypeSets, kgAdjRow,
      hedges, hp]

theorem lookup_core_isSome {g1 g2 : KgMergedGraph}
    (hcore : ∀ k, (List.lookup k g1.nodes_by_key).map nodeCore =
      (List.lookup k g2.nodes_by_key).map nodeCore) (k : String) :
    (List.lookup k g1.nodes_by_key).isSome = (List.lookup k g2.nodes_by_key).isSome := by
  have := hcore k
  cases h1 : List.lookup k g1.nodes_by_key <;> cases h2 : List.lookup k g2.nodes_by_key <;>
    simp_all

theorem nodeTypeOf_congr {g1 g2 : KgMergedGraph}
    (hcore : ∀ k, (List.lookup k g1.nodes_by_key).map nodeCore =
      (List.lookup k g2.nodes_by_key).map nodeCore) :
    nodeTypeOf g1 = nodeTypeOf g2 := by
  funext k
  have := hcore k
  unfold nodeTypeOf
  cases h1 : List.lookup k g1.nodes_by_key <;> cases h2 : List.lookup k g2.nodes_by_key <;>
    simp_all [nodeCore]

theorem nodeNameOf_congr {g1 g2 : KgMergedGraph}
    (hcore : ∀ k, (List.lookup k g1.nodes_by_key).map nodeCore =
      (List.lookup k g2.nodes_by_key).map nodeCore) :
    nodeNameOf g1 = nodeNameOf g2 := by
  funext k
  have := hcore k
  unfold nodeNameOf
  cases h1 : List.lookup k g1.nodes_by_key <;> cases h2 : List.lookup k g2.nodes_by_key <;>
    simp_all [nodeCore]

/-! ## Permutation invariance of `minMaxNormalize` -/

theorem jsMin_le_left (a b : ℚ) : jsMin a b ≤ a := by
  unfold jsMin
  split
  · exact le_refl a
  · exact le_of_not_lt (by assumption)

theorem jsMin_le_right (a b : ℚ) : jsMin a b ≤ b := by
  unfold jsMin
  split
  · exact le_of_lt (by assumption)
  · exact le_refl b

theorem jsMin_eq_or (a b : ℚ) : jsMin a b = a ∨ jsMin a b = b := by
  unfold jsMin
  split
  · exact Or.inl rfl
  · exact Or.inr rfl

theorem jsMax_le_left (a b : ℚ) : a ≤ jsMax a b := by
  unfold jsMax
  split
  · exact le_of_lt (by assumption)
  · exact le_refl a

theorem jsMax_le_right (a b : ℚ) : b ≤ jsMax a b := by
  unfold jsMax
  split
  · exact le_refl b
  · exact le_of_not_lt (by assumption)

theorem jsMax_eq_or (a b : ℚ) : jsMax a b = a ∨ jsMax a b = b := by
  unfold jsMax
  split
  · exact Or.inr rfl
  · exact Or.inl rfl

theorem foldl_jsMin_spec : ∀ (xs : List ℚ) (a : ℚ),
    (xs.foldl jsMin a = a ∨ xs.foldl jsMin a ∈ xs) ∧
    xs.foldl jsMin a ≤ a ∧ ∀ x ∈ xs, xs.foldl jsMin a ≤ x := by
  intro xs
  induction xs with
  | nil => exact fun a => ⟨Or.inl rfl, le_refl a, by simp⟩
  | cons x rest ih =>
    intro a
    obtain ⟨hmem, hle, hall⟩ := ih (jsMin a x)
    refine ⟨?_, ?_, ?_⟩
    · rcases hmem with h | h
      · rcases jsMin_eq_or a x with h2 | h2
        · exact Or.inl (by rw [List.foldl_cons, h, h2])
        · exact Or.inr (by rw [List.foldl_cons, h, h2]; simp)
      · exact Or.inr (by rw [List.foldl_cons]; simp [h])
    · rw [List.foldl_cons]
      exact le_trans hle (jsMin_le_left a x)
    · intro y hy
      rw [List.foldl_cons]
      rcases List.mem_cons.mp hy with h | h
      · subst h
        exact le_trans hle (jsMin_le_right a y)
      · exact hall y h

theorem foldl_jsMax_spec : ∀ (xs : List ℚ) (a : ℚ),
    (xs.foldl jsMax a = a ∨ xs.foldl jsMax a ∈ xs) ∧
    a ≤ xs.foldl jsMax a ∧ ∀ x ∈ xs, x ≤ xs.foldl jsMax a := by
  intro xs
  induction xs with
  | nil => exact fun a => ⟨Or.inl rfl, le_refl a, by simp⟩
  | cons x rest ih =>
    intro a
    obtain ⟨hmem, hle, hall⟩ := ih (jsMax a x)
    refine ⟨?_, ?_, ?_⟩
    · rcases hmem with h | h
      · rcases jsMax_eq_or a x with h2 | h2
        · exact Or.inl (by rw [List.foldl_cons, h, h2])
        · exact Or.inr (by rw [List.foldl_cons, h, h2]; simp)
      · exact Or.inr (by rw [List.foldl_cons]; simp [h])
    · rw [List.foldl_cons]
      exact le_trans (jsMax_le_left a x) hle
    · intro y hy
      rw [List.foldl_cons]
      rcases List.mem_cons.mp hy with h | h
      · subst h
        exact le_trans (jsMax_le_right a y) hle
      · exact hall y h

theorem listMinQ_spec (l : List ℚ) (h : l ≠ []) :
    listMinQ l ∈ l ∧ ∀ x ∈ l, listMinQ l ≤ x := by
  cases l with
  | nil => exact absurd rfl h
  | cons x xs =>
    obtain ⟨hmem, hle, hall⟩ := foldl_jsMin_spec xs x
    refine ⟨?_, ?_⟩
    · rcases hmem with h | h
      · rw [listMinQ, h]
        simp
      · rw [listMinQ]
        simp [h]
    · intro y hy
      rcases List.mem_cons.mp hy with h | h
      · subst h
        exact hle
      · exact hall y h

theorem listMaxQ_spec (l : List ℚ) (h : l ≠ []) :
    listMaxQ l ∈ l ∧ ∀ x ∈ l, x ≤ listMaxQ l := by
  cases l with
  | nil => exact absurd rfl h
  | cons x xs =>
    obtain ⟨hmem, hle, hall⟩ := foldl_jsMax_spec xs x
    refine ⟨?_, ?_⟩
    · rcases hmem with h | h
      · rw [listMaxQ, h]
        simp
      · rw [listMaxQ]
        simp [h]
    · intro y hy
      rcases List.mem_cons.mp hy with h | h
      · subst h
        exact hle
      · exact hall y h

theorem listMinQ_perm {l1 l2 : List ℚ} (hp : List.Perm l1 l2) (hne : l1 ≠ []) :
    listMinQ l1 = listMinQ l2 := by
  have hne2 : l2 ≠ [] := fun h => hne (List.Perm.eq_nil (h ▸ hp))
  obtain ⟨hm1, ha1⟩ := listMinQ_spec l1 hne
  obtain ⟨hm2, ha2⟩ := listMinQ_spec l2 hne2
  exact le_antisymm (ha1 _ (hp.mem_iff.mpr hm2)) (ha2 _ (hp.mem_iff.mp hm1))

theorem listMaxQ_perm {l1 l2 : List ℚ} (hp : List.Perm l1 l2) (hne : l1 ≠ []) :
    listMaxQ l1 = listMaxQ l2 := by
  have hne2 : l2 ≠ [] := fun h => hne (List.Perm.eq_nil (h ▸ hp))
  obtain ⟨hm1, ha1⟩ := listMaxQ_spec l1 hne
  obtain ⟨hm2, ha2⟩ := listMaxQ_spec l2 hne2
  exact le_antisymm (ha2 _ (hp.mem_iff.mp hm1)) (ha1 _ (hp.mem_iff.mpr hm2))

theorem minMaxNormalize_perm (values : String → ℚ) {keys1 keys2 : List String}
    (hp : List.Perm keys1 keys2) :
    minMaxNormalize values keys1 = minMaxNormalize values keys2 := by
  funext k
  unfold minMaxNormalize
  by_cases h1 : keys1 = []
  · have h2 : keys2 = [] := List.Perm.eq_nil ((h1 ▸ hp).symm)
    rw [if_pos h1, if_pos h2]
  · have h2 : keys2 ≠ [] := fun h => h1 (List.Perm.eq_nil (h ▸ hp))
    rw [if_neg h1, if_neg h2]
    have hmapne : keys1.map values ≠ [] := by
      simpa using h1
    have hmin : listMinQ (keys1.map values) = listMinQ (keys2.map values) :=
      listMinQ_perm (hp.map values) hmapne
    have hmax : listMaxQ (keys1.map values) = listMaxQ (keys2.map values) :=
      listMaxQ_perm (hp.map values) hmapne
    rw [hmin, hmax]
    have hmem : ∀ x, x ∈ keys1 ↔ x ∈ keys2 := fun x => hp.mem_iff
    split <;> simp only [hmem]

/-! ## Permutation invariance of the PageRank pipeline -/

theorem prTeleport_perm {L1 L2 : List String} (hp : List.Perm L1 L2) :
    prTeleport L1 = prTeleport L2 := by
  unfold prTeleport
  rw [hp.length_eq]

theorem prDangling_perm {L1 L2 : List String} (hp : List.Perm L1 L2)
    (outW ranks : String → ℚ) :
    prDangling L1 outW ranks = prDangling L2 outW ranks := by
  unfold prDangling
  exact (hp.map _).sum_eq

theorem pagerankIter_perm {L1 L2 : List String}
    {adj1 adj2 : List (String × List (String × ℚ))}
    (hpL : List.Perm L1 L2) (hpA : List.Perm adj1 adj2)
    (outW ranks : String → ℚ) :
    pagerankIter L1 adj1 outW ranks = pagerankIter L2 adj2 outW ranks := by
  funext t
  rw [pagerankIter_apply, pagerankIter_apply,
    prTeleport_perm hpL, prDangling_perm hpL outW ranks, hpL.length_eq,
    (hpA.map _).sum_eq]
  by_cases h : t ∈ L1
  · rw [if_pos h, if_pos (hpL.mem_iff.mp h)]
  · rw [if_neg h, if_neg (fun h2 => h (hpL.mem_iff.mpr h2))]

theorem pagerankLoop_perm {L1 L2 : List String}
    {adj1 adj2 : List (String × List (String × ℚ))}
    (hpL : List.Perm L1 L2) (hpA : List.Perm adj1 adj2) (outW : String → ℚ) :
    ∀ (fuel : ℕ) (ranks : String → ℚ),
      pagerankLoop L1 adj1 outW fuel ranks = pagerankLoop L2 adj2 outW fuel ranks := by
  intro fuel
  induction fuel with
  | zero => intro ranks; rfl
  | succ fuel ih =>
    intro ranks
    rw [pagerankLoop_succ, pagerankLoop_succ,
      pagerankIter_perm hpL hpA outW ranks, (hpL.map _).sum_eq]
    split
    · rfl
    · exact ih _

theorem computeWeightedPageRank_perm {L1 L2 : List String}
    {adj1 adj2 : List (String × List (String × ℚ))}
    (hpL : List.Perm L1 L2) (hpA : List.Perm adj1 adj2) (outW : String → ℚ) :
    computeWeightedPageRank L1 adj1 outW = computeWeightedPageRank L2 adj2 outW := by
  unfold computeWeightedPageRank
  rw [hpL.length_eq]
  split
  · rfl
  · have hinit : (fun k => if k ∈ L1 then 1 / mkRat L2.length 1 else 0) =
        (fun k => if k ∈ L2 then 1 / mkRat L2.length 1 else 0) := by
      funext k
      by_cases h : k ∈ L1
      · rw [if_pos h, if_pos (hpL.mem_iff.mp h)]
      · rw [if_neg h, if_neg (fun h2 => h (hpL.mem_iff.mpr h2))]
    rw [hinit]
    exact pagerankLoop_perm hpL hpA outW _ _

/-! ## The sort comparator as a total preorder -/

theorem cmpKeysLE_iff (score pr wd : String → ℚ) (nameOf : String → String) (a b : String) :
    cmpKeysLE score pr wd nameOf a b = true ↔
      score b < score a ∨ (score a = score b ∧ (pr b < pr a ∨ (pr a = pr b ∧
        (wd b < wd a ∨ (wd a = wd b ∧ ¬ nameOf b < nameOf a))))) := by
  by_cases hs : score a = score b
  · by_cases hp : pr a = pr b
    · by_cases hw : wd a = wd b
      · simp [cmpKeysLE, hs, hp, hw, lt_irrefl]
      · simp only [cmpKeysLE, hs, hp, lt_irrefl]
        simp [hw, Ne.symm hw, lt_irrefl]
    · simp only [cmpKeysLE, hs, lt_irrefl]
      simp [hp, Ne.symm hp, lt_irrefl]
  · simp only [cmpKeysLE]
    simp [hs, Ne.symm hs]

theorem cmpKeysLE_total (score pr wd : String → ℚ) (nameOf : String → String) (a b : String) :
    cmpKeysLE score pr wd nameOf a b = true ∨ cmpKeysLE score pr wd nameOf b a = true := by
  rw [cmpKeysLE_iff, cmpKeysLE_iff]
  by_cases hs : score a = score b
  · by_cases hp : pr a = pr b
    · by_cases hw : wd a = wd b
      · rcases le_total (nameOf a) (nameOf b) with h | h
        · exact Or.inl (Or.inr ⟨hs, Or.inr ⟨hp, Or.inr ⟨hw, not_lt.mpr h⟩⟩⟩)
        · exact Or.inr (Or.inr ⟨hs.symm, Or.inr ⟨hp.symm, Or.inr ⟨hw.symm, not_lt.mpr h⟩⟩⟩)
      · rcases lt_or_gt_of_ne hw with h | h
        · exact Or.inr (Or.inr ⟨hs.symm, Or.inr ⟨hp.symm, Or.inl h⟩⟩)
        · exact Or.inl (Or.inr ⟨hs, Or.inr ⟨hp, Or.inl h⟩⟩)
    · rcases lt_or_gt_of_ne hp with h | h
      · exact Or.inr (Or.inr ⟨hs.symm, Or.inl h⟩)
      · exact Or.inl (Or.inr ⟨hs, Or.inl h⟩)
  · rcases lt_or_gt_of_ne hs with h | h
    · exact Or.inr (Or.inl h)
    · exact Or.inl (Or.inl h)

theorem cmpKeysLE_trans (score pr wd : String → ℚ) (nameOf : String → String) (a b c : String)
    (h1 : cmpKeysLE score pr wd nameOf a b = true)
    (h2 : cmpKeysLE score pr wd nameOf b c = true) :
    cmpKeysLE score pr wd nameOf a c = true := by
  rw [cmpKeysLE_iff] at h1 h2 ⊢
  rcases h1 with h1 | ⟨hs1, h1⟩
  · rcases h2 with h2 | ⟨hs2, _⟩
    · exact Or.inl (lt_trans h2 h1)
    · exact Or.inl (hs2 ▸ h1)
  · rcases h2 with h2 | ⟨hs2, h2⟩
    · exact Or.inl (hs1 ▸ h2)
    · refine Or.inr ⟨hs1.trans hs2, ?_⟩
      rcases h1 with h1 | ⟨hp1, h1⟩
      · rcases h2 with h2 | ⟨hp2, _⟩
        · exact Or.inl (lt_trans h2 h1)
        · exact Or.inl (hp2 ▸ h1)
      · rcases h2 with h2 | ⟨hp2, h2⟩
        · exact Or.inl (hp1 ▸ h2)
        · refine Or.inr ⟨hp1.trans hp2, ?_⟩
          rcases h1 with h1 | ⟨hw1, h1⟩
          · rcases h2 with h2 | ⟨hw2, _⟩
            · exact Or.inl (lt_trans h2 h1)
            · exact Or.inl (hw2 ▸ h1)
          · rcases h2 with h2 | ⟨hw2, h2⟩
            · exact Or.inl (hw1 ▸ h2)
            · exact Or.inr ⟨hw1.trans hw2,
                not_lt.mpr (le_trans (not_lt.mp h1) (not_lt.mp h2))⟩

theorem cmpKeysLE_antisymm_fields (score pr wd : String → ℚ) (nameOf : String → String)
    (a b : String)
    (h1 : cmpKeysLE score pr wd nameOf a b = true)
    (h2 : cmpKeysLE score pr wd nameOf b a = true) :
    score a = score b ∧ pr a = pr b ∧ wd a = wd b ∧ nameOf a = nameOf b := by
  rw [cmpKeysLE_iff] at h1 h2
  rcases h1 with h1 | ⟨hs1, h1⟩
  · rcases h2 with h2 | ⟨hs2, _⟩
    · exact absurd (lt_trans h1 h2) (lt_irrefl _)
    · exact absurd (hs2 ▸ h1) (lt_irrefl _)
  · rcases h2 with h2 | ⟨_, h2⟩
    · exact absurd (hs1 ▸ h2) (lt_irrefl _)
    · refine ⟨hs1, ?_⟩
      rcases h1 with h1 | ⟨hp1, h1⟩
      · rcases h2 with h2 | ⟨hp2, _⟩
        · exact absurd (lt_trans h1 h2) (lt_irrefl _)
        · exact absurd (hp2 ▸ h1) (lt_irrefl _)
      · rcases h2 with h2 | ⟨_, h2⟩
        · exact absurd (hp1 ▸ h2) (lt_irrefl _)
        · refine ⟨hp1, ?_⟩
          rcases h1 with h1 | ⟨hw1, h1⟩
          · rcases h2 with h2 | ⟨hw2, _⟩
            · exact absurd (lt_trans h1 h2) (lt_irrefl _)
            · exact absurd (hw2 ▸ h1) (lt_irrefl _)
          · rcases h2 with h2 | ⟨_, h2⟩
            · exact absurd (hw1 ▸ h2) (lt_irrefl _)
            · exact ⟨hw1, le_antisymm (not_lt.mp h1) (not_lt.mp h2)⟩

/-! ## `rankOfSorted` assigns position + 1 -/

theorem enumFrom_snd_mem {p : ℕ × String} : ∀ {l : List String} {n : ℕ},
    p ∈ l.enumFrom n → p.2 ∈ l := by
  intro l
  induction l with
  | nil => intro n h; simp [List.enumFrom] at h
  | cons x xs ih =>
    intro n h
    rcases List.mem_cons.mp h with he | he
    · rw [he]
      simp
    · exact List.mem_cons_of_mem _ (ih he)

theorem rank_fold_not_mem : ∀ (l : List (ℕ × String)) (acc : String → ℕ) (k : String),
    (∀ p ∈ l, p.2 ≠ k) →
    l.foldl (fun acc ik => fupd acc ik.2 (ik.1 + 1)) acc k = acc k := by
  intro l
  induction l with
  | nil => intro acc k _; rfl
  | cons p rest ih =>
    intro acc k h
    rw [List.foldl_cons, ih _ _ (fun q hq => h q (List.mem_cons_of_mem _ hq))]
    have hne : k ≠ p.2 := fun he => h p (List.mem_cons_self _ _) he.symm
    simp [fupd, hne]

theorem rank_fold_enumFrom : ∀ (l : List String), l.Nodup →
    ∀ (base : ℕ) (acc : String → ℕ) (i : ℕ) (h : i < l.length),
      (l.enumFrom base).foldl (fun acc ik => fupd acc ik.2 (ik.1 + 1)) acc
        (l.get ⟨i, h⟩) = base + i + 1 := by
  intro l
  induction l with
  | nil => intro _ base acc i h; simp at h
  | cons x xs ih =>
    intro hnd base acc i h
    have hstep : (x :: xs).enumFrom base = (base, x) :: xs.enumFrom (base + 1) := rfl
    rw [hstep, List.foldl_cons]
    cases i with
    | zero =>
      have hget : (x :: xs).get ⟨0, h⟩ = x := rfl
      rw [hget, rank_fold_not_mem]
      · simp [fupd]
      · intro p hp he
        exact (List.nodup_cons.mp hnd).1 (he ▸ enumFrom_snd_mem hp)
    | succ j =>
      have hget : (x :: xs).get ⟨j + 1, h⟩ = xs.get ⟨j, by simpa using h⟩ := rfl
      rw [hget, ih (List.nodup_cons.mp hnd).2 (base + 1) _ j (by simpa using h)]
      omega

theorem rankOfSorted_get (sorted : List String) (hnd : sorted.Nodup) (i : ℕ)
    (h : i < sorted.length) :
    rankOfSorted sorted (sorted.get ⟨i, h⟩) = i + 1 := by
  unfold rankOfSorted
  have he : sorted.enum = sorted.enumFrom 0 := rfl
  rw [he, rank_fold_enumFrom sorted hnd 0 (fun _ => 0) i h]
  omega

/-! ## Uniqueness of a sorted list among permutations, given antisymmetry -/

theorem sorted_perm_eq (R : String → String → Bool) :
    ∀ (l1 l2 : List String), l1.Perm l2 →
      l1.Pairwise (fun a b => R a b = true) → l2.Pairwise (fun a b => R a b = true) →
      (∀ a b, a ∈ l1 → b ∈ l1 → R a b = true → R b a = true → a = b) →
      l1 = l2 := by
  intro l1
  induction l1 with
  | nil => intro l2 hp _ _ _; exact (List.Perm.eq_nil hp.symm).symm
  | cons x xs ih =>
    intro l2 hp h1 h2 hanti
    cases l2 with
    | nil => exact absurd (List.Perm.eq_nil hp) (by simp)
    | cons y ys =>
      by_cases hxy : x = y
      · subst hxy
        have hp' : xs.Perm ys := hp.cons_inv
        rw [ih ys hp' (List.pairwise_cons.mp h1).2 (List.pairwise_cons.mp h2).2
          (fun a b ha hb => hanti a b (List.mem_cons_of_mem _ ha) (List.mem_cons_of_mem _ hb))]
      · have hy1 : y ∈ x :: xs := hp.mem_iff.mpr (List.mem_cons_self _ _)
        have hyx : y ∈ xs := by
          rcases List.mem_cons.mp hy1 with he | he
          · exact absurd he.symm hxy
          · exact he
        have hx2 : x ∈ y :: ys := hp.mem_iff.mp (List.mem_cons_self _ _)
        have hxy2 : x ∈ ys := by
          rcases List.mem_cons.mp hx2 with he | he
          · exact absurd he hxy
          · exact he
        have hR1 : R x y = true := (List.pairwise_cons.mp h1).1 y hyx
        have hR2 : R y x = true := (List.pairwise_cons.mp h2).1 x hxy2
        exact absurd (hanti x y (List.mem_cons_self _ _) (List.mem_cons_of_mem _ hyx) hR1 hR2)
          hxy

/-! ## Re-grouping an already grouped key list -/

theorem recUpsert_append_of_not_mem {α : Type} (acc b : List (String × α)) (k : String)
    (v : α) (h : k ∉ acc.map Prod.fst) :
    recUpsert (acc ++ b) k v = acc ++ recUpsert b k v := by
  induction acc with
  | nil => rfl
  | cons p rest ih =>
    obtain ⟨k', v'⟩ := p
    simp only [List.map_cons, List.mem_cons, not_or] at h
    have hne : ¬ k' = k := fun he => h.1 he.symm
    simp only [List.cons_append, recUpsert, if_neg hne]
    exact congrArg (List.cons (k', v')) (ih h.2)

theorem lookup_append_none {α : Type} (acc b : List (String × α)) (k : String)
    (h : k ∉ acc.map Prod.fst) :
    List.lookup k (acc ++ b) = List.lookup k b := by
  rw [List.lookup_append]
  have : List.lookup k acc = none := by
    rw [List.lookup_eq_none_iff]
    intro p hp
    rw [bne_iff_ne]
    exact fun he => h (he ▸ List.mem_map.mpr ⟨p, hp, rfl⟩)
  rw [this, Option.none_or]

theorem groupFold_append (f : String → String) :
    ∀ (ks : List String) (acc b : List (String × List String)),
      (∀ k ∈ ks, f k ∉ acc.map Prod.fst) →
      ks.foldl (groupStep f) (acc ++ b) = acc ++ ks.foldl (groupStep f) b := by
  intro ks
  induction ks with
  | nil => intro acc b _; rfl
  | cons k rest ih =>
    intro acc b h
    rw [List.foldl_cons, List.foldl_cons]
    have hstep : groupStep f (acc ++ b) k = acc ++ groupStep f b k := by
      unfold groupStep
      rw [lookup_append_none acc b (f k) (h k (by simp))]
      cases List.lookup (f k) b with
      | none => simp [List.append_assoc]
      | some ks' => exact recUpsert_append_of_not_mem acc b (f k) _ (h k (by simp))
    rw [hstep]
    exact ih acc _ (fun x hx => h x (by simp [hx]))

theorem groupFold_same_type (f : String → String) (t : String) :
    ∀ (ks : List String) (p : List String), (∀ k ∈ ks, f k = t) →
      ks.foldl (groupStep f) [(t, p)] = [(t, p ++ ks)] := by
  intro ks
  induction ks with
  | nil => intro p _; simp
  | cons k rest ih =>
    intro p h
    rw [List.foldl_cons]
    have hft : f k = t := h k (by simp)
    have hstep : groupStep f [(t, p)] k = [(t, p ++ [k])] := by
      unfold groupStep
      rw [hft, List.lookup_cons_self]
      simp [recUpsert]
    rw [hstep, ih (p ++ [k]) (fun x hx => h x (by simp [hx]))]
    simp

theorem groupByType_of_grouped (f : String → String) :
    ∀ (acc : List (String × List String)),
      (acc.map Prod.fst).Nodup →
      (∀ p ∈ acc, p.2 ≠ [] ∧ ∀ k ∈ p.2, f k = p.1) →
      groupByType f ((acc.map Prod.snd).flatten) = acc := by
  intro acc
  induction acc with
  | nil => intro _ _; rfl
  | cons tg rest ih =>
    intro hnd hprop
    obtain ⟨t, g1⟩ := tg
    obtain ⟨hne, htyp⟩ := hprop (t, g1) (by simp)
    simp only [List.map_cons, List.flatten_cons]
    rw [groupByType_eq_foldl, List.foldl_append]
    have hfold1 : g1.foldl (groupStep f) [] = [(t, g1)] := by
      cases g1 with
      | nil => exact absurd rfl hne
      | cons k0 g1' =>
        rw [List.foldl_cons]
        have hstep : groupStep f [] k0 = [(t, [k0])] := by
          unfold groupStep
          rw [htyp k0 (by simp)]
          rfl
        rw [hstep, groupFold_same_type f t g1' [k0] (fun x hx => htyp x (by simp [hx]))]
        rfl
    rw [hfold1]
    have hrest : ∀ k ∈ (rest.map Prod.snd).flatten, f k ∉ [t] := by
      intro k hk
      obtain ⟨l, hl, hkl⟩ := List.mem_flatten.mp hk
      obtain ⟨p, hp, rfl⟩ := List.mem_map.mp hl
      have hfk : f k = p.1 := (hprop p (by simp [hp])).2 k hkl
      simp only [List.mem_singleton]
      rw [hfk]
      intro he
      simp only [List.map_cons, List.nodup_cons] at hnd
      exact hnd.1 (he ▸ List.mem_map.mpr ⟨p, hp, rfl⟩)
    have happ := groupFold_append f ((rest.map Prod.snd).flatten) [(t, g1)] [] hrest
    simp only [List.append_nil] at happ
    rw [happ]
    rw [← groupByType_eq_foldl,
      ih (by simpa using (List.nodup_cons.mp (by simpa using hnd)).2)
        (fun p hp => hprop p (by simp [hp]))]
    rfl

/-! ## Lookup in the flattened per-type blocks -/

theorem lookup_flatten_none {α : Type} (F : List String → List (String × α))
    (hF : ∀ keys, (F keys).map Prod.fst = keys) :
    ∀ (acc : List (String × List String)) (k : String), (∀ p ∈ acc, k ∉ p.2) →
      List.lookup k ((acc.map (fun tg => F tg.2)).flatten) = none := by
  intro acc
  induction acc with
  | nil => intro k _; rfl
  | cons tg rest ih =>
    intro k h
    simp only [List.map_cons, List.flatten_cons]
    rw [List.lookup_append]
    have h1 : List.lookup k (F tg.2) = none := by
      rw [List.lookup_eq_none_iff]
      intro p hp
      rw [bne_iff_ne]
      intro he
      have : p.1 ∈ (F tg.2).map Prod.fst := List.mem_map.mpr ⟨p, hp, rfl⟩
      rw [hF] at this
      exact h tg (by simp) (he ▸ this)
    rw [h1, Option.none_or]
    exact ih k (fun p hp => h p (by simp [hp]))

theorem lookup_flatten_groups {α : Type} (F : List String → List (String × α))
    (hF : ∀ keys, (F keys).map Prod.fst = keys) (f : String → String) :
    ∀ (acc : List (String × List String)), (acc.map Prod.fst).Nodup →
      (∀ p ∈ acc, ∀ x ∈ p.2, f x = p.1) → ∀ k,
      List.lookup k ((acc.map (fun tg => F tg.2)).flatten) =
        (match List.lookup (f k) acc with
         | some ks => List.lookup k (F ks)
         | none => none) := by
  intro acc
  induction acc with
  | nil => intro _ _ k; rfl
  | cons tg rest ih =>
    intro hnd htyp k
    obtain ⟨t, ks⟩ := tg
    simp only [List.map_cons, List.flatten_cons]
    rw [List.lookup_append]
    simp only [List.map_cons, List.nodup_cons] at hnd
    by_cases hft : f k = t
    · have hl : List.lookup (f k) ((t, ks) :: rest) = some ks := by
        rw [hft]
        exact List.lookup_cons_self
      rw [hl]
      show (List.lookup k (F ks)).or
        (List.lookup k ((rest.map (fun tg => F tg.2)).flatten)) = List.lookup k (F ks)
      cases hfk : List.lookup k (F ks) with
      | some v => simp [hfk]
      | none =>
        rw [Option.none_or]
        exact lookup_flatten_none F hF rest k (fun p hp hkp => by
          have hfp : f k = p.1 := htyp p (by simp [hp]) k hkp
          exact hnd.1 ((hft ▸ hfp) ▸ List.mem_map.mpr ⟨p, hp, rfl⟩))
    · have hl : List.lookup (f k) ((t, ks) :: rest) = List.lookup (f k) rest := by
        have hbeq : (f k == t) = false := beq_eq_false_iff_ne.mpr hft
        simp [List.lookup, hbeq]
      rw [hl]
      have h1 : List.lookup k (F ks) = none := by
        rw [List.lookup_eq_none_iff]
        intro p hp
        rw [bne_iff_ne]
        intro he
        have hmem : p.1 ∈ (F ks).map Prod.fst := List.mem_map.mpr ⟨p, hp, rfl⟩
        rw [hF] at hmem
        exact hft (htyp (t, ks) (by simp) k (he ▸ hmem))
      rw [h1, Option.none_or]
      exact ih hnd.2 (fun p hp => htyp p (by simp [hp])) k

/-! ## Pointwise form of `recomputeTypeGroup` -/

/-- The node built for key `k` inside its type group `keys` (the body of the
`keys.map` in `recomputeTypeGroup`, with the group-level `let`s inlined). -/
def recomputeNodeAt (g : KgMergedGraph) (keys : List String) (k : String) : KgNode :=
  let score := kgGroupScore g keys
  let sorted := keys.mergeSort (cmpKeysLE score (kgPagerank g) (kgWeightedDegree g) (nodeNameOf g))
  let rankByKey := rankOfSorted sorted
  let topKey := sorted.head?
  let base := (List.lookup k g.nodes_by_key).getD defaultKgNode
  { base with
    metrics :=
      { pagerank := round6 (kgPagerank g k)
        weighted_degree := round6 (kgWeightedDegree g k)
        edge_type_diversity := (jsTrunc (kgDiversity g k) : ℚ)
        in_degree := (jsTrunc (kgInDegree g k) : ℚ)
        out_degree := (jsTrunc (kgOutDegree g k) : ℚ)
        weighted_in_degree := round6 (kgInWeight g k)
        weighted_out_degree := round6 (kgOutWeight g k) }
    score :=
      { importance_score := round6 (clamp (score k) 0 1)
        normalized_pagerank := round6 (clamp (minMaxNormalize (kgPagerank g) keys k) 0 1)
        normalized_weighted_degree :=
          round6 (clamp (minMaxNormalize (kgWeightedDegree g) keys k) 0 1)
        normalized_edge_type_diversity :=
          round6 (clamp (minMaxNormalize (kgDiversity g) keys k) 0 1)
        rank_in_type := rankByKey k
        is_top_in_type := topKey == some k } }

theorem recomputeTypeGroup_eq_map (g : KgMergedGraph) (keys : List String) :
    recomputeTypeGroup g keys = keys.map (fun k => (k, recomputeNodeAt g keys k)) := rfl

theorem recomputeTypeGroup_fst (g : KgMergedGraph) (keys : List String) :
    (recomputeTypeGroup g keys).map Prod.fst = keys := by
  rw [recomputeTypeGroup_eq_map, List.map_map]
  exact List.map_id keys

/-- The type group a node key belongs to. -/
def kgGroupKeys (g : KgMergedGraph) (k : String) : List String :=
  (kgNodeKeys g).filter (fun x => nodeTypeOf g x == nodeTypeOf g k)

theorem byType_lookup (g : KgMergedGraph) (k : String) (hk : k ∈ kgNodeKeys g) :
    List.lookup (nodeTypeOf g k) (groupByType (nodeTypeOf g) (kgNodeKeys g)) =
      some (kgGroupKeys g k) := by
  obtain ⟨h1, h2, h3, _⟩ := groupByType_inv (nodeTypeOf g) (kgNodeKeys g)
  obtain ⟨p, hp, hfst⟩ := List.mem_map.mp (h3 k hk)
  have hpe : p = (nodeTypeOf g k, kgGroupKeys g k) := by
    refine Prod.ext hfst ?_
    have hsnd : p.2 = (kgNodeKeys g).filter (fun x => nodeTypeOf g x == p.1) := h2 p hp
    rw [hsnd, hfst]
    rfl
  exact lookup_of_mem_nodup h1 (hpe ▸ hp)

theorem recompute_nodes_eq (g : KgMergedGraph) (hne : ¬ (kgNodeKeys g).length = 0) :
    (recomputeMergedImportanceStats g).nodes_by_key =
      ((groupByType (nodeTypeOf g) (kgNodeKeys g)).map
        (fun tg => tg.2.map (fun x => (x, recomputeNodeAt g tg.2 x)))).flatten := by
  simp only [recomputeMergedImportanceStats]
  rw [if_neg hne]
  exact congrArg List.flatten
    (List.map_congr_left (fun tg _ => recomputeTypeGroup_eq_map g tg.2))

theorem lookup_recompute (g : KgMergedGraph) (k : String) :
    List.lookup k (recomputeMergedImportanceStats g).nodes_by_key =
      if k ∈ kgNodeKeys g then some (recomputeNodeAt g (kgGroupKeys g k) k) else none := by
  obtain ⟨h1, h2, h3, _⟩ := groupByType_inv (nodeTypeOf g) (kgNodeKeys g)
  have htyp : ∀ p ∈ groupByType (nodeTypeOf g) (kgNodeKeys g), ∀ x ∈ p.2,
      nodeTypeOf g x = p.1 := by
    intro p hp x hx
    rw [h2 p hp] at hx
    simpa using List.of_mem_filter hx
  by_cases hlen : (kgNodeKeys g).length = 0
  · have hnil : kgNodeKeys g = [] := List.length_eq_zero.mp hlen
    have hk : k ∉ kgNodeKeys g := by
      rw [hnil]
      simp
    rw [if_neg hk]
    have hnodes : (recomputeMergedImportanceStats g).nodes_by_key = g.nodes_by_key := by
      simp only [recomputeMergedImportanceStats]
      rw [if_pos hlen]
    rw [hnodes, List.lookup_eq_none_iff]
    intro p hp
    rw [bne_iff_ne]
    exact fun he => hk (he ▸ List.mem_map.mpr ⟨p, hp, rfl⟩)
  · rw [recompute_nodes_eq g hlen,
      lookup_flatten_groups (fun keys => keys.map (fun x => (x, recomputeNodeAt g keys x)))
        (fun keys => by rw [List.map_map]; exact List.map_id keys) (nodeTypeOf g) _ h1 htyp k]
    by_cases hk : k ∈ kgNodeKeys g
    · rw [if_pos hk, byType_lookup g k hk]
      show List.lookup k
          ((kgGroupKeys g k).map (fun x => (x, recomputeNodeAt g (kgGroupKeys g k) x))) = _
      rw [lookup_map_self]
      have hkk : k ∈ kgGroupKeys g k :=
        List.mem_filter.mpr ⟨hk, beq_iff_eq.mpr rfl⟩
      rw [if_pos hkk]
    · rw [if_neg hk]
      cases hl : List.lookup (nodeTypeOf g k) (groupByType (nodeTypeOf g) (kgNodeKeys g)) with
      | none => rfl
      | some ks =>
        show List.lookup k (ks.map (fun x => (x, recomputeNodeAt g ks x))) = none
        rw [lookup_map_self]
        have hks : ks = (kgNodeKeys g).filter
            (fun x => nodeTypeOf g x == nodeTypeOf g k) :=
          h2 (nodeTypeOf g k, ks) (lookup_mem hl)
        have hkn : k ∉ ks := by
          rw [hks]
          intro hmem
          exact hk (List.mem_of_mem_filter hmem)
        rw [if_neg hkn]

/-! ## Structural facts about `recomputeMergedImportanceStats` -/

theorem recompute_edges (g : KgMergedGraph) :
    (recomputeMergedImportanceStats g).edges_by_key = g.edges_by_key := by
  simp only [recomputeMergedImportanceStats]
  split <;> rfl

theorem lookup_some_of_mem_keys {g : KgMergedGraph} {k : String}
    (hnd : (kgNodeKeys g).Nodup) (hk : k ∈ kgNodeKeys g) :
    ∃ n, List.lookup k g.nodes_by_key = some n := by
  obtain ⟨p, hp, hfst⟩ := List.mem_map.mp hk
  exact ⟨p.2, lookup_of_mem_nodup hnd (by rw [← hfst]; exact hp)⟩

theorem recompute_core (g : KgMergedGraph) (hnd : (kgNodeKeys g).Nodup) (k : String) :
    (List.lookup k (recomputeMergedImportanceStats g).nodes_by_key).map nodeCore =
      (List.lookup k g.nodes_by_key).map nodeCore := by
  rw [lookup_recompute g k]
  by_cases hk : k ∈ kgNodeKeys g
  · rw [if_pos hk]
    obtain ⟨n, hn⟩ := lookup_some_of_mem_keys hnd hk
    rw [hn]
    show some (nodeCore _) = some (nodeCore n)
    simp only [recomputeNodeAt]
    rw [hn]
    rfl
  · rw [if_neg hk]
    have hnone : List.lookup k g.nodes_by_key = none := by
      rw [List.lookup_eq_none_iff]
      intro p hp
      rw [bne_iff_ne]
      exact fun he => hk (he ▸ List.mem_map.mpr ⟨p, hp, rfl⟩)
    rw [hnone]

theorem recompute_keys_eq (g : KgMergedGraph) (hne : ¬ (kgNodeKeys g).length = 0) :
    kgNodeKeys (recomputeMergedImportanceStats g) =
      ((groupByType (nodeTypeOf g) (kgNodeKeys g)).map Prod.snd).flatten := by
  unfold kgNodeKeys
  rw [recompute_nodes_eq g hne, List.map_flatten, List.map_map]
  congr 1
  refine List.map_congr_left ?_
  intro tg _
  show (tg.2.map (fun x => (x, recomputeNodeAt g tg.2 x))).map Prod.fst = tg.2
  rw [List.map_map]
  exact List.map_id tg.2

theorem recompute_keys_perm (g : KgMergedGraph) :
    (kgNodeKeys (recomputeMergedImportanceStats g)).Perm (kgNodeKeys g) := by
  by_cases hlen : (kgNodeKeys g).length = 0
  · have : kgNodeKeys (recomputeMergedImportanceStats g) = kgNodeKeys g := by
      unfold kgNodeKeys
      simp only [recomputeMergedImportanceStats]
      rw [if_pos hlen]
    rw [this]
  · rw [recompute_keys_eq g hlen]
    obtain ⟨h1, h2, h3, _⟩ := groupByType_inv (nodeTypeOf g) (kgNodeKeys g)
    have hmap : (groupByType (nodeTypeOf g) (kgNodeKeys g)).map Prod.snd =
        ((groupByType (nodeTypeOf g) (kgNodeKeys g)).map Prod.fst).map
          (fun t => (kgNodeKeys g).filter (fun x => nodeTypeOf g x == t)) := by
      rw [List.map_map]
      refine List.map_congr_left ?_
      intro p hp
      exact h2 p hp
    rw [hmap]
    exact filter_partition_perm (nodeTypeOf g) (kgNodeKeys g)
      ((groupByType (nodeTypeOf g) (kgNodeKeys g)).map Prod.fst) h1 h3

theorem recompute_byType_eq (g : KgMergedGraph) (hnd : (kgNodeKeys g).Nodup)
    (hne : ¬ (kgNodeKeys g).length = 0) :
    groupByType (nodeTypeOf (recomputeMergedImportanceStats g))
        (kgNodeKeys (recomputeMergedImportanceStats g)) =
      groupByType (nodeTypeOf g) (kgNodeKeys g) := by
  have hfe : nodeTypeOf (recomputeMergedImportanceStats g) = nodeTypeOf g :=
    nodeTypeOf_congr (recompute_core g hnd)
  rw [hfe, recompute_keys_eq g hne]
  obtain ⟨h1, h2, h3, h4⟩ := groupByType_inv (nodeTypeOf g) (kgNodeKeys g)
  refine groupByType_of_grouped (nodeTypeOf g) _ h1 ?_
  intro p hp
  constructor
  · obtain ⟨w, hw, hfw⟩ := h4 p.1 (List.mem_map.mpr ⟨p, hp, rfl⟩)
    have : w ∈ p.2 := by
      rw [h2 p hp]
      exact List.mem_filter.mpr ⟨hw, beq_iff_eq.mpr hfw⟩
    exact List.ne_nil_of_mem this
  · intro x hx
    rw [h2 p hp] at hx
    simpa using List.of_mem_filter hx

theorem recompute_groupKeys (g : KgMergedGraph) (hnd : (kgNodeKeys g).Nodup)
    (k : String) (hk : k ∈ kgNodeKeys g) :
    kgGroupKeys (recomputeMergedImportanceStats g) k = kgGroupKeys g k := by
  have hne : ¬ (kgNodeKeys g).length = 0 := by
    intro h
    rw [List.length_eq_zero] at h
    rw [h] at hk
    simp at hk
  have hfe : nodeTypeOf (recomputeMergedImportanceStats g) = nodeTypeOf g :=
    nodeTypeOf_congr (recompute_core g hnd)
  have hk2 : k ∈ kgNodeKeys (recomputeMergedImportanceStats g) :=
    (recompute_keys_perm g).mem_iff.mpr hk
  have hA := byType_lookup (recomputeMergedImportanceStats g) k hk2
  rw [recompute_byType_eq g hnd hne, hfe] at hA
  have hB := byType_lookup g k hk
  rw [hA] at hB
  exact (Option.some.injEq _ _ ▸ hB : _)

/-! ## Congruence of the recomputation in the graph inputs -/

theorem kgDerived_congr (g1 g2 : KgMergedGraph)
    (hcore : ∀ k, (List.lookup k g1.nodes_by_key).map nodeCore =
      (List.lookup k g2.nodes_by_key).map nodeCore)
    (hedges : g1.edges_by_key = g2.edges_by_key)
    (hpk : (kgNodeKeys g1).Perm (kgNodeKeys g2)) :
    kgPagerank g1 = kgPagerank g2 ∧ kgWeightedDegree g1 = kgWeightedDegree g2 ∧
    kgDiversity g1 = kgDiversity g2 ∧ kgInWeight g1 = kgInWeight g2 ∧
    kgOutWeight g1 = kgOutWeight g2 ∧ kgInDegree g1 = kgInDegree g2 ∧
    kgOutDegree g1 = kgOutDegree g2 := by
  have hsome := lookup_core_isSome hcore
  obtain ⟨how, hiw, hod, hid, hts, har⟩ := kgStats_congr g1 g2 hsome hedges
  have hpA : (kgAdj g1).Perm (kgAdj g2) := by
    unfold kgAdj
    rw [har]
    exact hpk.map _
  refine ⟨?_, ?_, ?_, hiw, how, hid, hod⟩
  · unfold kgPagerank
    rw [how]
    exact computeWeightedPageRank_perm hpk hpA _
  · funext x
    unfold kgWeightedDegree
    rw [how, hiw]
  · funext x
    unfold kgDiversity
    rw [hts]

theorem recomputeNodeAt_congr (g1 g2 : KgMergedGraph) (keys1 keys2 : List String) (k : String)
    (hcore : ∀ k, (List.lookup k g1.nodes_by_key).map nodeCore =
      (List.lookup k g2.nodes_by_key).map nodeCore)
    (hedges : g1.edges_by_key = g2.edges_by_key)
    (hpk : (kgNodeKeys g1).Perm (kgNodeKeys g2))
    (hgp : keys1.Perm keys2)
    (hsorted : keys1.mergeSort (cmpKeysLE (kgGroupScore g1 keys1) (kgPagerank g1)
        (kgWeightedDegree g1) (nodeNameOf g1)) =
      keys2.mergeSort (cmpKeysLE (kgGroupScore g2 keys2) (kgPagerank g2)
        (kgWeightedDegree g2) (nodeNameOf g2))) :
    recomputeNodeAt g1 keys1 k = recomputeNodeAt g2 keys2 k := by
  obtain ⟨hpr, hwd, hdv, hiw, how, hid, hod⟩ := kgDerived_congr g1 g2 hcore hedges hpk
  have hnm := nodeNameOf_congr hcore
  have hnpr : minMaxNormalize (kgPagerank g1) keys1 = minMaxNormalize (kgPagerank g2) keys2 := by
    rw [hpr]
    exact minMaxNormalize_perm _ hgp
  have hnwd : minMaxNormalize (kgWeightedDegree g1) keys1 =
      minMaxNormalize (kgWeightedDegree g2) keys2 := by
    rw [hwd]
    exact minMaxNormalize_perm _ hgp
  have hndv : minMaxNormalize (kgDiversity g1) keys1 =
      minMaxNormalize (kgDiversity g2) keys2 := by
    rw [hdv]
    exact minMaxNormalize_perm _ hgp
  have hscore : kgGroupScore g1 keys1 = kgGroupScore g2 keys2 := by
    funext x
    unfold kgGroupScore
    rw [hnpr, hnwd, hndv]
  simp only [recomputeNodeAt]
  rw [hsorted, hscore, hnpr, hnwd, hndv, hpr, hwd, hdv, hiw, how, hid, hod]
  have hbk := hcore k
  cases h1 : List.lookup k g1.nodes_by_key with
  | none =>
    cases h2 : List.lookup k g2.nodes_by_key with
    | none => rfl
    | some n2 =>
      rw [h1, h2] at hbk
      simp at hbk
  | some n1 =>
    cases h2 : List.lookup k g2.nodes_by_key with
    | none =>
      rw [h1, h2] at hbk
      simp at hbk
    | some n2 =>
      rw [h1, h2] at hbk
      simp only [Option.map_some', Option.some.injEq] at hbk
      obtain ⟨c1, c2, c3, c4, c5, c6, c7, c8⟩ := n1
      obtain ⟨d1, d2, d3, d4, d5, d6, d7, d8⟩ := n2
      simp only [nodeCore, Prod.mk.injEq] at hbk
      obtain ⟨e1, e2, e3, e4, e5, e6⟩ := hbk
      subst e1
      subst e2
      subst e3
      subst e4
      subst e5
      subst e6
      rfl

theorem recompute_lookup_congr (g1 g2 : KgMergedGraph)
    (hcore : ∀ k, (List.lookup k g1.nodes_by_key).map nodeCore =
      (List.lookup k g2.nodes_by_key).map nodeCore)
    (hedges : g1.edges_by_key = g2.edges_by_key)
    (hpk : (kgNodeKeys g1).Perm (kgNodeKeys g2))
    (hsorted : ∀ k ∈ kgNodeKeys g1,
      (kgGroupKeys g1 k).mergeSort (cmpKeysLE (kgGroupScore g1 (kgGroupKeys g1 k))
        (kgPagerank g1) (kgWeightedDegree g1) (nodeNameOf g1)) =
      (kgGroupKeys g2 k).mergeSort (cmpKeysLE (kgGroupScore g2 (kgGroupKeys g2 k))
        (kgPagerank g2) (kgWeightedDegree g2) (nodeNameOf g2))) :
    ∀ k, List.lookup k (recomputeMergedImportanceStats g1).nodes_by_key =
      List.lookup k (recomputeMergedImportanceStats g2).nodes_by_key := by
  intro k
  rw [lookup_recompute g1 k, lookup_recompute g2 k]
  by_cases hk : k ∈ kgNodeKeys g1
  · rw [if_pos hk, if_pos (hpk.mem_iff.mp hk)]
    have hfe : nodeTypeOf g1 = nodeTypeOf g2 := nodeTypeOf_congr hcore
    have hgp : (kgGroupKeys g1 k).Perm (kgGroupKeys g2 k) := by
      unfold kgGroupKeys
      rw [hfe]
      exact hpk.filter _
    exact congrArg some
      (recomputeNodeAt_congr g1 g2 _ _ k hcore hedges hpk hgp (hsorted k hk))
  · rw [if_neg hk, if_neg (fun h => hk (hpk.mem_iff.mpr h))]

/-! ## Idempotence and enumeration independence of the recomputation -/

theorem recompute_idem_lookup (g : KgMergedGraph) (hnd : (kgNodeKeys g).Nodup) (k : String) :
    List.lookup k
        (recomputeMergedImportanceStats (recomputeMergedImportanceStats g)).nodes_by_key =
      List.lookup k (recomputeMergedImportanceStats g).nodes_by_key := by
  have hcore : ∀ k, (List.lookup k g.nodes_by_key).map nodeCore =
      (List.lookup k (recomputeMergedImportanceStats g).nodes_by_key).map nodeCore :=
    fun k => (recompute_core g hnd k).symm
  have hedges : g.edges_by_key = (recomputeMergedImportanceStats g).edges_by_key :=
    (recompute_edges g).symm
  have hpk : (kgNodeKeys g).Perm (kgNodeKeys (recomputeMergedImportanceStats g)) :=
    (recompute_keys_perm g).symm
  have hsorted : ∀ x ∈ kgNodeKeys g,
      (kgGroupKeys g x).mergeSort (cmpKeysLE (kgGroupScore g (kgGroupKeys g x))
        (kgPagerank g) (kgWeightedDegree g) (nodeNameOf g)) =
      (kgGroupKeys (recomputeMergedImportanceStats g) x).mergeSort
        (cmpKeysLE (kgGroupScore (recomputeMergedImportanceStats g)
            (kgGroupKeys (recomputeMergedImportanceStats g) x))
          (kgPagerank (recomputeMergedImportanceStats g))
          (kgWeightedDegree (recomputeMergedImportanceStats g))
          (nodeNameOf (recomputeMergedImportanceStats g))) := by
    intro x hx
    rw [recompute_groupKeys g hnd x hx]
    obtain ⟨hpr, hwd, hdv, _, _, _, _⟩ :=
      kgDerived_congr g (recomputeMergedImportanceStats g) hcore hedges hpk
    have hnm := nodeNameOf_congr hcore
    have hscore : kgGroupScore g (kgGroupKeys g x) =
        kgGroupScore (recomputeMergedImportanceStats g) (kgGroupKeys g x) := by
      funext y
      unfold kgGroupScore
      rw [hpr, hwd, hdv]
    rw [hscore, hpr, hwd, hnm]
  exact (recompute_lookup_congr g (recomputeMergedImportanceStats g)
    hcore hedges hpk hsorted k).symm

theorem recompute_perm_lookup (g1 g2 : KgMergedGraph)
    (hnd1 : (kgNodeKeys g1).Nodup)
    (hpn : g1.nodes_by_key.Perm g2.nodes_by_key)
    (hedges : g1.edges_by_key = g2.edges_by_key)
    (hnames : ∀ a ∈ kgNodeKeys g1, ∀ b ∈ kgNodeKeys g1, a ≠ b →
      nodeTypeOf g1 a = nodeTypeOf g1 b → nodeNameOf g1 a ≠ nodeNameOf g1 b) (k : String) :
    List.lookup k (recomputeMergedImportanceStats g1).nodes_by_key =
      List.lookup k (recomputeMergedImportanceStats g2).nodes_by_key := by
  have hlookup : ∀ x, List.lookup x g1.nodes_by_key = List.lookup x g2.nodes_by_key :=
    lookup_eq_of_perm hpn hnd1
  have hcore : ∀ x, (List.lookup x g1.nodes_by_key).map nodeCore =
      (List.lookup x g2.nodes_by_key).map nodeCore := fun x => by rw [hlookup x]
  have hpk : (kgNodeKeys g1).Perm (kgNodeKeys g2) := hpn.map Prod.fst
  refine recompute_lookup_congr g1 g2 hcore hedges hpk ?_ k
  intro x hx
  obtain ⟨hpr, hwd, hdv, _, _, _, _⟩ := kgDerived_congr g1 g2 hcore hedges hpk
  have hnm := nodeNameOf_congr hcore
  have hfe := nodeTypeOf_congr hcore
  have hgp : (kgGroupKeys g1 x).Perm (kgGroupKeys g2 x) := by
    unfold kgGroupKeys
    rw [hfe]
    exact hpk.filter _
  have hscore : kgGroupScore g1 (kgGroupKeys g1 x) = kgGroupScore g2 (kgGroupKeys g2 x) := by
    funext y
    unfold kgGroupScore
    rw [show minMaxNormalize (kgPagerank g1) (kgGroupKeys g1 x) =
        minMaxNormalize (kgPagerank g2) (kgGroupKeys g2 x) from by
      rw [hpr]; exact minMaxNormalize_perm _ hgp]
    rw [show minMaxNormalize (kgWeightedDegree g1) (kgGroupKeys g1 x) =
        minMaxNormalize (kgWeightedDegree g2) (kgGroupKeys g2 x) from by
      rw [hwd]; exact minMaxNormalize_perm _ hgp]
    rw [show minMaxNormalize (kgDiversity g1) (kgGroupKeys g1 x) =
        minMaxNormalize (kgDiversity g2) (kgGroupKeys g2 x) from by
      rw [hdv]; exact minMaxNormalize_perm _ hgp]
  rw [← hscore, ← hpr, ← hwd, ← hnm]
  have htr : ∀ a b c, cmpKeysLE (kgGroupScore g1 (kgGroupKeys g1 x)) (kgPagerank g1)
      (kgWeightedDegree g1) (nodeNameOf g1) a b = true →
      cmpKeysLE (kgGroupScore g1 (kgGroupKeys g1 x)) (kgPagerank g1)
        (kgWeightedDegree g1) (nodeNameOf g1) b c = true →
      cmpKeysLE (kgGroupScore g1 (kgGroupKeys g1 x)) (kgPagerank g1)
        (kgWeightedDegree g1) (nodeNameOf g1) a c = true :=
    fun a b c => cmpKeysLE_trans _ _ _ _ a b c
  have hto : ∀ a b, (cmpKeysLE (kgGroupScore g1 (kgGroupKeys g1 x)) (kgPagerank g1)
      (kgWeightedDegree g1) (nodeNameOf g1) a b ||
      cmpKeysLE (kgGroupScore g1 (kgGroupKeys g1 x)) (kgPagerank g1)
        (kgWeightedDegree g1) (nodeNameOf g1) b a) = true := by
    intro a b
    rcases cmpKeysLE_total (kgGroupScore g1 (kgGroupKeys g1 x)) (kgPagerank g1)
      (kgWeightedDegree g1) (nodeNameOf g1) a b with h | h <;> simp [h]
  refine sorted_perm_eq _ _ _
    (((kgGroupKeys g1 x).mergeSort_perm _).trans
      (hgp.trans ((kgGroupKeys g2 x).mergeSort_perm _).symm))
    (List.sorted_mergeSort htr hto _)
    (List.sorted_mergeSort htr hto _) ?_
  intro a b ha hb h1 h2
  have haK : a ∈ kgGroupKeys g1 x := List.mem_mergeSort.mp ha
  have hbK : b ∈ kgGroupKeys g1 x := List.mem_mergeSort.mp hb
  obtain ⟨haM, haT⟩ := List.mem_filter.mp haK
  obtain ⟨hbM, hbT⟩ := List.mem_filter.mp hbK
  by_contra hab
  obtain ⟨_, _, _, hname⟩ := cmpKeysLE_antisymm_fields _ _ _ _ a b h1 h2
  exact hnames a haM b hbM hab
    ((beq_iff_eq.mp haT).trans (beq_iff_eq.mp hbT).symm) hname

theorem recompute_rank_get (g : KgMergedGraph) (hnd : (kgNodeKeys g).Nodup)
    (tg : String × List String) (htg : tg ∈ groupByType (nodeTypeOf g) (kgNodeKeys g))
    (i : ℕ)
    (h : i < (tg.2.mergeSort (cmpKeysLE (kgGroupScore g tg.2) (kgPagerank g)
      (kgWeightedDegree g) (nodeNameOf g))).length) :
    (List.lookup ((tg.2.mergeSort (cmpKeysLE (kgGroupScore g tg.2) (kgPagerank g)
        (kgWeightedDegree g) (nodeNameOf g))).get ⟨i, h⟩)
      (recomputeMergedImportanceStats g).nodes_by_key).map
        (fun n => n.score.rank_in_type) = some (i + 1) := by
  obtain ⟨h1, h2, h3, _⟩ := groupByType_inv (nodeTypeOf g) (kgNodeKeys g)
  have hks : tg.2 = (kgNodeKeys g).filter (fun x => nodeTypeOf g x == tg.1) := h2 tg htg
  have hget := List.get_mem (tg.2.mergeSort (cmpKeysLE (kgGroupScore g tg.2) (kgPagerank g)
    (kgWeightedDegree g) (nodeNameOf g))) i h
  generalize hgen : (tg.2.mergeSort (cmpKeysLE (kgGroupScore g tg.2) (kgPagerank g)
    (kgWeightedDegree g) (nodeNameOf g))).get ⟨i, h⟩ = k at hget ⊢
  have hkK : k ∈ tg.2 := List.mem_mergeSort.mp hget
  have hkeys : k ∈ kgNodeKeys g := by
    rw [hks] at hkK
    exact List.mem_of_mem_filter hkK
  have htype : nodeTypeOf g k = tg.1 := by
    rw [hks] at hkK
    simpa using List.of_mem_filter hkK
  have hgrp : kgGroupKeys g k = tg.2 := by
    unfold kgGroupKeys
    rw [htype]
    exact hks.symm
  rw [lookup_recompute g k, if_pos hkeys, hgrp]
  have hsortnd : (tg.2.mergeSort (cmpKeysLE (kgGroupScore g tg.2) (kgPagerank g)
      (kgWeightedDegree g) (nodeNameOf g))).Nodup :=
    (List.mergeSort_perm _ _).nodup_iff.mpr (hks ▸ List.Nodup.filter _ hnd)
  show some (rankOfSorted (tg.2.mergeSort (cmpKeysLE (kgGroupScore g tg.2) (kgPagerank g)
      (kgWeightedDegree g) (nodeNameOf g))) k) = some (i + 1)
  rw [← hgen]
  exact congrArg some (rankOfSorted_get _ hsortnd i h)

/-- C6 (amended): within each node-type partition the recomputed ranks follow
the sort order: the sorted key list is pairwise ordered by the comparator
(score descending, then raw PageRank descending, then raw weighted degree
descending, then name ascending), and the node at sorted position `i`
receives `rank_in_type = i + 1`.  The resulting order is independent of the
enumeration order of `nodes_by_key` *provided* no two distinct nodes of the
same type share a name (without that proviso the stable sort falls back to
enumeration order, see the counterexample).  Re-running the recomputation on
the unchanged graph reproduces identical nodes, ranks, metrics and scores. -/
theorem C6_ranking_order (g g2 : KgMergedGraph) (hnd : (kgNodeKeys g).Nodup) :
    (∀ tg ∈ groupByType (nodeTypeOf g) (kgNodeKeys g),
      (tg.2.mergeSort (cmpKeysLE (kgGroupScore g tg.2) (kgPagerank g)
          (kgWeightedDegree g) (nodeNameOf g))).Pairwise
        (fun a b => cmpKeysLE (kgGroupScore g tg.2) (kgPagerank g)
          (kgWeightedDegree g) (nodeNameOf g) a b = true) ∧
      ∀ (i : ℕ) (h : i < (tg.2.mergeSort (cmpKeysLE (kgGroupScore g tg.2) (kgPagerank g)
          (kgWeightedDegree g) (nodeNameOf g))).length),
        (List.lookup ((tg.2.mergeSort (cmpKeysLE (kgGroupScore g tg.2) (kgPagerank g)
            (kgWeightedDegree g) (nodeNameOf g))).get ⟨i, h⟩)
          (recomputeMergedImportanceStats g).nodes_by_key).map
            (fun n => n.score.rank_in_type) = some (i + 1)) ∧
    (g.nodes_by_key.Perm g2.nodes_by_key → g.edges_by_key = g2.edges_by_key →
      (∀ a ∈ kgNodeKeys g, ∀ b ∈ kgNodeKeys g, a ≠ b →
        nodeTypeOf g a = nodeTypeOf g b → nodeNameOf g a ≠ nodeNameOf g b) →
      ∀ k, List.lookup k (recomputeMergedImportanceStats g).nodes_by_key =
        List.lookup k (recomputeMergedImportanceStats g2).nodes_by_key) ∧
    (∀ k, List.lookup k (recomputeMergedImportanceStats
        (recomputeMergedImportanceStats g)).nodes_by_key =
      List.lookup k (recomputeMergedImportanceStats g).nodes_by_key) := by
  refine ⟨?_, ?_, ?_⟩
  · intro tg htg
    constructor
    · exact List.sorted_mergeSort (fun a b c => cmpKeysLE_trans _ _ _ _ a b c)
        (fun a b => by
          rcases cmpKeysLE_total (kgGroupScore g tg.2) (kgPagerank g)
            (kgWeightedDegree g) (nodeNameOf g) a b with h | h <;> simp [h]) tg.2
    · intro i h
      exact recompute_rank_get g hnd tg htg i h
  · intro hpn hedges hnames k
    exact recompute_perm_lookup g g2 hnd hpn hedges hnames k
  · exact recompute_idem_lookup g hnd

/-- Two nodes of the same type with distinct names, in the two enumeration
orders. -/
def witNode (k nm : String) : KgNode :=
  { key := k, id := k, name := nm, node_type := "T", labels := [],
    seen_count := 1, metrics := EMPTY_METRICS, score := EMPTY_SCORE }

def witGraphA : KgMergedGraph :=
  { nodes_by_key := [("k1", witNode "k1" "a"), ("k2", witNode "k2" "b")]
    edges_by_key := []
    summary := { node_count := 2, edge_count := 0, node_type_count := 1 }
    scoring := createEmptyKgMergedGraph.scoring }

def witGraphB : KgMergedGraph :=
  { nodes_by_key := [("k2", witNode "k2" "b"), ("k1", witNode "k1" "a")]
    edges_by_key := []
    summary := { node_count := 2, edge_count := 0, node_type_count := 1 }
    scoring := createEmptyKgMergedGraph.scoring }

/-- Witness for C6 on two concrete two-node graphs with distinct names. -/
theorem C6_ranking_order_witness :
    (kgNodeKeys witGraphA).Nodup ∧
    ((∀ tg ∈ groupByType (nodeTypeOf witGraphA) (kgNodeKeys witGraphA),
      (tg.2.mergeSort (cmpKeysLE (kgGroupScore witGraphA tg.2) (kgPagerank witGraphA)
          (kgWeightedDegree witGraphA) (nodeNameOf witGraphA))).Pairwise
        (fun a b => cmpKeysLE (kgGroupScore witGraphA tg.2) (kgPagerank witGraphA)
          (kgWeightedDegree witGraphA) (nodeNameOf witGraphA) a b = true) ∧
      ∀ (i : ℕ) (h : i < (tg.2.mergeSort (cmpKeysLE (kgGroupScore witGraphA tg.2)
          (kgPagerank witGraphA) (kgWeightedDegree witGraphA)
          (nodeNameOf witGraphA))).length),
        (List.lookup ((tg.2.mergeSort (cmpKeysLE (kgGroupScore witGraphA tg.2)
            (kgPagerank witGraphA) (kgWeightedDegree witGraphA)
            (nodeNameOf witGraphA))).get ⟨i, h⟩)
          (recomputeMergedImportanceStats witGraphA).nodes_by_key).map
            (fun n => n.score.rank_in_type) = some (i + 1)) ∧
    (witGraphA.nodes_by_key.Perm witGraphB.nodes_by_key →
      witGraphA.edges_by_key = witGraphB.edges_by_key →
      (∀ a ∈ kgNodeKeys witGraphA, ∀ b ∈ kgNodeKeys witGraphA, a ≠ b →
        nodeTypeOf witGraphA a = nodeTypeOf witGraphA b →
        nodeNameOf witGraphA a ≠ nodeNameOf witGraphA b) →
      ∀ k, List.lookup k (recomputeMergedImportanceStats witGraphA).nodes_by_key =
        List.lookup k (recomputeMergedImportanceStats witGraphB).nodes_by_key) ∧
    (∀ k, List.lookup k (recomputeMergedImportanceStats
        (recomputeMergedImportanceStats witGraphA)).nodes_by_key =
      List.lookup k (recomputeMergedImportanceStats witGraphA).nodes_by_key)) :=
  ⟨by decide, C6_ranking_order witGraphA witGraphB (by decide)⟩

/-! ## Dynamic JSON-like values (the `unknown` payloads of eventReducer.ts)

`Record<string, unknown>` payloads are modelled as insertion-ordered
association lists over a JSON value type.  Numbers are ℚ (IEEE-754
abstracted, as everywhere in this development); every number is finite, so
`Number.isFinite` checks are `true` on present numbers. -/

inductive JsVal where
  | str : String → JsVal
  | num : ℚ → JsVal
  | jbool : Bool → JsVal
  | null : JsVal
  | arr : List JsVal → JsVal
  | obj : List (String × JsVal) → JsVal

def JsObj : Type := List (String × JsVal)

/-- JS property access `o.k` (missing key → `undefined` → `none`). -/
def jsField (o : JsObj) (k : String) : Option JsVal :=
  List.lookup k (o : List (String × JsVal))

/-- Optional-chained access `o?.k`. -/
def jsFieldOpt (o : Option JsObj) (k : String) : Option JsVal :=
  match o with
  | some o => jsField o k
  | none => none

/-- `asRecord(value)`: an object that is neither `null` nor an array. -/
def asRecordV : Option JsVal → Option JsObj
  | some (JsVal.obj fields) => some fields
  | _ => none

/-- `Array.isArray(value) ? value : []`. -/
def asArray : Option JsVal → List JsVal
  | some (JsVal.arr xs) => xs
  | _ => []

/-- Strict equality of a dynamic value against a string literal
(`value === "lit"`). -/
def jsIsStrEq (v : Option JsVal) (s : String) : Bool :=
  match v with
  | some (JsVal.str t) => t == s
  | _ => false

/-- `String(number)`.  The decimal rendering of non-integers is abstracted
(numbers themselves are ℚ here); no theorem depends on the rendered text. -/
def jsNumToString (q : ℚ) : String :=
  if q.den = 1 then toString q.num else toString q.num ++ "/" ++ toString q.den

/-- `String(value)` for the payload values that reach it. -/
def jsToString : JsVal → String
  | JsVal.str s => s
  | JsVal.num q => jsNumToString q
  | JsVal.jbool true => "true"
  | JsVal.jbool false => "false"
  | JsVal.null => "null"
  | JsVal.arr _ => ""
  | JsVal.obj _ => "[object Object]"

mutual
/-- `JSON.stringify(value, null, 2)`: serialisation is modelled without the
pretty-printing whitespace and string escaping (no theorem depends on the
rendered text, only on which branch produced it). -/
def jsonStringify : JsVal → String
  | JsVal.str s => "\"" ++ s ++ "\""
  | JsVal.num q => jsNumToString q
  | JsVal.jbool true => "true"
  | JsVal.jbool false => "false"
  | JsVal.null => "null"
  | JsVal.arr xs => "[" ++ jsonStringifyItems xs ++ "]"
  | JsVal.obj fields => "\x7b" ++ jsonStringifyFields fields ++ "\x7d"

def jsonStringifyItems : List JsVal → String
  | [] => ""
  | [x] => jsonStringify x
  | x :: rest => jsonStringify x ++ "," ++ jsonStringifyItems rest

def jsonStringifyFields : List (String × JsVal) → String
  | [] => ""
  | [p] => "\"" ++ p.1 ++ "\":" ++ jsonStringify p.2
  | p :: rest => "\"" ++ p.1 ++ "\":" ++ jsonStringify p.2 ++ "," ++ jsonStringifyFields rest
end

/-- `safeJson` applied to the (object) result payload: the `typeof value
=== "string"` branch cannot fire on an object, and serialisation of these
finite values cannot throw. -/
def safeJson (o : JsObj) : String := jsonStringify (JsVal.obj o)

/-- `Number(string)`: decimal integer strings only; the full JS numeric
grammar is abstracted (no theorem depends on it). -/
def jsStringToNumber (s : String) : Option ℚ :=
  let t := jsTrim s
  if t = "" then some 0
  else if t.toList.all Char.isDigit then
    some (mkRat (t.toList.foldl (fun n c => n * 10 + (c.toNat - 48)) 0) 1)
  else none

/-- `toStringValue(value, fallback)` from kgGraph.ts. -/
def toStringValue (value : Option JsVal) (fallback : String) : String :=
  match value with
  | some (JsVal.str s) => jsOrStr (jsTrim s) fallback
  | some (JsVal.num q) => jsNumToString q
  | _ => fallback

/-- `toNumberValue(value, fallback)` from kgGraph.ts. -/
def toNumberValue (value : Option JsVal) (fallback : ℚ) : ℚ :=
  match value with
  | some (JsVal.num q) => q
  | some (JsVal.str s) =>
    match jsStringToNumber s with
    | some q => q
    | none => fallback
  | _ => fallback

/-- `toStringArray(value)` from kgGraph.ts. -/
def toStringArray (value : Option JsVal) : List String :=
  match value with
  | some (JsVal.arr xs) =>
    (xs.map (fun item => toStringValue (some item) "")).filter (fun item => item.length > 0)
  | _ => []

/-- `normalizeSubgraphNode(raw)` from kgGraph.ts. -/
def normalizeSubgraphNode (raw : Option JsVal) : Option KgSubgraphNode :=
  match asRecordV raw with
  | none => none
  | some row =>
    let key := toStringValue (jsField row "key") ""
    if key = "" then none
    else
      let labels := toStringArray (jsField row "labels")
      let nodeType := toStringValue (jsField row "node_type") ((labels.head?).getD "Unknown")
      let id := toStringValue (jsField row "id") key
      let name := toStringValue (jsField row "name") id
      some { key := key, id := id, name := name,
             node_type := jsOrStr nodeType "Unknown", labels := labels }

/-- `normalizeSubgraphEdge(raw)` from kgGraph.ts. -/
def normalizeSubgraphEdge (raw : Option JsVal) : Option KgSubgraphEdge :=
  match asRecordV raw with
  | none => none
  | some row =>
    let source := toStringValue (jsField row "source") ""
    let target := toStringValue (jsField row "target") ""
    let type := toStringValue (jsField row "type") "RELATED_TO"
    if source = "" ∨ target = "" then none
    else
      some { source := source, target := target, type := type,
             weight := jsMax 0 (toNumberValue (jsField row "weight") 1),
             confidence_key :=
               if toStringValue (jsField row "confidence_key") "" = "" then none
               else some (toStringValue (jsField row "confidence_key") "") }

/-- `normalizeSubgraph(raw)` from kgGraph.ts (`.map(...).filter(Boolean)`
written as `filterMap`). -/
def normalizeSubgraph (raw : Option JsVal) : Option KgSubgraph :=
  match asRecordV raw with
  | none => none
  | some row =>
    let nodes := (asArray (jsField row "nodes")).filterMap
      (fun x => normalizeSubgraphNode (some x))
    let edges := (asArray (jsField row "edges")).filterMap
      (fun x => normalizeSubgraphEdge (some x))
    let summary := asRecordV (jsField row "summary")
    some { summary :=
             { node_count := toNumberValue (jsFieldOpt summary "node_count")
                 (mkRat nodes.length 1)
               edge_count := toNumberValue (jsFieldOpt summary "edge_count")
                 (mkRat edges.length 1) }
           nodes := nodes, edges := edges }

/-- `toLowerCase`. -/
def jsToLower (s : String) : String := s.map Char.toLower

/-- `isSuccessfulResult(toolResult)` from kgGraph.ts. -/
def isSuccessfulResult (toolResult : JsObj) : Bool :=
  let status := jsToLower (toStringValue (jsField toolResult "status") "")
  status == "success" || status == "completed"

def KG_TOOL_NAMES : List String := ["kg_query", "kg_cypher_execute"]

/-- `extractKgSubgraphFromToolResult(toolName, toolResult)` from kgGraph.ts
(the `toolResult` argument is typed `Record<string,unknown> | null |
undefined`, so `asRecord` on it is the identity on present values). -/
def extractKgSubgraphFromToolResult (toolName : Option String)
    (toolResult : Option JsObj) : Option KgSubgraph :=
  match toolResult with
  | none => none
  | some result =>
    if ¬ isSuccessfulResult result then none
    else
      let output := asRecordV (jsField result "output")
      let normalizedTool := jsTrim (toolName.getD "")
      let isKgByToolName := normalizedTool.length > 0 ∧ normalizedTool ∈ KG_TOOL_NAMES
      if ¬ isKgByToolName then
        let sourceMeta := asRecordV (jsFieldOpt output "source_meta")
        let source := toStringValue (jsFieldOpt sourceMeta "source") ""
        if source ≠ "crossbar_kg" then none
        else normalizeSubgraph (jsFieldOpt (asRecordV (jsFieldOpt output "data")) "subgraph")
      else normalizeSubgraph (jsFieldOpt (asRecordV (jsFieldOpt output "data")) "subgraph")

/-! ## Turn / WorkStep data model (types/events.ts) -/

structure WorkStep where
  id : String
  kind : String
  text : String
  status : String
  segmentIndex : Option ℚ
  toolUseId : Option String
  toolName : Option String
  title : Option String
  code : Option String
  command : Option String
  stdout : Option String
  stderr : Option String
  result : Option JsObj
  replEnv : Option JsObj

structure Turn where
  id : String
  runId : Option String
  userText : String
  userMessageId : Option String
  assistantText : String
  assistantMessageId : Option String
  status : String
  workSteps : List WorkStep

structure WsMessagePayload where
  id : Option String := none
  thread_id : Option String := none
  role : Option String := none
  content : Option String := none
  metadata : Option JsObj := none
  created_at : Option String := none

/-- `WsEvent`; `type` is a `String` so that unrecognised tags (the reducer's
`default` case) are representable. -/
structure WsEvent where
  type : String
  thread_id : Option String := none
  run_id : Option String := none
  segment_index : Option ℚ := none
  role : Option String := none
  token : Option String := none
  content : Option String := none
  summary : Option String := none
  message_id : Option String := none
  message : Option WsMessagePayload := none
  tool_calls : Option (List JsObj) := none
  tool_use_id : Option String := none
  parent_tool_use_id : Option String := none
  tool_name : Option String := none
  ui_visible : Option Bool := none
  arguments : Option JsObj := none
  code : Option String := none
  result : Option JsObj := none
  env : Option JsObj := none
  error : Option String := none

structure ChatState where
  threadId : Option String
  activeRunId : Option String
  turns : List Turn
  kgGraph : KgMergedGraph
  error : Option String

/-- `ChatAction`.  The `HYDRATE_FROM_MESSAGES` branch (persisted-message
replay) is outside every claim of this development and is not embedded. -/
inductive ChatAction where
  | RESET (threadId : Option String)
  | LOCAL_USER_MESSAGE (message : String)
  | WS_EVENT (event : WsEvent)

def initialChatState : ChatState :=
  { threadId := none, activeRunId := none, turns := [],
    kgGraph := createEmptyKgMergedGraph, error := none }

/-! ## eventReducer.ts helpers -/

def DISPLAYABLE_TOP_LEVEL_TOOLS : List String := ["repl_exec", "bash_exec"]

/-- `normalizeToolName(value)` (the argument is typed, so the `typeof`
check is presence). -/
def normalizeToolName (value : Option String) : Option String :=
  match value with
  | none => none
  | some s =>
    let normalized := jsTrim s
    if normalized.length > 0 then some normalized else none

def isDisplayableTopLevelToolName (value : Option String) : Bool :=
  match normalizeToolName value with
  | some toolName => toolName ∈ DISPLAYABLE_TOP_LEVEL_TOOLS
  | none => false

/-- `isUiVisible(value)`: `value !== false`. -/
def isUiVisible (value : Option Bool) : Bool := value ≠ some false

/-- JS truthiness of an optional string (`undefined` and `""` are falsy). -/
def jsStrTruthy (value : Option String) : Bool :=
  match value with
  | none => false
  | some s => s ≠ ""

/-- `typeof v === "string" ? v : undefined` on a dynamic value. -/
def jsAsString : Option JsVal → Option String
  | some (JsVal.str s) => some s
  | _ => none

/-- The generated turn id `turn-${Date.now()}-${Math.random()...}`:
wall clock and randomness are abstracted to a fixed placeholder.  No theorem
depends on the id value (the idempotence proofs never reach a second
creation, and the counterexamples only count turns). -/
def makeTurnId : String := "turn-0-0"

/-- `makeTurn(partial)` at its two call sites (`runId`/`userText`/`status`
are the only fields ever passed). -/
def makeTurn (runId : Option String) (userText : String) (status : String) : Turn :=
  { id := makeTurnId, runId := runId, userText := userText, userMessageId := none,
    assistantText := "", assistantMessageId := none, status := status, workSteps := [] }

def findTurnIndexByRun (turns : List Turn) (runId : Option String) : Option ℕ :=
  match runId with
  | none => none
  | some r => turns.findIdx? (fun turn => turn.runId == some r)

/-- `!turn.runId && turn.status === "streaming" && !turn.assistantText`. -/
def isPendingTurn (turn : Turn) : Bool :=
  !jsStrTruthy turn.runId && turn.status == "streaming" && turn.assistantText == ""

/-- Scan from the last index downward. -/
def findLatestPendingTurnIndex (turns : List Turn) : Option ℕ :=
  (List.range turns.length).reverse.find? (fun i =>
    match turns.get? i with
    | some turn => isPendingTurn turn
    | none => false)

def ensureTurn (turns : List Turn) (runId : Option String) : List Turn × ℕ :=
  match findTurnIndexByRun turns runId with
  | some byRun => (turns, byRun)
  | none =>
    match findLatestPendingTurnIndex turns with
    | some pendingIdx =>
      match turns.get? pendingIdx with
      | some t =>
        (turns.set pendingIdx
          { t with runId := runId.or t.runId, status := "streaming" }, pendingIdx)
      | none => (turns, pendingIdx)
    | none => (turns ++ [makeTurn runId "" "streaming"], turns.length)

/-- `upsertWorkStep(workSteps, step)`, where the call site's literal `step`
is spread over the existing entry (`{ ...next[idx], ...step }`).  Each call
site computes its literal from `existing` — the entry found under the same
id — so the merged entry is a function `mk` of that entry: `mk (some old)`
is `{ ...old, ...literal }` and `mk none` is the appended literal. -/
def upsertWorkStep (workSteps : List WorkStep) (stepId : String)
    (mk : Option WorkStep → WorkStep) : List WorkStep :=
  match workSteps.findIdx? (fun item => item.id == stepId) with
  | none => workSteps ++ [mk none]
  | some idx => workSteps.set idx (mk (workSteps.get? idx))

/-- The absent-key placeholder for `mk none` (a freshly appended literal has
`undefined` in every key it does not list; the listed keys are always
overwritten). -/
def blankStep : WorkStep :=
  { id := "", kind := "", text := "", status := "", segmentIndex := none,
    toolUseId := none, toolName := none, title := none, code := none,
    command := none, stdout := none, stderr := none, result := none, replEnv := none }

def appendWorkToken (workSteps : List WorkStep) (id token : String) : List WorkStep :=
  match workSteps.findIdx? (fun item => item.id == id) with
  | none => workSteps
  | some idx =>
    match workSteps.get? idx with
    | none => workSteps
    | some old => workSteps.set idx { old with text := old.text ++ token }

/-- Write the turn at `idx` (the reducer's `nextTurns[ensured.index] = ...`;
the index returned by `ensureTurn` is always in range). -/
def setTurnAt (turns : List Turn) (idx : ℕ) (f : Turn → Turn) : List Turn :=
  match turns.get? idx with
  | some t => turns.set idx (f t)
  | none => turns

/-- `workSteps.find(step => step.id === stepId)`. -/
def findStep (workSteps : List WorkStep) (stepId : String) : Option WorkStep :=
  workSteps.find? (fun step => step.id == stepId)

/-- `parseToolResultObject(event.result)`: the field is typed
`Record<string, unknown>`, so `asRecord` is the identity on present values
and the `JSON.parse` string branch cannot fire. -/
def parseToolResultObject (value : Option JsObj) : Option JsObj := value

def mergeKgGraphWithResult (graph : KgMergedGraph) (toolName : Option String)
    (toolResult : Option JsObj) : KgMergedGraph :=
  match extractKgSubgraphFromToolResult toolName toolResult with
  | none => graph
  | some subgraph => recomputeMergedImportanceStats (mergeSubgraphIntoThreadGraph graph subgraph)

/-! ## chatReducer (eventReducer.ts): one definition per `case` block -/

/-- `typeof event.run_id === "string" && event.run_id.trim() ? event.run_id
: undefined`. -/
def wsRunIdOf (e : WsEvent) : Option String :=
  match e.run_id with
  | some r => if jsTrim r ≠ "" then some r else none
  | none => none

/-- The `baseState` built before the `switch`. -/
def wsBaseState (state : ChatState) (e : WsEvent) : ChatState :=
  { state with threadId := e.thread_id.or state.threadId,
               activeRunId := (wsRunIdOf e).or state.activeRunId }

def thinkingStepId (runId : Option String) (seg : Option ℚ) : String :=
  "thinking-" ++ runId.getD "norun" ++ "-" ++ jsNumToString (seg.getD 0)

/-- `` `tool-${runId ?? "norun"}-${event.segment_index ?? 0}` `` and the
`repl-` variant. -/
def defaultToolUseId (fam : String) (runId : Option String) (seg : Option ℚ) : String :=
  fam ++ "-" ++ runId.getD "norun" ++ "-" ++ jsNumToString (seg.getD 0)

/-- token-first extraction (`event.token ?? event.content ?? ""`). -/
def wsTokenOf (e : WsEvent) : String := (e.token.or e.content).getD ""

/-- content-first extraction used by repl stdout/stderr. -/
def wsContentOf (e : WsEvent) : String := (e.content.or e.token).getD ""

def caseError (b : ChatState) (e : WsEvent) : ChatState :=
  { b with error := some (e.error.getD "Unknown error") }

def startTurn (t : Turn) : Turn := { t with status := "streaming" }

def caseStart (b : ChatState) (runId : Option String) : ChatState :=
  let ensured := ensureTurn b.turns runId
  { b with
    turns := setTurnAt ensured.1 ensured.2 startTurn
    error := none }

def thinkingStartTurn (e : WsEvent) (stepId : String) (t : Turn) : Turn :=
  { t with
    workSteps := upsertWorkStep t.workSteps stepId (fun old =>
      { (old.getD blankStep) with
        id := stepId, kind := "thinking", text := "",
        status := "streaming", segmentIndex := e.segment_index })
    status := "streaming" }

def caseThinkingStart (b : ChatState) (e : WsEvent) (runId : Option String) : ChatState :=
  let ensured := ensureTurn b.turns runId
  let stepId := thinkingStepId runId e.segment_index
  { b with turns := setTurnAt ensured.1 ensured.2 (thinkingStartTurn e stepId) }

def thinkingTokenTurn (stepId token : String) (t : Turn) : Turn :=
  { t with workSteps := appendWorkToken t.workSteps stepId token }

def caseThinkingToken (b : ChatState) (e : WsEvent) (runId : Option String) : ChatState :=
  let token := wsTokenOf e
  if token = "" then b
  else
    let ensured := ensureTurn b.turns runId
    let stepId := thinkingStepId runId e.segment_index
    { b with turns := setTurnAt ensured.1 ensured.2 (thinkingTokenTurn stepId token) }

def thinkingEndTurn (e : WsEvent) (stepId : String) (t : Turn) : Turn :=
  let existing := findStep t.workSteps stepId
  let finalSummary :=
    match e.summary with
    | some s => if (jsTrim s).length > 0 then s else (existing.map WorkStep.text).getD ""
    | none => (existing.map WorkStep.text).getD ""
  { t with
    workSteps := upsertWorkStep t.workSteps stepId (fun old =>
      { (old.getD blankStep) with
        id := stepId, kind := "thinking", text := finalSummary,
        status := "done", segmentIndex := e.segment_index }) }

def caseThinkingEnd (b : ChatState) (e : WsEvent) (runId : Option String) : ChatState :=
  let ensured := ensureTurn b.turns runId
  let stepId := thinkingStepId runId e.segment_index
  { b with turns := setTurnAt ensured.1 ensured.2 (thinkingEndTurn e stepId) }

def thinkingTitleTurn (e : WsEvent) (stepId : String) (t : Turn) : Turn :=
  match findStep t.workSteps stepId with
  | some _ =>
    { t with
      workSteps := upsertWorkStep t.workSteps stepId (fun old =>
        { (old.getD blankStep) with title := e.summary }) }
  | none => t

def caseThinkingTitle (b : ChatState) (e : WsEvent) (runId : Option String) : ChatState :=
  let ensured := ensureTurn b.turns runId
  let stepId := thinkingStepId runId e.segment_index
  { b with turns := setTurnAt ensured.1 ensured.2 (thinkingTitleTurn e stepId) }

def segmentStartTurn (e : WsEvent) (t : Turn) : Turn :=
  { t with assistantMessageId := e.message_id.or t.assistantMessageId,
           status := "streaming" }

def caseSegmentStart (b : ChatState) (e : WsEvent) (runId : Option String) : ChatState :=
  let ensured := ensureTurn b.turns runId
  { b with turns := setTurnAt ensured.1 ensured.2 (segmentStartTurn e) }

def segmentTokenTurn (token : String) (t : Turn) : Turn :=
  { t with assistantText := t.assistantText ++ token, status := "streaming" }

def caseSegmentToken (b : ChatState) (e : WsEvent) (runId : Option String) : ChatState :=
  let token := wsTokenOf e
  if token = "" then b
  else
    let ensured := ensureTurn b.turns runId
    { b with turns := setTurnAt ensured.1 ensured.2 (segmentTokenTurn token) }

def segmentEndTurn (e : WsEvent) (t : Turn) : Turn :=
  let t1 :=
    match e.content with
    | some c =>
      if (jsTrim c).length > 0 then
        if t.assistantText = "" then { t with assistantText := c }
        else if jsStartsWith c t.assistantText then { t with assistantText := c }
        else if ¬ jsEndsWith t.assistantText c then
          { t with assistantText := t.assistantText ++ c }
        else t
      else t
    | none => t
  { t1 with assistantMessageId := e.message_id.or t1.assistantMessageId,
            status := "streaming" }

def caseSegmentEnd (b : ChatState) (e : WsEvent) (runId : Option String) : ChatState :=
  let ensured := ensureTurn b.turns runId
  { b with turns := setTurnAt ensured.1 ensured.2 (segmentEndTurn e) }

def toolStartTurn (e : WsEvent) (toolUseId label : String) (command : Option String)
    (t : Turn) : Turn :=
  { t with
    workSteps := upsertWorkStep t.workSteps ("tool-" ++ toolUseId) (fun old =>
      { (old.getD blankStep) with
        id := "tool-" ++ toolUseId, kind := "tool",
        text := label, status := "streaming", segmentIndex := e.segment_index,
        toolUseId := some toolUseId, toolName := e.tool_name, command := command })
    status := "streaming" }

def caseToolStart (b : ChatState) (e : WsEvent) (runId : Option String) : ChatState :=
  if jsStrTruthy e.parent_tool_use_id then b
  else if ¬ isUiVisible e.ui_visible then b
  else if ¬ isDisplayableTopLevelToolName e.tool_name then b
  else if e.tool_name == some "repl_exec" then b
  else
    let ensured := ensureTurn b.turns runId
    let toolUseId := e.tool_use_id.getD (defaultToolUseId "tool" runId e.segment_index)
    let toolLabel := e.tool_name.getD toolUseId
    let command := if e.tool_name == some "bash_exec" then some "" else none
    let label :=
      if e.tool_name == some "bash_exec" then "Running bash command"
      else "Using " ++ toolLabel
    { b with turns := setTurnAt ensured.1 ensured.2 (toolStartTurn e toolUseId label command) }

def bashCommandTokenTurn (e : WsEvent) (toolUseId token : String) (t : Turn) : Turn :=
  let stepId := "tool-" ++ toolUseId
  { t with
    workSteps := upsertWorkStep t.workSteps stepId (fun old =>
      { (old.getD blankStep) with
        id := stepId, kind := "tool",
        text := (old.map WorkStep.text).getD "Running bash command",
        status := (old.map WorkStep.status).getD "streaming",
        segmentIndex := e.segment_index, toolUseId := some toolUseId,
        toolName := some "bash_exec",
        command := some (appendChunk (old.bind WorkStep.command) (some token)),
        stdout := some ((old.bind WorkStep.stdout).getD ""),
        stderr := some ((old.bind WorkStep.stderr).getD ""),
        result := old.bind WorkStep.result }) }

def caseBashCommandToken (b : ChatState) (e : WsEvent) (runId : Option String) : ChatState :=
  if ¬ isUiVisible e.ui_visible then b
  else
    let token := wsTokenOf e
    if token = "" then b
    else
      let ensured := ensureTurn b.turns runId
      let toolUseId := e.tool_use_id.getD (defaultToolUseId "tool" runId e.segment_index)
      { b with turns := setTurnAt ensured.1 ensured.2 (bashCommandTokenTurn e toolUseId token) }

def replStartTurn (e : WsEvent) (toolUseId code : String) (t : Turn) : Turn :=
  let stepId := "repl-" ++ toolUseId
  { t with
    workSteps := upsertWorkStep t.workSteps stepId (fun old =>
      { (old.getD blankStep) with
        id := stepId, kind := "repl",
        text := "Running Python REPL", status := "streaming",
        segmentIndex := e.segment_index, toolUseId := some toolUseId,
        toolName := some "repl_exec", code := some code, stdout := some "",
        stderr := some "", replEnv := none })
    status := "streaming" }

def caseReplStart (b : ChatState) (e : WsEvent) (runId : Option String) : ChatState :=
  let ensured := ensureTurn b.turns runId
  let toolUseId := e.tool_use_id.getD (defaultToolUseId "repl" runId e.segment_index)
  let code := e.code.getD ""
  { b with turns := setTurnAt ensured.1 ensured.2 (replStartTurn e toolUseId code) }

def replCodeTokenTurn (e : WsEvent) (toolUseId token : String) (t : Turn) : Turn :=
  let stepId := "repl-" ++ toolUseId
  { t with
    workSteps := upsertWorkStep t.workSteps stepId (fun old =>
      { (old.getD blankStep) with
        id := stepId, kind := "repl",
        text := (old.map WorkStep.text).getD "Running Python REPL",
        status := (old.map WorkStep.status).getD "streaming",
        segmentIndex := e.segment_index, toolUseId := some toolUseId,
        toolName := some "repl_exec",
        code := some (appendChunk (old.bind WorkStep.code) (some token)),
        stdout := some ((old.bind WorkStep.stdout).getD ""),
        stderr := some ((old.bind WorkStep.stderr).getD ""),
        replEnv := old.bind WorkStep.replEnv }) }

def caseReplCodeToken (b : ChatState) (e : WsEvent) (runId : Option String) : ChatState :=
  let token := wsTokenOf e
  if token = "" then b
  else
    let ensured := ensureTurn b.turns runId
    let toolUseId := e.tool_use_id.getD (defaultToolUseId "repl" runId e.segment_index)
    { b with turns := setTurnAt ensured.1 ensured.2 (replCodeTokenTurn e toolUseId token) }

def replStdoutTurn (e : WsEvent) (toolUseId content : String) (t : Turn) : Turn :=
  let stepId := "repl-" ++ toolUseId
  { t with
    workSteps := upsertWorkStep t.workSteps stepId (fun old =>
      { (old.getD blankStep) with
        id := stepId, kind := "repl",
        text := (old.map WorkStep.text).getD "Running Python REPL",
        status := "streaming",
        segmentIndex := e.segment_index, toolUseId := some toolUseId,
        toolName := some "repl_exec", code := old.bind WorkStep.code,
        stdout := some (appendChunk (old.bind WorkStep.stdout) (some content)),
        stderr := some ((old.bind WorkStep.stderr).getD ""),
        replEnv := old.bind WorkStep.replEnv }) }

def caseReplStdout (b : ChatState) (e : WsEvent) (runId : Option String) : ChatState :=
  let ensured := ensureTurn b.turns runId
  let toolUseId := e.tool_use_id.getD (defaultToolUseId "repl" runId e.segment_index)
  let content := wsContentOf e
  { b with turns := setTurnAt ensured.1 ensured.2 (replStdoutTurn e toolUseId content) }

def replStderrTurn (e : WsEvent) (toolUseId content : String) (t : Turn) : Turn :=
  let stepId := "repl-" ++ toolUseId
  { t with
    workSteps := upsertWorkStep t.workSteps stepId (fun old =>
      { (old.getD blankStep) with
        id := stepId, kind := "repl",
        text := (old.map WorkStep.text).getD "Running Python REPL",
        status := "streaming",
        segmentIndex := e.segment_index, toolUseId := some toolUseId,
        toolName := some "repl_exec", code := old.bind WorkStep.code,
        stdout := some ((old.bind WorkStep.stdout).getD ""),
        stderr := some (appendChunk (old.bind WorkStep.stderr) (some content)),
        replEnv := old.bind WorkStep.replEnv }) }

def caseReplStderr (b : ChatState) (e : WsEvent) (runId : Option String) : ChatState :=
  let ensured := ensureTurn b.turns runId
  let toolUseId := e.tool_use_id.getD (defaultToolUseId "repl" runId e.segment_index)
  let content := wsContentOf e
  { b with turns := setTurnAt ensured.1 ensured.2 (replStderrTurn e toolUseId content) }

def replEnvTurn (e : WsEvent) (toolUseId : String) (envPayload : JsObj) (t : Turn) : Turn :=
  let stepId := "repl-" ++ toolUseId
  { t with
    workSteps := upsertWorkStep t.workSteps stepId (fun old =>
      { (old.getD blankStep) with
        id := stepId, kind := "repl",
        text := (old.map WorkStep.text).getD "Running Python REPL",
        status := (old.map WorkStep.status).getD "streaming",
        segmentIndex := e.segment_index, toolUseId := some toolUseId,
        toolName := some "repl_exec", code := old.bind WorkStep.code,
        stdout := some ((old.bind WorkStep.stdout).getD ""),
        stderr := some ((old.bind WorkStep.stderr).getD ""),
        result := old.bind WorkStep.result,
        replEnv := some envPayload }) }

def caseReplEnv (b : ChatState) (e : WsEvent) (runId : Option String) : ChatState :=
  match e.env with
  | none => b
  | some envPayload =>
    let ensured := ensureTurn b.turns runId
    let toolUseId := e.tool_use_id.getD (defaultToolUseId "repl" runId e.segment_index)
    { b with turns := setTurnAt ensured.1 ensured.2 (replEnvTurn e toolUseId envPayload) }

def replEndTurn (e : WsEvent) (toolUseId : String) (t : Turn) : Turn :=
  let stepId := "repl-" ++ toolUseId
  let resultPayload := e.result.getD []
  let nextStatus := if jsIsStrEq (jsField resultPayload "status") "error" then "error" else "done"
  let output := asRecordV (jsField resultPayload "output")
  { t with
    workSteps := upsertWorkStep t.workSteps stepId (fun old =>
      { (old.getD blankStep) with
        id := stepId, kind := "repl",
        text := (old.map WorkStep.text).getD "Running Python REPL",
        status := nextStatus, segmentIndex := e.segment_index,
        toolUseId := some toolUseId, toolName := some "repl_exec",
        code := old.bind WorkStep.code,
        stdout := some (appendChunk (old.bind WorkStep.stdout)
          (jsAsString (jsFieldOpt output "stdout"))),
        stderr := some (appendChunk (old.bind WorkStep.stderr)
          (jsAsString (jsFieldOpt output "stderr"))),
        result := some resultPayload,
        replEnv := (asRecordV (jsFieldOpt output "env")).or
          (old.bind WorkStep.replEnv) }) }

def caseReplEnd (b : ChatState) (e : WsEvent) (runId : Option String) : ChatState :=
  let ensured := ensureTurn b.turns runId
  let toolUseId := e.tool_use_id.getD (defaultToolUseId "repl" runId e.segment_index)
  { b with turns := setTurnAt ensured.1 ensured.2 (replEndTurn e toolUseId) }

def toolResultBashTurn (e : WsEvent) (toolUseId : String) (resultPayload : JsObj)
    (t : Turn) : Turn :=
  let stepId := "tool-" ++ toolUseId
  let output := asRecordV (jsField resultPayload "output")
  let statusRaw := jsToString ((jsField resultPayload "status").getD (JsVal.str ""))
  let nextStatus :=
    if statusRaw == "success" || statusRaw == "completed" then "done"
    else if statusRaw == "streaming" then "streaming"
    else "error"
  { t with
    workSteps := upsertWorkStep t.workSteps stepId (fun old =>
      { (old.getD blankStep) with
        id := stepId, kind := "tool",
        text := (old.map WorkStep.text).getD "Running bash command",
        status := nextStatus, segmentIndex := e.segment_index,
        toolUseId := some toolUseId, toolName := some "bash_exec",
        command := (jsAsString (jsFieldOpt output "command")).or
          (old.bind WorkStep.command),
        stdout := some (appendChunk (old.bind WorkStep.stdout)
          (jsAsString (jsFieldOpt output "stdout"))),
        stderr := some (appendChunk (old.bind WorkStep.stderr)
          (jsAsString (jsFieldOpt output "stderr"))),
        result := some resultPayload }) }

def toolResultGenericTurn (e : WsEvent) (toolUseId : String) (resultPayload : JsObj)
    (toolName : Option String) (t : Turn) : Turn :=
  let stepId := "tool-" ++ toolUseId
  let nextStatus :=
    if jsIsStrEq (jsField resultPayload "status") "success" ||
        jsIsStrEq (jsField resultPayload "status") "completed" then "done"
    else "error"
  { t with
    workSteps := upsertWorkStep t.workSteps stepId (fun old =>
      { (old.getD blankStep) with
        id := stepId, kind := "tool",
        text := ((old.map WorkStep.text).getD
            ("Using " ++ (((old.bind WorkStep.toolName).or e.tool_name).getD toolUseId)))
          ++ "\n\nResult:\n" ++ safeJson resultPayload,
        status := nextStatus, segmentIndex := e.segment_index,
        toolUseId := some toolUseId, toolName := toolName }) }

def caseToolResult (b : ChatState) (e : WsEvent) (runId : Option String) : ChatState :=
  if jsStrTruthy e.parent_tool_use_id then b
  else if ¬ isUiVisible e.ui_visible then b
  else if e.tool_name == some "repl_exec" then b
  else
    let ensured := ensureTurn b.turns runId
    let toolUseId := e.tool_use_id.getD (defaultToolUseId "tool" runId e.segment_index)
    let stepId := "tool-" ++ toolUseId
    match ensured.1.get? ensured.2 with
    | none => b
    | some target =>
      let existing := findStep target.workSteps stepId
      let resultPayload := (parseToolResultObject e.result).getD []
      let toolName := (existing.bind WorkStep.toolName).or e.tool_name
      if ¬ isDisplayableTopLevelToolName toolName then b
      else if toolName == some "bash_exec" then
        { b with
          turns := setTurnAt ensured.1 ensured.2 (toolResultBashTurn e toolUseId resultPayload) }
      else
        let resolvedToolName := (existing.bind WorkStep.toolName).or e.tool_name
        { b with
          turns := setTurnAt ensured.1 ensured.2
            (toolResultGenericTurn e toolUseId resultPayload toolName)
          kgGraph := mergeKgGraphWithResult b.kgGraph resolvedToolName (some resultPayload) }

def completeTurn (e : WsEvent) (t : Turn) : Turn :=
  let t1 :=
    match e.message with
    | some m =>
      match m.id with
      | some i => if i ≠ "" then { t with assistantMessageId := some i } else t
      | none => t
    | none => t
  let t2 :=
    match e.message with
    | some m =>
      match m.content with
      | some c => if (jsTrim c).length > 0 then { t1 with assistantText := c } else t1
      | none => t1
    | none => t1
  { t2 with status := "done" }

def caseComplete (b : ChatState) (e : WsEvent) (runId : Option String) : ChatState :=
  let ensured := ensureTurn b.turns runId
  { b with
    turns := setTurnAt ensured.1 ensured.2 (completeTurn e)
    error := none }

def chatReducer (state : ChatState) (action : ChatAction) : ChatState :=
  match action with
  | ChatAction.RESET threadId => { initialChatState with threadId := threadId }
  | ChatAction.LOCAL_USER_MESSAGE message =>
    { state with turns := state.turns ++ [makeTurn none message "streaming"], error := none }
  | ChatAction.WS_EVENT event =>
    let runId := wsRunIdOf event
    let b := wsBaseState state event
    if event.type = "main_agent_error" then caseError b event
    else if event.type = "main_agent_start" then caseStart b runId
    else if event.type = "main_agent_thinking_start" then caseThinkingStart b event runId
    else if event.type = "main_agent_thinking_token" then caseThinkingToken b event runId
    else if event.type = "main_agent_thinking_end" then caseThinkingEnd b event runId
    else if event.type = "main_agent_thinking_title" then caseThinkingTitle b event runId
    else if event.type = "main_agent_segment_start" then caseSegmentStart b event runId
    else if event.type = "main_agent_segment_token" then caseSegmentToken b event runId
    else if event.type = "main_agent_segment_end" then caseSegmentEnd b event runId
    else if event.type = "main_agent_tool_start" then caseToolStart b event runId
    else if event.type = "main_agent_bash_command_token" then caseBashCommandToken b event runId
    else if event.type = "main_agent_repl_start" then caseReplStart b event runId
    else if event.type = "main_agent_repl_code_token" then caseReplCodeToken b event runId
    else if event.type = "main_agent_repl_stdout" then caseReplStdout b event runId
    else if event.type = "main_agent_repl_stderr" then caseReplStderr b event runId
    else if event.type = "main_agent_repl_env" then caseReplEnv b event runId
    else if event.type = "main_agent_repl_end" then caseReplEnd b event runId
    else if event.type = "main_agent_tool_result" then caseToolResult b event runId
    else if event.type = "main_agent_complete" then caseComplete b event runId
    else b

/-! ## List toolbox for the reducer proofs -/

theorem set_get_self {α : Type} : ∀ (l : List α) (i : ℕ) (a : α),
    l.get? i = some a → l.set i a = l := by
  intro l
  induction l with
  | nil => intro i a h; simp at h
  | cons x xs ih =>
    intro i a h
    cases i with
    | zero =>
      simp only [List.get?] at h
      cases h
      rfl
    | succ j =>
      simp only [List.get?] at h
      simp only [List.set]
      rw [ih j a h]

theorem findIdx?_set_self {α : Type} (p : α → Bool) (l : List α) (i : ℕ) (v : α)
    (h : l.findIdx? p = some i) (hv : p v = true) : (l.set i v).findIdx? p = some i := by
  obtain ⟨hlen, hp, hmin⟩ := List.findIdx?_eq_some_iff_getElem.mp h
  have hlen2 : i < (l.set i v).length := by
    rw [List.length_set]
    exact hlen
  refine List.findIdx?_eq_some_iff_getElem.mpr ⟨hlen2, ?_, ?_⟩
  · rw [List.getElem_set_self hlen2]
    exact hv
  · intro j hji
    have hne : i ≠ j := fun he => absurd hji (by rw [he]; exact lt_irrefl j)
    rw [List.getElem_set_ne hne]
    exact hmin j hji

theorem findIdx?_append_singleton {α : Type} (p : α → Bool) (l : List α) (v : α)
    (hl : ∀ x ∈ l, p x = false) (hv : p v = true) :
    (l ++ [v]).findIdx? p = some l.length := by
  have hlen : l.length < (l ++ [v]).length := by simp
  refine List.findIdx?_eq_some_iff_getElem.mpr ⟨hlen, ?_, ?_⟩
  · rw [List.getElem_concat_length l v l.length rfl]
    exact hv
  · intro j hji
    rw [List.getElem_append_left hji]
    rw [hl _ (List.getElem_mem hji)]
    simp

theorem findIdx?_set_congr {α : Type} (p : α → Bool) (l : List α) (i : ℕ) (t v : α)
    (ht : l.get? i = some t) (hp : p v = p t) :
    (l.set i v).findIdx? p = l.findIdx? p := by
  have hlen : i < l.length := by
    by_contra hc
    rw [List.get?_eq_getElem?, List.getElem?_eq_none (le_of_not_lt hc)] at ht
    exact Option.noConfusion ht
  have htv : l[i] = t := by
    rw [List.get?_eq_getElem?, List.getElem?_eq_getElem hlen] at ht
    exact Option.some.inj ht
  have hpi : p v = p (l[i]) := by
    rw [htv]
    exact hp
  cases hf : l.findIdx? p with
  | none =>
    rw [List.findIdx?_eq_none_iff] at hf ⊢
    intro x hx
    obtain ⟨j, hj, hxe⟩ := List.mem_iff_getElem.mp hx
    have hj2 : j < l.length := by
      rw [List.length_set] at hj
      exact hj
    rw [← hxe, List.getElem_set]
    by_cases he : i = j
    · rw [if_pos he, hpi]
      exact hf _ (List.getElem_mem hlen)
    · rw [if_neg he]
      exact hf _ (List.getElem_mem hj2)
  | some k =>
    obtain ⟨hk, hpk, hmink⟩ := List.findIdx?_eq_some_iff_getElem.mp hf
    have hk2 : k < (l.set i v).length := by
      rw [List.length_set]
      exact hk
    refine List.findIdx?_eq_some_iff_getElem.mpr ⟨hk2, ?_, ?_⟩
    · rw [List.getElem_set]
      by_cases he : i = k
      · rw [if_pos he, hpi]
        subst he
        exact hpk
      · rw [if_neg he]
        exact hpk
    · intro j hjk
      rw [List.getElem_set]
      by_cases he : i = j
      · rw [if_pos he, hpi]
        subst he
        exact hmink i hjk
      · rw [if_neg he]
        exact hmink j hjk

theorem option_or_self_left {α : Type} (a b : Option α) : a.or (a.or b) = a.or b := by
  cases a <;> rfl

theorem find?_of_findIdx? {α : Type} (p : α → Bool) :
    ∀ (l : List α) (idx : ℕ), l.findIdx? p = some idx → l.find? p = l.get? idx := by
  intro l
  induction l with
  | nil => intro idx h; simp at h
  | cons x xs ih =>
    intro idx h
    rw [List.findIdx?_cons] at h
    by_cases hp : p x = true
    · rw [if_pos hp] at h
      cases h
      rw [List.find?_cons]
      simp [hp]
    · rw [if_neg hp, List.findIdx?_succ] at h
      cases hidx : xs.findIdx? p with
      | none =>
        rw [hidx] at h
        simp at h
      | some j =>
        rw [hidx] at h
        simp only [Option.map_some'] at h
        cases h
        rw [List.find?_cons]
        have hpx : p x = false := by
          cases hx : p x
          · rfl
          · exact absurd hx hp
        simp only [hpx]
        exact ih j hidx

theorem findStep_none_iff (ws : List WorkStep) (sid : String) :
    findStep ws sid = none ↔ ws.findIdx? (fun item => item.id == sid) = none := by
  rw [findStep, List.find?_eq_none, List.findIdx?_eq_none_iff]
  constructor <;> intro h x hx
  · cases hx2 : (x.id == sid)
    · rfl
    · exact absurd hx2 (h x hx)
  · rw [h x hx]
    simp

theorem findLatestPending_spec (ts : List Turn) (i : ℕ)
    (h : findLatestPendingTurnIndex ts = some i) :
    ∃ t, ts.get? i = some t ∧ isPendingTurn t = true := by
  unfold findLatestPendingTurnIndex at h
  have hp := List.find?_some h
  cases hg : ts.get? i with
  | some t =>
    rw [hg] at hp
    exact ⟨t, rfl, hp⟩
  | none =>
    rw [hg] at hp
    simp at hp

theorem upsert_of_none (ws : List WorkStep) (sid : String) (mk : Option WorkStep → WorkStep)
    (h : ws.findIdx? (fun item => item.id == sid) = none) :
    upsertWorkStep ws sid mk = ws ++ [mk none] := by
  unfold upsertWorkStep
  rw [h]

theorem upsert_of_some (ws : List WorkStep) (sid : String) (mk : Option WorkStep → WorkStep)
    (idx : ℕ) (h : ws.findIdx? (fun item => item.id == sid) = some idx) :
    upsertWorkStep ws sid mk = ws.set idx (mk (ws.get? idx)) := by
  unfold upsertWorkStep
  rw [h]

theorem appendWorkToken_of_none (ws : List WorkStep) (id token : String)
    (h : ws.findIdx? (fun item => item.id == id) = none) :
    appendWorkToken ws id token = ws := by
  unfold appendWorkToken
  rw [h]

theorem setTurnAt_of_get (ts : List Turn) (i : ℕ) (t : Turn) (f : Turn → Turn)
    (h : ts.get? i = some t) : setTurnAt ts i f = ts.set i (f t) := by
  unfold setTurnAt
  rw [h]

/-- Idempotence of the per-id upsert, given the call site's merge function
fixes its own output. -/
theorem upsertWorkStep_twice (ws : List WorkStep) (sid : String)
    (mk : Option WorkStep → WorkStep)
    (hid : ∀ old, (mk old).id = sid)
    (hfix : ∀ old, mk (some (mk old)) = mk old) :
    upsertWorkStep (upsertWorkStep ws sid mk) sid mk = upsertWorkStep ws sid mk := by
  cases hf : ws.findIdx? (fun item => item.id == sid) with
  | none =>
    have hall : ∀ x ∈ ws, (x.id == sid) = false := List.findIdx?_eq_none_iff.mp hf
    have hv : ((mk none).id == sid) = true := by
      rw [hid none]
      exact beq_self_eq_true _
    have happ := findIdx?_append_singleton (fun item => item.id == sid) ws (mk none) hall hv
    have hget : (ws ++ [mk none]).get? ws.length = some (mk none) := by
      rw [List.get?_eq_getElem?, List.getElem?_append_right (le_refl ws.length)]
      simp
    rw [upsert_of_none ws sid mk hf, upsert_of_some _ sid mk ws.length happ, hget,
      hfix none]
    exact set_get_self _ _ _ hget
  | some idx =>
    obtain ⟨hlen, _, _⟩ := List.findIdx?_eq_some_iff_getElem.mp hf
    have hget : ws.get? idx = some (ws.get ⟨idx, hlen⟩) := by
      rw [List.get?_eq_getElem?, List.getElem?_eq_getElem hlen]
      rfl
    have hf2 : (ws.set idx (mk (some (ws.get ⟨idx, hlen⟩)))).findIdx?
        (fun item => item.id == sid) = some idx := by
      refine findIdx?_set_self _ _ _ _ hf ?_
      rw [hid]
      exact beq_self_eq_true _
    have hget2 : (ws.set idx (mk (some (ws.get ⟨idx, hlen⟩)))).get? idx =
        some (mk (some (ws.get ⟨idx, hlen⟩))) := by
      rw [List.get?_eq_getElem?]
      exact List.getElem?_set_self hlen
    rw [upsert_of_some ws sid mk idx hf, hget, upsert_of_some _ sid mk idx hf2, hget2,
      hfix (some (ws.get ⟨idx, hlen⟩)), List.set_set]

theorem ensureTurn_eq_byRun (ts : List Turn) (r : Option String) (i : ℕ)
    (h : findTurnIndexByRun ts r = some i) : ensureTurn ts r = (ts, i) := by
  unfold ensureTurn
  simp only [h]

theorem ensureTurn_eq_pending (ts : List Turn) (r : Option String) (i : ℕ) (t : Turn)
    (hby : findTurnIndexByRun ts r = none)
    (hp : findLatestPendingTurnIndex ts = some i) (hg : ts.get? i = some t) :
    ensureTurn ts r =
      (ts.set i { t with runId := r.or t.runId, status := "streaming" }, i) := by
  unfold ensureTurn
  simp only [hby, hp, hg]

theorem ensureTurn_eq_create (ts : List Turn) (r : Option String)
    (hby : findTurnIndexByRun ts r = none)
    (hp : findLatestPendingTurnIndex ts = none) :
    ensureTurn ts r = (ts ++ [makeTurn r "" "streaming"], ts.length) := by
  unfold ensureTurn
  simp only [hby, hp]

/-- `ensureTurn` with a present run id: the returned index holds a turn whose
`runId` is that run id, and a fresh lookup finds exactly that index. -/
theorem ensureTurn_spec (ts : List Turn) (r : String) :
    ∃ t₀,
      (ensureTurn ts (some r)).1.get? (ensureTurn ts (some r)).2 = some t₀ ∧
      t₀.runId = some r ∧
      findTurnIndexByRun (ensureTurn ts (some r)).1 (some r) =
        some (ensureTurn ts (some r)).2 := by
  cases hby : findTurnIndexByRun ts (some r) with
  | some i =>
    rw [ensureTurn_eq_byRun ts (some r) i hby]
    have hby2 := hby
    simp only [findTurnIndexByRun] at hby2
    obtain ⟨hlen, hp, _⟩ := List.findIdx?_eq_some_iff_getElem.mp hby2
    refine ⟨ts.get ⟨i, hlen⟩, ?_, ?_, ?_⟩
    · rw [List.get?_eq_getElem?, List.getElem?_eq_getElem hlen]
      rfl
    · exact eq_of_beq hp
    · exact hby
  | none =>
    have hall : ∀ x ∈ ts, (x.runId == some r) = false := by
      have hby2 := hby
      simp only [findTurnIndexByRun] at hby2
      exact List.findIdx?_eq_none_iff.mp hby2
    cases hpend : findLatestPendingTurnIndex ts with
    | some pidx =>
      obtain ⟨t, hgt, _⟩ := findLatestPending_spec ts pidx hpend
      rw [ensureTurn_eq_pending ts (some r) pidx t hby hpend hgt]
      have hlen : pidx < ts.length := by
        by_contra hc
        rw [List.get?_eq_getElem?, List.getElem?_eq_none (le_of_not_lt hc)] at hgt
        exact Option.noConfusion hgt
      refine ⟨{ t with runId := (some r).or t.runId, status := "streaming" }, ?_, rfl, ?_⟩
      · rw [List.get?_eq_getElem?]
        exact List.getElem?_set_self hlen
      · simp only [findTurnIndexByRun]
        refine List.findIdx?_eq_some_iff_getElem.mpr
          ⟨by rw [List.length_set]; exact hlen, ?_, ?_⟩
        · rw [List.getElem_set_self]
          exact beq_self_eq_true _
        · intro j hj
          have hne : pidx ≠ j := fun he => absurd hj (by rw [he]; exact lt_irrefl j)
          rw [List.getElem_set_ne hne]
          rw [hall _ (List.getElem_mem (lt_trans hj hlen))]
          simp
    | none =>
      rw [ensureTurn_eq_create ts (some r) hby hpend]
      refine ⟨makeTurn (some r) "" "streaming", ?_, rfl, ?_⟩
      · rw [List.get?_eq_getElem?, List.getElem?_append_right (le_refl ts.length)]
        simp
      · simp only [findTurnIndexByRun]
        exact findIdx?_append_singleton _ ts _ hall (beq_self_eq_true _)

/-- After the first application (which wrote `f t₀` at the ensured index),
`ensureTurn` on the updated list finds the same index again. -/
theorem ensureTurn_after (ts : List Turn) (r : String) (t₀ : Turn) (f : Turn → Turn)
    (hrun : (f t₀).runId = t₀.runId)
    (hget : (ensureTurn ts (some r)).1.get? (ensureTurn ts (some r)).2 = some t₀)
    (hfind : findTurnIndexByRun (ensureTurn ts (some r)).1 (some r) =
      some (ensureTurn ts (some r)).2) :
    ensureTurn ((ensureTurn ts (some r)).1.set (ensureTurn ts (some r)).2 (f t₀)) (some r) =
      ((ensureTurn ts (some r)).1.set (ensureTurn ts (some r)).2 (f t₀),
       (ensureTurn ts (some r)).2) := by
  have hfind2 : findTurnIndexByRun
      ((ensureTurn ts (some r)).1.set (ensureTurn ts (some r)).2 (f t₀)) (some r) =
      some (ensureTurn ts (some r)).2 := by
    simp only [findTurnIndexByRun] at hfind ⊢
    rw [findIdx?_set_congr _ _ _ t₀ (f t₀) hget (by rw [hrun])]
    exact hfind
  exact ensureTurn_eq_byRun _ (some r) _ hfind2

theorem wsBaseState_stable (s : ChatState) (e : WsEvent) (s' : ChatState)
    (ht : s'.threadId = (wsBaseState s e).threadId)
    (ha : s'.activeRunId = (wsBaseState s e).activeRunId) :
    wsBaseState s' e = s' := by
  unfold wsBaseState at ht ha
  simp only at ht ha
  cases s' with
  | mk th ar tu kg er =>
    simp only at ht ha
    unfold wsBaseState
    simp only [ht, ha]
    rw [option_or_self_left, option_or_self_left]

theorem chatReducer_complete_eq (s : ChatState) (e : WsEvent)
    (h : e.type = "main_agent_complete") :
    chatReducer s (ChatAction.WS_EVENT e) =
      caseComplete (wsBaseState s e) e (wsRunIdOf e) := by
  simp only [chatReducer]
  rw [h]
  rfl

theorem chatReducer_error_eq (s : ChatState) (e : WsEvent)
    (h : e.type = "main_agent_error") :
    chatReducer s (ChatAction.WS_EVENT e) = caseError (wsBaseState s e) e := by
  simp only [chatReducer]
  rw [h]
  rfl

theorem chatReducer_start_eq (s : ChatState) (e : WsEvent)
    (h : e.type = "main_agent_start") :
    chatReducer s (ChatAction.WS_EVENT e) = caseStart (wsBaseState s e) (wsRunIdOf e) := by
  simp only [chatReducer]
  rw [h]
  rfl

theorem chatReducer_thinking_start_eq (s : ChatState) (e : WsEvent)
    (h : e.type = "main_agent_thinking_start") :
    chatReducer s (ChatAction.WS_EVENT e) =
      caseThinkingStart (wsBaseState s e) e (wsRunIdOf e) := by
  simp only [chatReducer]
  rw [h]
  rfl

theorem chatReducer_thinking_token_eq (s : ChatState) (e : WsEvent)
    (h : e.type = "main_agent_thinking_token") :
    chatReducer s (ChatAction.WS_EVENT e) =
      caseThinkingToken (wsBaseState s e) e (wsRunIdOf e) := by
  simp only [chatReducer]
  rw [h]
  rfl

theorem chatReducer_thinking_end_eq (s : ChatState) (e : WsEvent)
    (h : e.type = "main_agent_thinking_end") :
    chatReducer s (ChatAction.WS_EVENT e) =
      caseThinkingEnd (wsBaseState s e) e (wsRunIdOf e) := by
  simp only [chatReducer]
  rw [h]
  rfl

theorem chatReducer_thinking_title_eq (s : ChatState) (e : WsEvent)
    (h : e.type = "main_agent_thinking_title") :
    chatReducer s (ChatAction.WS_EVENT e) =
      caseThinkingTitle (wsBaseState s e) e (wsRunIdOf e) := by
  simp only [chatReducer]
  rw [h]
  rfl

theorem chatReducer_segment_start_eq (s : ChatState) (e : WsEvent)
    (h : e.type = "main_agent_segment_start") :
    chatReducer s (ChatAction.WS_EVENT e) =
      caseSegmentStart (wsBaseState s e) e (wsRunIdOf e) := by
  simp only [chatReducer]
  rw [h]
  rfl

theorem chatReducer_segment_token_eq (s : ChatState) (e : WsEvent)
    (h : e.type = "main_agent_segment_token") :
    chatReducer s (ChatAction.WS_EVENT e) =
      caseSegmentToken (wsBaseState s e) e (wsRunIdOf e) := by
  simp only [chatReducer]
  rw [h]
  rfl

theorem chatReducer_segment_end_eq (s : ChatState) (e : WsEvent)
    (h : e.type = "main_agent_segment_end") :
    chatReducer s (ChatAction.WS_EVENT e) =
      caseSegmentEnd (wsBaseState s e) e (wsRunIdOf e) := by
  simp only [chatReducer]
  rw [h]
  rfl

theorem chatReducer_tool_start_eq (s : ChatState) (e : WsEvent)
    (h : e.type = "main_agent_tool_start") :
    chatReducer s (ChatAction.WS_EVENT e) =
      caseToolStart (wsBaseState s e) e (wsRunIdOf e) := by
  simp only [chatReducer]
  rw [h]
  rfl

theorem chatReducer_bash_command_token_eq (s : ChatState) (e : WsEvent)
    (h : e.type = "main_agent_bash_command_token") :
    chatReducer s (ChatAction.WS_EVENT e) =
      caseBashCommandToken (wsBaseState s e) e (wsRunIdOf e) := by
  simp only [chatReducer]
  rw [h]
  rfl

theorem chatReducer_repl_start_eq (s : ChatState) (e : WsEvent)
    (h : e.type = "main_agent_repl_start") :
    chatReducer s (ChatAction.WS_EVENT e) =
      caseReplStart (wsBaseState s e) e (wsRunIdOf e) := by
  simp only [chatReducer]
  rw [h]
  rfl

theorem chatReducer_repl_code_token_eq (s : ChatState) (e : WsEvent)
    (h : e.type = "main_agent_repl_code_token") :
    chatReducer s (ChatAction.WS_EVENT e) =
      caseReplCodeToken (wsBaseState s e) e (wsRunIdOf e) := by
  simp only [chatReducer]
  rw [h]
  rfl

theorem chatReducer_repl_stdout_eq (s : ChatState) (e : WsEvent)
    (h : e.type = "main_agent_repl_stdout") :
    chatReducer s (ChatAction.WS_EVENT e) =
      caseReplStdout (wsBaseState s e) e (wsRunIdOf e) := by
  simp only [chatReducer]
  rw [h]
  rfl

theorem chatReducer_repl_stderr_eq (s : ChatState) (e : WsEvent)
    (h : e.type = "main_agent_repl_stderr") :
    chatReducer s (ChatAction.WS_EVENT e) =
      caseReplStderr (wsBaseState s e) e (wsRunIdOf e) := by
  simp only [chatReducer]
  rw [h]
  rfl

theorem chatReducer_repl_env_eq (s : ChatState) (e : WsEvent)
    (h : e.type = "main_agent_repl_env") :
    chatReducer s (ChatAction.WS_EVENT e) =
      caseReplEnv (wsBaseState s e) e (wsRunIdOf e) := by
  simp only [chatReducer]
  rw [h]
  rfl

theorem chatReducer_repl_end_eq (s : ChatState) (e : WsEvent)
    (h : e.type = "main_agent_repl_end") :
    chatReducer s (ChatAction.WS_EVENT e) =
      caseReplEnd (wsBaseState s e) e (wsRunIdOf e) := by
  simp only [chatReducer]
  rw [h]
  rfl

theorem chatReducer_tool_result_eq (s : ChatState) (e : WsEvent)
    (h : e.type = "main_agent_tool_result") :
    chatReducer s (ChatAction.WS_EVENT e) =
      caseToolResult (wsBaseState s e) e (wsRunIdOf e) := by
  simp only [chatReducer]
  rw [h]
  rfl

theorem chatReducer_default_eq (s : ChatState) (e : WsEvent)
    (h1 : e.type ≠ "main_agent_error") (h2 : e.type ≠ "main_agent_start")
    (h3 : e.type ≠ "main_agent_thinking_start") (h4 : e.type ≠ "main_agent_thinking_token")
    (h5 : e.type ≠ "main_agent_thinking_end") (h6 : e.type ≠ "main_agent_thinking_title")
    (h7 : e.type ≠ "main_agent_segment_start") (h8 : e.type ≠ "main_agent_segment_token")
    (h9 : e.type ≠ "main_agent_segment_end") (h10 : e.type ≠ "main_agent_tool_start")
    (h11 : e.type ≠ "main_agent_bash_command_token") (h12 : e.type ≠ "main_agent_repl_start")
    (h13 : e.type ≠ "main_agent_repl_code_token") (h14 : e.type ≠ "main_agent_repl_stdout")
    (h15 : e.type ≠ "main_agent_repl_stderr") (h16 : e.type ≠ "main_agent_repl_env")
    (h17 : e.type ≠ "main_agent_repl_end") (h18 : e.type ≠ "main_agent_tool_result")
    (h19 : e.type ≠ "main_agent_complete") :
    chatReducer s (ChatAction.WS_EVENT e) = wsBaseState s e := by
  simp only [chatReducer]
  rw [if_neg h1, if_neg h2, if_neg h3, if_neg h4, if_neg h5, if_neg h6, if_neg h7,
    if_neg h8, if_neg h9, if_neg h10, if_neg h11, if_neg h12, if_neg h13, if_neg h14,
    if_neg h15, if_neg h16, if_neg h17, if_neg h18, if_neg h19]

theorem jsStartsWith_append_self (p x : String) : jsStartsWith (p ++ x) p = true := by
  unfold jsStartsWith
  have hl : (p ++ x).toList = p.toList ++ x.toList := by
    simp [String.toList, String.data_append]
  rw [hl, List.isPrefixOf_iff_prefix]
  exact List.prefix_append _ _

/-- Upserting under `sid` makes the entry found under `sid` equal to the
merge function applied to the previously found entry. -/
theorem findStep_upsert_self (ws : List WorkStep) (sid : String)
    (mk : Option WorkStep → WorkStep) (hid : ∀ old, (mk old).id = sid) :
    findStep (upsertWorkStep ws sid mk) sid = some (mk (findStep ws sid)) := by
  cases hf : ws.findIdx? (fun item => item.id == sid) with
  | none =>
    have hall := List.findIdx?_eq_none_iff.mp hf
    have hfs : findStep ws sid = none := by
      rw [findStep_none_iff]
      exact hf
    rw [upsert_of_none ws sid mk hf, hfs]
    unfold findStep
    rw [find?_of_findIdx? _ _ ws.length
      (findIdx?_append_singleton _ ws _ hall (by rw [hid]; exact beq_self_eq_true _))]
    rw [List.get?_eq_getElem?, List.getElem?_append_right (le_refl _)]
    simp
  | some idx =>
    obtain ⟨hlen, _, _⟩ := List.findIdx?_eq_some_iff_getElem.mp hf
    have hget : ws.get? idx = some (ws.get ⟨idx, hlen⟩) := by
      rw [List.get?_eq_getElem?, List.getElem?_eq_getElem hlen]
      rfl
    have hfs : findStep ws sid = some (ws.get ⟨idx, hlen⟩) := by
      unfold findStep
      rw [find?_of_findIdx? _ _ idx hf]
      exact hget
    rw [upsert_of_some ws sid mk idx hf, hget, hfs]
    unfold findStep
    rw [find?_of_findIdx? _ _ idx
      (findIdx?_set_self _ _ _ _ hf (by rw [hid]; exact beq_self_eq_true _))]
    rw [List.get?_eq_getElem?]
    exact List.getElem?_set_self hlen

/-- The turn-level core of replay idempotence: writing an idempotent,
`runId`-preserving turn update at the ensured index, then ensuring and
writing again, changes nothing. -/
theorem caseTurns_idem (r : String) (f : Turn → Turn)
    (hrun : ∀ t, (f t).runId = t.runId)
    (hidem : ∀ t, f (f t) = f t) (ts : List Turn) :
    setTurnAt (ensureTurn (setTurnAt (ensureTurn ts (some r)).1
        (ensureTurn ts (some r)).2 f) (some r)).1
      (ensureTurn (setTurnAt (ensureTurn ts (some r)).1 (ensureTurn ts (some r)).2 f)
        (some r)).2 f =
    setTurnAt (ensureTurn ts (some r)).1 (ensureTurn ts (some r)).2 f := by
  obtain ⟨t₀, hget, hrid, hfind⟩ := ensureTurn_spec ts r
  have hts1 : setTurnAt (ensureTurn ts (some r)).1 (ensureTurn ts (some r)).2 f =
      (ensureTurn ts (some r)).1.set (ensureTurn ts (some r)).2 (f t₀) :=
    setTurnAt_of_get _ _ _ _ hget
  rw [hts1, ensureTurn_after ts r t₀ f (hrun t₀) hget hfind]
  have hlen : (ensureTurn ts (some r)).2 < (ensureTurn ts (some r)).1.length := by
    by_contra hc
    rw [List.get?_eq_getElem?, List.getElem?_eq_none (le_of_not_lt hc)] at hget
    exact Option.noConfusion hget
  have hget2 : ((ensureTurn ts (some r)).1.set (ensureTurn ts (some r)).2 (f t₀)).get?
      (ensureTurn ts (some r)).2 = some (f t₀) := by
    rw [List.get?_eq_getElem?]
    exact List.getElem?_set_self hlen
  rw [setTurnAt_of_get _ _ _ _ hget2, hidem t₀, List.set_set]

/-- State-level core of replay idempotence for the `switch` cases of the
shape `{ ...baseState, turns: <ensured write>, (error) }`. -/
theorem turnsCase_state_idem (s : ChatState) (e : WsEvent) (r : String)
    (f : Turn → Turn) (err : Option String → Option String)
    (hrun : ∀ t, (f t).runId = t.runId) (hidem : ∀ t, f (f t) = f t)
    (herr : ∀ o, err (err o) = err o) (s1 : ChatState)
    (hs1 : s1 = { wsBaseState s e with
      turns := setTurnAt (ensureTurn (wsBaseState s e).turns (some r)).1
        (ensureTurn (wsBaseState s e).turns (some r)).2 f
      error := err (wsBaseState s e).error }) :
    { wsBaseState s1 e with
      turns := setTurnAt (ensureTurn (wsBaseState s1 e).turns (some r)).1
        (ensureTurn (wsBaseState s1 e).turns (some r)).2 f
      error := err (wsBaseState s1 e).error } = s1 := by
  have hstable : wsBaseState s1 e = s1 :=
    wsBaseState_stable s e s1 (by rw [hs1]) (by rw [hs1])
  rw [hstable, hs1]
  generalize wsBaseState s e = b
  cases b
  dsimp only
  rw [caseTurns_idem r f hrun hidem, herr]

theorem completeTurn_runId (e : WsEvent) (t : Turn) :
    (completeTurn e t).runId = t.runId := by
  unfold completeTurn
  rcases hm : e.message with _ | m
  · rfl
  · obtain ⟨mid, mth, mrole, mcontent, mmeta, mca⟩ := m
    rcases mid with _ | i <;> rcases mcontent with _ | c <;> dsimp only <;>
      first
        | (split_ifs <;> rfl)
        | rfl

theorem completeTurn_idem (e : WsEvent) (t : Turn) :
    completeTurn e (completeTurn e t) = completeTurn e t := by
  unfold completeTurn
  rcases hm : e.message with _ | m
  · rfl
  · obtain ⟨mid, mth, mrole, mcontent, mmeta, mca⟩ := m
    rcases mid with _ | i <;> rcases mcontent with _ | c <;> dsimp only <;>
      first
        | (split_ifs <;> rfl)
        | rfl

theorem thinkingEndTurn_runId (e : WsEvent) (sid : String) (t : Turn) :
    (thinkingEndTurn e sid t).runId = t.runId := rfl

theorem thinkingEndTurn_idem (e : WsEvent) (sid : String) (t : Turn) :
    thinkingEndTurn e sid (thinkingEndTurn e sid t) = thinkingEndTurn e sid t := by
  simp only [thinkingEndTurn]
  rw [findStep_upsert_self t.workSteps sid]
  · cases hsum : e.summary with
    | none =>
      simp only [Option.map_some', Option.getD_some]
      rw [upsertWorkStep_twice]
      · intro old
        rfl
      · intro old
        rfl
    | some sm =>
      simp only [Option.map_some', Option.getD_some]
      split_ifs
      · rw [upsertWorkStep_twice]
        · intro old
          rfl
        · intro old
          rfl
      · rw [upsertWorkStep_twice]
        · intro old
          rfl
        · intro old
          rfl
  · intro old
    rfl

theorem replEndTurn_runId (e : WsEvent) (tid : String) (t : Turn) :
    (replEndTurn e tid t).runId = t.runId := rfl

theorem replEndTurn_idem (e : WsEvent) (tid : String) (t : Turn) :
    replEndTurn e tid (replEndTurn e tid t) = replEndTurn e tid t := by
  simp only [replEndTurn]
  rw [upsertWorkStep_twice]
  · intro old
    rfl
  · intro old
    simp only [Option.some_bind, Option.map_some', Option.getD_some, appendChunk_idem,
      option_or_self_left]

theorem toolResultBashTurn_runId (e : WsEvent) (tid : String) (rp : JsObj) (t : Turn) :
    (toolResultBashTurn e tid rp t).runId = t.runId := rfl

theorem toolResultBashTurn_idem (e : WsEvent) (tid : String) (rp : JsObj) (t : Turn) :
    toolResultBashTurn e tid rp (toolResultBashTurn e tid rp t) =
      toolResultBashTurn e tid rp t := by
  simp only [toolResultBashTurn]
  rw [upsertWorkStep_twice]
  · intro old
    rfl
  · intro old
    simp only [Option.some_bind, Option.map_some', Option.getD_some, appendChunk_idem,
      option_or_self_left]

theorem reducer_idem_thinking_end (s : ChatState) (e : WsEvent) (r : String)
    (htype : e.type = "main_agent_thinking_end") (hr : wsRunIdOf e = some r) :
    chatReducer (chatReducer s (ChatAction.WS_EVENT e)) (ChatAction.WS_EVENT e) =
      chatReducer s (ChatAction.WS_EVENT e) := by
  rw [chatReducer_thinking_end_eq _ e htype, chatReducer_thinking_end_eq _ e htype, hr]
  exact turnsCase_state_idem s e r
    (thinkingEndTurn e (thinkingStepId (some r) e.segment_index)) (fun o => o)
    (thinkingEndTurn_runId e _) (thinkingEndTurn_idem e _) (fun o => rfl) _ rfl

theorem reducer_idem_complete (s : ChatState) (e : WsEvent) (r : String)
    (htype : e.type = "main_agent_complete") (hr : wsRunIdOf e = some r) :
    chatReducer (chatReducer s (ChatAction.WS_EVENT e)) (ChatAction.WS_EVENT e) =
      chatReducer s (ChatAction.WS_EVENT e) := by
  rw [chatReducer_complete_eq _ e htype, chatReducer_complete_eq _ e htype, hr]
  exact turnsCase_state_idem s e r (completeTurn e) (fun _ => none)
    (completeTurn_runId e) (completeTurn_idem e) (fun o => rfl) _ rfl

theorem reducer_idem_repl_end (s : ChatState) (e : WsEvent) (r : String)
    (htype : e.type = "main_agent_repl_end") (hr : wsRunIdOf e = some r) :
    chatReducer (chatReducer s (ChatAction.WS_EVENT e)) (ChatAction.WS_EVENT e) =
      chatReducer s (ChatAction.WS_EVENT e) := by
  rw [chatReducer_repl_end_eq _ e htype, chatReducer_repl_end_eq _ e htype, hr]
  exact turnsCase_state_idem s e r
    (replEndTurn e (e.tool_use_id.getD (defaultToolUseId "repl" (some r) e.segment_index)))
    (fun o => o) (replEndTurn_runId e _) (replEndTurn_idem e _) (fun o => rfl) _ rfl

theorem get?_mem {α : Type} {l : List α} {i : ℕ} {a : α} (h : l.get? i = some a) :
    a ∈ l := by
  have hlen : i < l.length := by
    by_contra hc
    rw [List.get?_eq_getElem?, List.getElem?_eq_none (le_of_not_lt hc)] at h
    exact Option.noConfusion h
  rw [List.get?_eq_getElem?, List.getElem?_eq_getElem hlen] at h
  exact List.mem_iff_getElem.mpr ⟨i, hlen, Option.some.inj h⟩

/-- The work steps of the turn returned by `ensureTurn` all come from a turn
of the input list (the freshly created turn has none). -/
theorem ensureTurn_steps_from (ts : List Turn) (r : String) (t₀ : Turn)
    (hget : (ensureTurn ts (some r)).1.get? (ensureTurn ts (some r)).2 = some t₀) :
    ∀ st ∈ t₀.workSteps, ∃ tu ∈ ts, st ∈ tu.workSteps := by
  cases hby : findTurnIndexByRun ts (some r) with
  | some i =>
    rw [ensureTurn_eq_byRun ts (some r) i hby] at hget
    intro st hst
    exact ⟨t₀, get?_mem hget, hst⟩
  | none =>
    cases hpend : findLatestPendingTurnIndex ts with
    | some pidx =>
      obtain ⟨t, hgt, _⟩ := findLatestPending_spec ts pidx hpend
      rw [ensureTurn_eq_pending ts (some r) pidx t hby hpend hgt] at hget
      have hlen : pidx < ts.length := by
        by_contra hc
        rw [List.get?_eq_getElem?, List.getElem?_eq_none (le_of_not_lt hc)] at hgt
        exact Option.noConfusion hgt
      have ht₀ : t₀ = { t with runId := (some r).or t.runId, status := "streaming" } := by
        have := List.getElem?_set_self (l := ts)
          (a := { t with runId := (some r).or t.runId, status := "streaming" }) hlen
        rw [List.get?_eq_getElem?] at hget
        rw [this] at hget
        exact (Option.some.inj hget).symm
      intro st hst
      rw [ht₀] at hst
      exact ⟨t, get?_mem hgt, hst⟩
    | none =>
      rw [ensureTurn_eq_create ts (some r) hby hpend] at hget
      have : (ts ++ [makeTurn (some r) "" "streaming"]).get? ts.length =
          some (makeTurn (some r) "" "streaming") := by
        rw [List.get?_eq_getElem?, List.getElem?_append_right (le_refl _)]
        simp
      rw [this] at hget
      intro st hst
      rw [← Option.some.inj hget] at hst
      simp [makeTurn] at hst

/-! ### Equation lemmas for the tool_result case -/

theorem caseToolResult_eq_par (b : ChatState) (e : WsEvent) (rid : Option String)
    (h : jsStrTruthy e.parent_tool_use_id = true) :
    caseToolResult b e rid = b := by
  unfold caseToolResult
  rw [if_pos h]

theorem caseToolResult_eq_ui (b : ChatState) (e : WsEvent) (rid : Option String)
    (hpar : jsStrTruthy e.parent_tool_use_id = false)
    (h : isUiVisible e.ui_visible = false) :
    caseToolResult b e rid = b := by
  unfold caseToolResult
  rw [if_neg (by simp [hpar]), if_pos (by simp [h])]

theorem caseToolResult_eq_repl (b : ChatState) (e : WsEvent) (rid : Option String)
    (hpar : jsStrTruthy e.parent_tool_use_id = false)
    (hui : isUiVisible e.ui_visible = true)
    (h : (e.tool_name == some "repl_exec") = true) :
    caseToolResult b e rid = b := by
  unfold caseToolResult
  rw [if_neg (by simp [hpar]), if_neg (not_not_intro hui), if_pos h]

theorem caseToolResult_eq_none (b : ChatState) (e : WsEvent) (rid : Option String)
    (hpar : jsStrTruthy e.parent_tool_use_id = false)
    (hui : isUiVisible e.ui_visible = true)
    (hrepl : (e.tool_name == some "repl_exec") = false)
    (hget : (ensureTurn b.turns rid).1.get? (ensureTurn b.turns rid).2 = none) :
    caseToolResult b e rid = b := by
  unfold caseToolResult
  rw [if_neg (by simp [hpar]), if_neg (not_not_intro hui), if_neg (by simp [hrepl])]
  simp only [hget]

theorem caseToolResult_eq_hidden (b : ChatState) (e : WsEvent) (rid : Option String)
    (t₀ : Turn)
    (hpar : jsStrTruthy e.parent_tool_use_id = false)
    (hui : isUiVisible e.ui_visible = true)
    (hrepl : (e.tool_name == some "repl_exec") = false)
    (hget : (ensureTurn b.turns rid).1.get? (ensureTurn b.turns rid).2 = some t₀)
    (hnd : isDisplayableTopLevelToolName (((findStep t₀.workSteps
        ("tool-" ++ e.tool_use_id.getD (defaultToolUseId "tool" rid e.segment_index))).bind
        WorkStep.toolName).or e.tool_name) = false) :
    caseToolResult b e rid = b := by
  unfold caseToolResult
  rw [if_neg (by simp [hpar]), if_neg (not_not_intro hui), if_neg (by simp [hrepl])]
  simp only [hget, hnd]
  rw [if_pos Bool.false_ne_true]

theorem caseToolResult_eq_bash (b : ChatState) (e : WsEvent) (rid : Option String)
    (t₀ : Turn)
    (hpar : jsStrTruthy e.parent_tool_use_id = false)
    (hui : isUiVisible e.ui_visible = true)
    (hrepl : (e.tool_name == some "repl_exec") = false)
    (hget : (ensureTurn b.turns rid).1.get? (ensureTurn b.turns rid).2 = some t₀)
    (hbash : ((findStep t₀.workSteps
        ("tool-" ++ e.tool_use_id.getD (defaultToolUseId "tool" rid e.segment_index))).bind
        WorkStep.toolName).or e.tool_name = some "bash_exec") :
    caseToolResult b e rid =
      { b with
        turns := setTurnAt (ensureTurn b.turns rid).1 (ensureTurn b.turns rid).2
          (toolResultBashTurn e
            (e.tool_use_id.getD (defaultToolUseId "tool" rid e.segment_index))
            ((parseToolResultObject e.result).getD [])) } := by
  unfold caseToolResult
  rw [if_neg (by simp [hpar]), if_neg (not_not_intro hui), if_neg (by simp [hrepl])]
  simp only [hget, hbash]
  rw [if_neg (not_not_intro (by decide)), if_pos (beq_self_eq_true (some "bash_exec"))]

/-- If the (possibly defaulted) tool name resolves to `bash_exec`, replaying
the tool-result event is a no-op. -/
theorem caseToolResult_bash_idem (s : ChatState) (e : WsEvent) (r : String)
    (hpar : jsStrTruthy e.parent_tool_use_id = false)
    (hui : isUiVisible e.ui_visible = true)
    (hrepl : (e.tool_name == some "repl_exec") = false)
    (t₀ : Turn)
    (hget : (ensureTurn (wsBaseState s e).turns (some r)).1.get?
      (ensureTurn (wsBaseState s e).turns (some r)).2 = some t₀)
    (hfind : findTurnIndexByRun (ensureTurn (wsBaseState s e).turns (some r)).1 (some r) =
      some (ensureTurn (wsBaseState s e).turns (some r)).2)
    (hbash : ((findStep t₀.workSteps ("tool-" ++ e.tool_use_id.getD
        (defaultToolUseId "tool" (some r) e.segment_index))).bind WorkStep.toolName).or
        e.tool_name = some "bash_exec") :
    caseToolResult (wsBaseState (caseToolResult (wsBaseState s e) e (some r)) e) e (some r) =
      caseToolResult (wsBaseState s e) e (some r) := by
  rw [caseToolResult_eq_bash (wsBaseState s e) e (some r) t₀ hpar hui hrepl hget hbash]
  have hlen : (ensureTurn (wsBaseState s e).turns (some r)).2 <
      (ensureTurn (wsBaseState s e).turns (some r)).1.length := by
    by_contra hc
    rw [List.get?_eq_getElem?, List.getElem?_eq_none (le_of_not_lt hc)] at hget
    exact Option.noConfusion hget
  have hget₂ : (ensureTurn (setTurnAt (ensureTurn (wsBaseState s e).turns (some r)).1
        (ensureTurn (wsBaseState s e).turns (some r)).2
        (toolResultBashTurn e
          (e.tool_use_id.getD (defaultToolUseId "tool" (some r) e.segment_index))
          ((parseToolResultObject e.result).getD []))) (some r)).1.get?
      (ensureTurn (setTurnAt (ensureTurn (wsBaseState s e).turns (some r)).1
        (ensureTurn (wsBaseState s e).turns (some r)).2
        (toolResultBashTurn e
          (e.tool_use_id.getD (defaultToolUseId "tool" (some r) e.segment_index))
          ((parseToolResultObject e.result).getD []))) (some r)).2 =
      some (toolResultBashTurn e
        (e.tool_use_id.getD (defaultToolUseId "tool" (some r) e.segment_index))
        ((parseToolResultObject e.result).getD []) t₀) := by
    rw [setTurnAt_of_get _ _ _ _ hget,
      ensureTurn_after (wsBaseState s e).turns r t₀ _ (toolResultBashTurn_runId e _ _ t₀)
        hget hfind,
      List.get?_eq_getElem?]
    exact List.getElem?_set_self hlen
  have hbash₂ : ((findStep (toolResultBashTurn e
        (e.tool_use_id.getD (defaultToolUseId "tool" (some r) e.segment_index))
        ((parseToolResultObject e.result).getD []) t₀).workSteps
        ("tool-" ++ e.tool_use_id.getD (defaultToolUseId "tool" (some r) e.segment_index))).bind
        WorkStep.toolName).or e.tool_name = some "bash_exec" := by
    simp only [toolResultBashTurn]
    rw [findStep_upsert_self t₀.workSteps
      ("tool-" ++ e.tool_use_id.getD (defaultToolUseId "tool" (some r) e.segment_index))]
    · rfl
    · intro old
      rfl
  rw [caseToolResult_eq_bash _ e (some r) _ hpar hui hrepl hget₂ hbash₂]
  exact turnsCase_state_idem s e r
    (toolResultBashTurn e
      (e.tool_use_id.getD (defaultToolUseId "tool" (some r) e.segment_index))
      ((parseToolResultObject e.result).getD [])) (fun o => o)
    (toolResultBashTurn_runId e _ _) (toolResultBashTurn_idem e _ _) (fun o => rfl) _ rfl

/-- Replaying a tool-result event is a no-op provided every already-stored
`tool-` step is a bash step (or not displayable) and the event's own tool
name is `bash_exec` (or not displayable): the generic branch, which appends
the serialized result to the step text, is then unreachable. -/
theorem reducer_idem_tool_result (s : ChatState) (e : WsEvent) (r : String)
    (htype : e.type = "main_agent_tool_result") (hr : wsRunIdOf e = some r)
    (hstep : ∀ t ∈ s.turns, ∀ st ∈ t.workSteps, jsStartsWith st.id "tool-" = true →
      st.toolName = some "bash_exec" ∨ isDisplayableTopLevelToolName st.toolName = false)
    (hev : e.tool_name = some "bash_exec" ∨
      isDisplayableTopLevelToolName e.tool_name = false) :
    chatReducer (chatReducer s (ChatAction.WS_EVENT e)) (ChatAction.WS_EVENT e) =
      chatReducer s (ChatAction.WS_EVENT e) := by
  rw [chatReducer_tool_result_eq _ e htype, chatReducer_tool_result_eq _ e htype, hr]
  by_cases hpar : jsStrTruthy e.parent_tool_use_id = true
  · rw [caseToolResult_eq_par _ e _ hpar, caseToolResult_eq_par _ e _ hpar]
    exact wsBaseState_stable s e _ rfl rfl
  rw [Bool.not_eq_true] at hpar
  by_cases hui : isUiVisible e.ui_visible = false
  · rw [caseToolResult_eq_ui _ e _ hpar hui, caseToolResult_eq_ui _ e _ hpar hui]
    exact wsBaseState_stable s e _ rfl rfl
  rw [Bool.not_eq_false] at hui
  by_cases hrepl : (e.tool_name == some "repl_exec") = true
  · rw [caseToolResult_eq_repl _ e _ hpar hui hrepl, caseToolResult_eq_repl _ e _ hpar hui hrepl]
    exact wsBaseState_stable s e _ rfl rfl
  rw [Bool.not_eq_true] at hrepl
  obtain ⟨t₀, hget, -, hfind⟩ := ensureTurn_spec (wsBaseState s e).turns r
  cases hex : findStep t₀.workSteps
      ("tool-" ++ e.tool_use_id.getD (defaultToolUseId "tool" (some r) e.segment_index)) with
  | none =>
    rcases hev with hevb | hevn
    · refine caseToolResult_bash_idem s e r hpar hui hrepl t₀ hget hfind ?_
      rw [hex]
      exact hevb
    · have hnd : isDisplayableTopLevelToolName (((findStep t₀.workSteps
          ("tool-" ++ e.tool_use_id.getD (defaultToolUseId "tool" (some r)
            e.segment_index))).bind WorkStep.toolName).or e.tool_name) = false := by
        rw [hex]
        exact hevn
      rw [caseToolResult_eq_hidden _ e _ t₀ hpar hui hrepl hget hnd,
        wsBaseState_stable s e (wsBaseState s e) rfl rfl,
        caseToolResult_eq_hidden _ e _ t₀ hpar hui hrepl hget hnd]
  | some st =>
    have hmem : st ∈ t₀.workSteps := List.mem_of_find?_eq_some hex
    have hex' : t₀.workSteps.find? (fun step => step.id ==
        ("tool-" ++ e.tool_use_id.getD (defaultToolUseId "tool" (some r) e.segment_index))) =
        some st := hex
    have hpred := List.find?_some hex'
    have hsid : st.id = "tool-" ++ e.tool_use_id.getD
        (defaultToolUseId "tool" (some r) e.segment_index) :=
      eq_of_beq hpred
    have hpre : jsStartsWith st.id "tool-" = true := by
      rw [hsid]
      exact jsStartsWith_append_self "tool-" _
    obtain ⟨tu, htu, hstu⟩ := ensureTurn_steps_from (wsBaseState s e).turns r t₀ hget st hmem
    rcases hstep tu htu st hstu hpre with hstb | hstn
    · refine caseToolResult_bash_idem s e r hpar hui hrepl t₀ hget hfind ?_
      rw [hex]
      simp only [Option.some_bind]
      rw [hstb]
      rfl
    · cases hst : st.toolName with
      | none =>
        rcases hev with hevb | hevn
        · refine caseToolResult_bash_idem s e r hpar hui hrepl t₀ hget hfind ?_
          rw [hex]
          simp only [Option.some_bind]
          rw [hst]
          exact hevb
        · have hnd : isDisplayableTopLevelToolName (((findStep t₀.workSteps
              ("tool-" ++ e.tool_use_id.getD (defaultToolUseId "tool" (some r)
                e.segment_index))).bind WorkStep.toolName).or e.tool_name) = false := by
            rw [hex]
            simp only [Option.some_bind]
            rw [hst]
            exact hevn
          rw [caseToolResult_eq_hidden _ e _ t₀ hpar hui hrepl hget hnd,
            wsBaseState_stable s e (wsBaseState s e) rfl rfl,
            caseToolResult_eq_hidden _ e _ t₀ hpar hui hrepl hget hnd]
      | some x =>
        rw [hst] at hstn
        have hnd : isDisplayableTopLevelToolName (((findStep t₀.workSteps
            ("tool-" ++ e.tool_use_id.getD (defaultToolUseId "tool" (some r)
              e.segment_index))).bind WorkStep.toolName).or e.tool_name) = false := by
          rw [hex]
          simp only [Option.some_bind]
          rw [hst]
          exact hstn
        rw [caseToolResult_eq_hidden _ e _ t₀ hpar hui hrepl hget hnd,
          wsBaseState_stable s e (wsBaseState s e) rfl rfl,
          caseToolResult_eq_hidden _ e _ t₀ hpar hui hrepl hget hnd]

/-- Counterexample for C2 as stated: `main_agent_complete` is a terminal
event (it drives the turn status to `done`), yet replaying it twice on the
initial state is not a no-op when it carries no `run_id` — each application
creates a fresh turn via `ensureTurn`, so two applications leave two turns
where one application leaves one. -/
theorem C2_counterexample :
    ∃ e : WsEvent, e.type = "main_agent_complete" ∧
      (chatReducer initialChatState (ChatAction.WS_EVENT e)).turns.length = 1 ∧
      (chatReducer (chatReducer initialChatState (ChatAction.WS_EVENT e))
        (ChatAction.WS_EVENT e)).turns.length = 2 :=
  ⟨{ type := "main_agent_complete" }, rfl, rfl, rfl⟩

/-- C2 (amended): replaying an identical terminal event twice yields the
same state as applying it once, provided the event carries a (non-blank)
`run_id`.  The terminal events are `main_agent_thinking_end`,
`main_agent_repl_end`, `main_agent_complete`, and `main_agent_tool_result`;
for the last one the statement additionally requires that every stored
`tool-` step and the event itself resolve to the `bash_exec` tool (or to a
non-displayable one), since the generic tool-result branch appends the
serialized result to the step text and re-merges the knowledge graph on
every replay, and is therefore not idempotent. -/
theorem C2_terminal_idempotent (s : ChatState) (e : WsEvent) (r : String)
    (hr : wsRunIdOf e = some r)
    (hterm : e.type = "main_agent_thinking_end" ∨ e.type = "main_agent_repl_end" ∨
      e.type = "main_agent_complete" ∨
      (e.type = "main_agent_tool_result" ∧
        (∀ t ∈ s.turns, ∀ st ∈ t.workSteps, jsStartsWith st.id "tool-" = true →
          st.toolName = some "bash_exec" ∨ isDisplayableTopLevelToolName st.toolName = false) ∧
        (e.tool_name = some "bash_exec" ∨
          isDisplayableTopLevelToolName e.tool_name = false))) :
    chatReducer (chatReducer s (ChatAction.WS_EVENT e)) (ChatAction.WS_EVENT e) =
      chatReducer s (ChatAction.WS_EVENT e) := by
  rcases hterm with h | h | h | ⟨h, hstep, hev⟩
  · exact reducer_idem_thinking_end s e r h hr
  · exact reducer_idem_repl_end s e r h hr
  · exact reducer_idem_complete s e r h hr
  · exact reducer_idem_tool_result s e r h hr hstep hev

/-- Witness for C2: a concrete `main_agent_complete` event with run id
`"r1"` replayed on the initial state. -/
theorem C2_terminal_idempotent_witness :
    wsRunIdOf { type := "main_agent_complete", run_id := some "r1" } = some "r1" ∧
    chatReducer (chatReducer initialChatState (ChatAction.WS_EVENT
        { type := "main_agent_complete", run_id := some "r1" }))
      (ChatAction.WS_EVENT { type := "main_agent_complete", run_id := some "r1" }) =
      chatReducer initialChatState (ChatAction.WS_EVENT
        { type := "main_agent_complete", run_id := some "r1" }) :=
  ⟨by rfl, C2_terminal_idempotent initialChatState
    { type := "main_agent_complete", run_id := some "r1" } "r1" (by rfl)
    (Or.inr (Or.inr (Or.inl rfl)))⟩

/-! ### Work-step status observation (C7) -/

/-- The status of work step `sid` inside turn `j` of a turn list. -/
def stepStatusIn (ts : List Turn) (j : ℕ) (sid : String) : Option String :=
  (ts.get? j).bind (fun t => (findStep t.workSteps sid).map WorkStep.status)

/-- The status of work step `sid` inside turn `j` of a chat state. -/
def stepStatusAt (s : ChatState) (j : ℕ) (sid : String) : Option String :=
  stepStatusIn s.turns j sid

/-- A turn update that never changes the status of an already-present step. -/
def preservesStepStatus (f : Turn → Turn) : Prop :=
  ∀ t sid st0, (findStep t.workSteps sid).map WorkStep.status = some st0 →
    (findStep (f t).workSteps sid).map WorkStep.status = some st0

theorem find?_append_some {α : Type} (p : α → Bool) :
    ∀ (l₁ l₂ : List α) (a : α), l₁.find? p = some a → (l₁ ++ l₂).find? p = some a := by
  intro l₁
  induction l₁ with
  | nil =>
    intro l₂ a h
    exact Option.noConfusion h
  | cons hd tl ih =>
    intro l₂ a h
    rw [List.cons_append]
    by_cases hp : p hd = true
    · rw [List.find?_cons_of_pos _ hp] at h
      rw [List.find?_cons_of_pos _ hp]
      exact h
    · rw [List.find?_cons_of_neg _ hp] at h
      rw [List.find?_cons_of_neg _ hp]
      exact ih l₂ a h

/-- Overwriting one element with one of the same id and status does not
change the status found under any id. -/
theorem find?_set_status (sid : String) :
    ∀ (ws : List WorkStep) (idx : ℕ) (old a' : WorkStep),
      ws.get? idx = some old → a'.id = old.id → a'.status = old.status →
      ((ws.set idx a').find? (fun step => step.id == sid)).map WorkStep.status =
        (ws.find? (fun step => step.id == sid)).map WorkStep.status := by
  intro ws
  induction ws with
  | nil =>
    intro idx old a' hget _ _
    cases idx <;> exact Option.noConfusion hget
  | cons hd tl ih =>
    intro idx old a' hget hid hst
    cases idx with
    | zero =>
      have hold : hd = old := Option.some.inj hget
      subst hold
      rw [List.set_cons_zero]
      cases hp : hd.id == sid with
      | true =>
        simp only [List.find?_cons, hid, hp, Option.map_some']
        rw [hst]
      | false =>
        simp only [List.find?_cons, hid, hp]
    | succ n =>
      rw [List.set_cons_succ]
      cases hp : hd.id == sid with
      | true =>
        simp only [List.find?_cons, hp]
      | false =>
        simp only [List.find?_cons, hp]
        exact ih n old a' hget hid hst

/-- `upsertWorkStep` with a merge function that keeps id and status of an
existing entry never changes the status found under any id. -/
theorem upsert_preserves_status (ws : List WorkStep) (stepId : String)
    (mk : Option WorkStep → WorkStep)
    (hid : ∀ old, old.id = stepId → (mk (some old)).id = old.id)
    (hst : ∀ old, (mk (some old)).status = old.status)
    (sid : String) (st0 : String)
    (h : (findStep ws sid).map WorkStep.status = some st0) :
    (findStep (upsertWorkStep ws stepId mk) sid).map WorkStep.status = some st0 := by
  cases hf : ws.findIdx? (fun item => item.id == stepId) with
  | none =>
    rw [upsert_of_none ws stepId mk hf]
    cases hfs : findStep ws sid with
    | none =>
      rw [hfs] at h
      exact Option.noConfusion h
    | some a =>
      rw [hfs] at h
      unfold findStep
      rw [find?_append_some _ ws _ a hfs]
      exact h
  | some idx =>
    rw [upsert_of_some ws stepId mk idx hf]
    obtain ⟨hlen, hp, -⟩ := List.findIdx?_eq_some_iff_getElem.mp hf
    have hget : ws.get? idx = some (ws.get ⟨idx, hlen⟩) := by
      rw [List.get?_eq_getElem?, List.getElem?_eq_getElem hlen]
      rfl
    have hoid : (ws.get ⟨idx, hlen⟩).id = stepId := eq_of_beq hp
    rw [hget]
    unfold findStep
    rw [find?_set_status sid ws idx (ws.get ⟨idx, hlen⟩) _ hget
      (hid _ hoid) (hst _)]
    exact h

theorem preserves_of_workSteps_eq (f : Turn → Turn)
    (hf : ∀ t, (f t).workSteps = t.workSteps) : preservesStepStatus f := by
  intro t sid st0 h
  rw [hf t]
  exact h

/-- `ensureTurn` never changes the status of a step already present at any
index. -/
theorem stepStatusIn_ensureTurn (ts : List Turn) (rid : Option String) (j : ℕ)
    (sid : String) (st0 : String) (h : stepStatusIn ts j sid = some st0) :
    stepStatusIn (ensureTurn ts rid).1 j sid = some st0 := by
  cases hby : findTurnIndexByRun ts rid with
  | some i =>
    rw [ensureTurn_eq_byRun ts rid i hby]
    exact h
  | none =>
    cases hpend : findLatestPendingTurnIndex ts with
    | none =>
      rw [ensureTurn_eq_create ts rid hby hpend]
      dsimp only
      unfold stepStatusIn at h ⊢
      cases hg : ts.get? j with
      | none =>
        rw [hg] at h
        exact Option.noConfusion h
      | some t =>
        rw [hg] at h
        have hlt : j < ts.length := by
          by_contra hc
          rw [List.get?_eq_getElem?, List.getElem?_eq_none (le_of_not_lt hc)] at hg
          exact Option.noConfusion hg
        rw [List.get?_eq_getElem?, List.getElem?_append, if_pos hlt,
          ← List.get?_eq_getElem?, hg]
        exact h
    | some pidx =>
      obtain ⟨t, hgt, -⟩ := findLatestPending_spec ts pidx hpend
      rw [ensureTurn_eq_pending ts rid pidx t hby hpend hgt]
      dsimp only
      unfold stepStatusIn at h ⊢
      by_cases hj : j = pidx
      · subst hj
        have hlt : j < ts.length := by
          by_contra hc
          rw [List.get?_eq_getElem?, List.getElem?_eq_none (le_of_not_lt hc)] at hgt
          exact Option.noConfusion hgt
        rw [List.get?_eq_getElem?, List.getElem?_set_self hlt]
        rw [hgt] at h
        exact h
      · rw [List.get?_eq_getElem?, List.getElem?_set_ne (fun he => hj he.symm),
          ← List.get?_eq_getElem?]
        exact h

theorem stepStatusIn_setTurnAt (ts : List Turn) (i : ℕ) (f : Turn → Turn)
    (hf : preservesStepStatus f) (j : ℕ) (sid : String) (st0 : String)
    (h : stepStatusIn ts j sid = some st0) :
    stepStatusIn (setTurnAt ts i f) j sid = some st0 := by
  cases hg : ts.get? i with
  | none =>
    simp only [setTurnAt, hg]
    exact h
  | some t =>
    simp only [setTurnAt, hg]
    unfold stepStatusIn at h ⊢
    by_cases hj : j = i
    · subst hj
      have hlt : j < ts.length := by
        by_contra hc
        rw [List.get?_eq_getElem?, List.getElem?_eq_none (le_of_not_lt hc)] at hg
        exact Option.noConfusion hg
      rw [List.get?_eq_getElem?, List.getElem?_set_self hlt]
      rw [hg] at h
      exact hf t sid st0 h
    · rw [List.get?_eq_getElem?, List.getElem?_set_ne (fun he => hj he.symm),
        ← List.get?_eq_getElem?]
      exact h

/-- The common `turns := setTurnAt (ensureTurn ...) f` write with a
status-preserving `f` keeps every present step status. -/
theorem stepStatus_turnsWrite (b : ChatState) (rid : Option String) (f : Turn → Turn)
    (hf : preservesStepStatus f) (j : ℕ) (sid st0 : String)
    (h : stepStatusIn b.turns j sid = some st0) :
    stepStatusIn (setTurnAt (ensureTurn b.turns rid).1 (ensureTurn b.turns rid).2 f)
      j sid = some st0 :=
  stepStatusIn_setTurnAt _ _ f hf j sid st0 (stepStatusIn_ensureTurn b.turns rid j sid st0 h)

theorem appendWorkToken_status (ws : List WorkStep) (id tok : String) (sid : String) :
    (findStep (appendWorkToken ws id tok) sid).map WorkStep.status =
      (findStep ws sid).map WorkStep.status := by
  cases hf : ws.findIdx? (fun item => item.id == id) with
  | none => simp only [appendWorkToken, hf]
  | some idx =>
    cases hg : ws.get? idx with
    | none => simp only [appendWorkToken, hf, hg]
    | some old =>
      simp only [appendWorkToken, hf, hg]
      unfold findStep
      exact find?_set_status sid ws idx old _ hg rfl rfl

theorem startTurn_preserves : preservesStepStatus startTurn :=
  preserves_of_workSteps_eq _ (fun _ => rfl)

theorem segmentStartTurn_preserves (e : WsEvent) : preservesStepStatus (segmentStartTurn e) :=
  preserves_of_workSteps_eq _ (fun _ => rfl)

theorem segmentTokenTurn_preserves (tok : String) : preservesStepStatus (segmentTokenTurn tok) :=
  preserves_of_workSteps_eq _ (fun _ => rfl)

theorem segmentEndTurn_preserves (e : WsEvent) : preservesStepStatus (segmentEndTurn e) := by
  refine preserves_of_workSteps_eq _ (fun t => ?_)
  unfold segmentEndTurn
  cases hc : e.content with
  | none => rfl
  | some c =>
    dsimp only
    split_ifs <;> rfl

theorem completeTurn_preserves (e : WsEvent) : preservesStepStatus (completeTurn e) := by
  refine preserves_of_workSteps_eq _ (fun t => ?_)
  unfold completeTurn
  rcases hm : e.message with _ | m
  · rfl
  · obtain ⟨mid, mth, mrole, mcontent, mmeta, mca⟩ := m
    rcases mid with _ | i <;> rcases mcontent with _ | c <;> dsimp only <;>
      first
        | (split_ifs <;> rfl)
        | rfl

theorem thinkingTokenTurn_preserves (stepId token : String) :
    preservesStepStatus (thinkingTokenTurn stepId token) := by
  intro t sid st0 h
  show (findStep (appendWorkToken t.workSteps stepId token) sid).map WorkStep.status = some st0
  rw [appendWorkToken_status]
  exact h

theorem thinkingTitleTurn_preserves (e : WsEvent) (stepId : String) :
    preservesStepStatus (thinkingTitleTurn e stepId) := by
  intro t sid st0 h
  unfold thinkingTitleTurn
  cases hfs : findStep t.workSteps stepId with
  | none => exact h
  | some st =>
    dsimp only
    refine upsert_preserves_status t.workSteps stepId _ ?_ ?_ sid st0 h
    · intro old ho
      rfl
    · intro old
      rfl

theorem bashCommandTokenTurn_preserves (e : WsEvent) (toolUseId token : String) :
    preservesStepStatus (bashCommandTokenTurn e toolUseId token) := by
  intro t sid st0 h
  simp only [bashCommandTokenTurn]
  refine upsert_preserves_status t.workSteps ("tool-" ++ toolUseId) _ ?_ ?_ sid st0 h
  · intro old ho
    rw [ho]
  · intro old
    rfl

theorem replCodeTokenTurn_preserves (e : WsEvent) (toolUseId token : String) :
    preservesStepStatus (replCodeTokenTurn e toolUseId token) := by
  intro t sid st0 h
  simp only [replCodeTokenTurn]
  refine upsert_preserves_status t.workSteps ("repl-" ++ toolUseId) _ ?_ ?_ sid st0 h
  · intro old ho
    rw [ho]
  · intro old
    rfl

theorem replEnvTurn_preserves (e : WsEvent) (toolUseId : String) (envPayload : JsObj) :
    preservesStepStatus (replEnvTurn e toolUseId envPayload) := by
  intro t sid st0 h
  simp only [replEnvTurn]
  refine upsert_preserves_status t.workSteps ("repl-" ++ toolUseId) _ ?_ ?_ sid st0 h
  · intro old ho
    rw [ho]
  · intro old
    rfl

/-- Counterexample for C7 as stated: a repl step finalized to `done` by
`main_agent_repl_end` is returned to `streaming` by a later
`main_agent_repl_stdout` event for the same tool_use_id (the stdout case
writes `status: "streaming"` unconditionally). -/
theorem C7_counterexample :
    ∃ (e1 e2 e3 : WsEvent),
      e2.type = "main_agent_repl_end" ∧ e3.type = "main_agent_repl_stdout" ∧
      stepStatusAt (chatReducer (chatReducer initialChatState (ChatAction.WS_EVENT e1))
        (ChatAction.WS_EVENT e2)) 0 "repl-t1" = some "done" ∧
      stepStatusAt (chatReducer (chatReducer (chatReducer initialChatState
        (ChatAction.WS_EVENT e1)) (ChatAction.WS_EVENT e2)) (ChatAction.WS_EVENT e3)) 0
        "repl-t1" = some "streaming" :=
  ⟨{ type := "main_agent_repl_start", run_id := some "r", tool_use_id := some "t1" },
   { type := "main_agent_repl_end", run_id := some "r", tool_use_id := some "t1" },
   { type := "main_agent_repl_stdout", run_id := some "r", tool_use_id := some "t1",
     content := some "out" },
   rfl, rfl, rfl, rfl⟩

/-- C7 (amended): the status of an already-present work step is preserved by
every event that does not open or finalize a step — `main_agent_error`,
`main_agent_start`, the token events (`thinking_token`, `segment_token`,
`bash_command_token`, `repl_code_token`), `thinking_title`,
`segment_start`/`segment_end`, `repl_env`, and `main_agent_complete`.  The
start events (`thinking_start`, `tool_start`, `repl_start`) and the stream
events (`repl_stdout`, `repl_stderr`) rewrite the step status to
`"streaming"` even if it was terminal, so the monotonicity claimed for all
events fails (see the counterexample). -/
theorem C7_step_status_preserved (s : ChatState) (e : WsEvent) (j : ℕ) (sid st0 : String)
    (htype : e.type ∈ ["main_agent_error", "main_agent_start", "main_agent_thinking_token",
      "main_agent_thinking_title", "main_agent_segment_start", "main_agent_segment_token",
      "main_agent_segment_end", "main_agent_bash_command_token", "main_agent_repl_code_token",
      "main_agent_repl_env", "main_agent_complete"])
    (h : stepStatusAt s j sid = some st0) :
    stepStatusAt (chatReducer s (ChatAction.WS_EVENT e)) j sid = some st0 := by
  simp only [List.mem_cons, List.not_mem_nil, or_false] at htype
  rcases htype with h1 | h1 | h1 | h1 | h1 | h1 | h1 | h1 | h1 | h1 | h1
  · rw [chatReducer_error_eq s e h1]
    exact h
  · rw [chatReducer_start_eq s e h1]
    exact stepStatus_turnsWrite _ _ _ startTurn_preserves j sid st0 h
  · rw [chatReducer_thinking_token_eq s e h1]
    by_cases htok : wsTokenOf e = ""
    · simp only [caseThinkingToken]
      rw [if_pos htok]
      exact h
    · simp only [caseThinkingToken]
      rw [if_neg htok]
      exact stepStatus_turnsWrite _ _ _ (thinkingTokenTurn_preserves _ _) j sid st0 h
  · rw [chatReducer_thinking_title_eq s e h1]
    exact stepStatus_turnsWrite _ _ _ (thinkingTitleTurn_preserves e _) j sid st0 h
  · rw [chatReducer_segment_start_eq s e h1]
    exact stepStatus_turnsWrite _ _ _ (segmentStartTurn_preserves e) j sid st0 h
  · rw [chatReducer_segment_token_eq s e h1]
    by_cases htok : wsTokenOf e = ""
    · simp only [caseSegmentToken]
      rw [if_pos htok]
      exact h
    · simp only [caseSegmentToken]
      rw [if_neg htok]
      exact stepStatus_turnsWrite _ _ _ (segmentTokenTurn_preserves _) j sid st0 h
  · rw [chatReducer_segment_end_eq s e h1]
    exact stepStatus_turnsWrite _ _ _ (segmentEndTurn_preserves e) j sid st0 h
  · rw [chatReducer_bash_command_token_eq s e h1]
    by_cases hui : isUiVisible e.ui_visible = true
    · by_cases htok : wsTokenOf e = ""
      · simp only [caseBashCommandToken]
        rw [if_neg (not_not_intro hui), if_pos htok]
        exact h
      · simp only [caseBashCommandToken]
        rw [if_neg (not_not_intro hui), if_neg htok]
        exact stepStatus_turnsWrite _ _ _ (bashCommandTokenTurn_preserves e _ _) j sid st0 h
    · simp only [caseBashCommandToken]
      rw [if_pos hui]
      exact h
  · rw [chatReducer_repl_code_token_eq s e h1]
    by_cases htok : wsTokenOf e = ""
    · simp only [caseReplCodeToken]
      rw [if_pos htok]
      exact h
    · simp only [caseReplCodeToken]
      rw [if_neg htok]
      exact stepStatus_turnsWrite _ _ _ (replCodeTokenTurn_preserves e _ _) j sid st0 h
  · rw [chatReducer_repl_env_eq s e h1]
    cases henv : e.env with
    | none =>
      simp only [caseReplEnv, henv]
      exact h
    | some envPayload =>
      simp only [caseReplEnv, henv]
      exact stepStatus_turnsWrite _ _ _ (replEnvTurn_preserves e _ envPayload) j sid st0 h
  · rw [chatReducer_complete_eq s e h1]
    exact stepStatus_turnsWrite _ _ _ (completeTurn_preserves e) j sid st0 h

/-- Witness for C7: a `main_agent_error` event leaves the streaming status
of a previously opened repl step untouched. -/
theorem C7_step_status_preserved_witness :
    ({ type := "main_agent_error" } : WsEvent).type ∈ ["main_agent_error",
      "main_agent_start", "main_agent_thinking_token", "main_agent_thinking_title",
      "main_agent_segment_start", "main_agent_segment_token", "main_agent_segment_end",
      "main_agent_bash_command_token", "main_agent_repl_code_token", "main_agent_repl_env",
      "main_agent_complete"] ∧
    stepStatusAt (chatReducer initialChatState (ChatAction.WS_EVENT
      { type := "main_agent_repl_start", run_id := some "r", tool_use_id := some "t1" }))
      0 "repl-t1" = some "streaming" ∧
    stepStatusAt (chatReducer (chatReducer initialChatState (ChatAction.WS_EVENT
      { type := "main_agent_repl_start", run_id := some "r", tool_use_id := some "t1" }))
      (ChatAction.WS_EVENT { type := "main_agent_error" })) 0 "repl-t1" = some "streaming" :=
  ⟨by decide, rfl,
   C7_step_status_preserved _ { type := "main_agent_error" } 0 "repl-t1" "streaming"
     (by decide) rfl⟩

/-- Counterexample for C8 as stated: dispatching `LOCAL_USER_MESSAGE` twice
is accepted by the reducer and leaves two pending turns, so "at most one
pending turn" is not an invariant of the reducer itself. -/
theorem C8_counterexample :
    ((chatReducer (chatReducer initialChatState (ChatAction.LOCAL_USER_MESSAGE "hi"))
      (ChatAction.LOCAL_USER_MESSAGE "hi")).turns.countP (fun t => isPendingTurn t)) = 2 :=
  rfl

/-- C8 (amended): the pending-turn mechanics hold — a local user submission
appends a turn with no run id that satisfies `isPendingTurn`, and when no
turn owns run `r`, an event carrying run id `r` (here `main_agent_start`)
claims the latest pending turn: that turn receives `runId = some r` and the
rest of the list is unchanged.  Uniqueness of the pending turn is not
enforced by the reducer (see the counterexample). -/
theorem C8_pending_turn (s : ChatState) (m : String) (e : WsEvent) (r : String)
    (i : ℕ) (t : Turn)
    (htype : e.type = "main_agent_start") (hr : wsRunIdOf e = some r)
    (hby : findTurnIndexByRun s.turns (some r) = none)
    (hpend : findLatestPendingTurnIndex s.turns = some i)
    (hget : s.turns.get? i = some t) :
    (chatReducer s (ChatAction.LOCAL_USER_MESSAGE m)).turns =
      s.turns ++ [makeTurn none m "streaming"] ∧
    isPendingTurn (makeTurn none m "streaming") = true ∧
    (chatReducer s (ChatAction.WS_EVENT e)).turns =
      s.turns.set i { t with runId := some r, status := "streaming" } ∧
    (s.turns.set i { t with runId := some r, status := "streaming" }).get? i =
      some { t with runId := some r, status := "streaming" } := by
  have hlt : i < s.turns.length := by
    by_contra hc
    rw [List.get?_eq_getElem?, List.getElem?_eq_none (le_of_not_lt hc)] at hget
    exact Option.noConfusion hget
  refine ⟨rfl, rfl, ?_, ?_⟩
  · rw [chatReducer_start_eq s e htype, hr]
    show setTurnAt (ensureTurn (wsBaseState s e).turns (some r)).1
      (ensureTurn (wsBaseState s e).turns (some r)).2 startTurn = _
    rw [ensureTurn_eq_pending (wsBaseState s e).turns (some r) i t hby hpend hget]
    dsimp only
    have hg2 : ((wsBaseState s e).turns.set i
        { t with runId := (some r).or t.runId, status := "streaming" }).get? i =
        some { t with runId := (some r).or t.runId, status := "streaming" } := by
      rw [List.get?_eq_getElem?]
      exact List.getElem?_set_self hlt
    rw [setTurnAt_of_get _ _ _ _ hg2, List.set_set]
    rfl
  · rw [List.get?_eq_getElem?]
    exact List.getElem?_set_self hlt

/-- Witness for C8: a local user message on the initial state followed by a
`main_agent_start` carrying run id `"r1"`. -/
theorem C8_pending_turn_witness :
    findTurnIndexByRun
      (chatReducer initialChatState (ChatAction.LOCAL_USER_MESSAGE "hi")).turns
      (some "r1") = none ∧
    findLatestPendingTurnIndex
      (chatReducer initialChatState (ChatAction.LOCAL_USER_MESSAGE "hi")).turns = some 0 ∧
    (chatReducer (chatReducer initialChatState (ChatAction.LOCAL_USER_MESSAGE "hi"))
        (ChatAction.WS_EVENT { type := "main_agent_start", run_id := some "r1" })).turns =
      (chatReducer initialChatState (ChatAction.LOCAL_USER_MESSAGE "hi")).turns.set 0
        { makeTurn none "hi" "streaming" with runId := some "r1", status := "streaming" } :=
  ⟨rfl, rfl,
   (C8_pending_turn (chatReducer initialChatState (ChatAction.LOCAL_USER_MESSAGE "hi"))
     "hi" { type := "main_agent_start", run_id := some "r1" } "r1" 0
     (makeTurn none "hi" "streaming") rfl rfl rfl rfl rfl).2.2.1⟩

/-- Counterexample for C9 as stated: a `main_agent_repl_stdout` event whose
tool_use_id was never opened by a repl_start is not a no-op — the upsert
appends a brand-new `repl-` work step (status `streaming`) to the turn. -/
theorem C9_counterexample :
    ∃ (e1 e2 : WsEvent), e2.type = "main_agent_repl_stdout" ∧
      stepStatusAt (chatReducer initialChatState (ChatAction.WS_EVENT e1)) 0
        "repl-tX" = none ∧
      stepStatusAt (chatReducer (chatReducer initialChatState (ChatAction.WS_EVENT e1))
        (ChatAction.WS_EVENT e2)) 0 "repl-tX" = some "streaming" :=
  ⟨{ type := "main_agent_start", run_id := some "r1" },
   { type := "main_agent_repl_stdout", run_id := some "r1", tool_use_id := some "tX",
     content := some "boom" }, rfl, rfl, rfl⟩

/-- C9 (amended): only the token-append events are silent no-ops on unknown
keys.  For `main_agent_thinking_token`, if the run's turn exists but the
thinking step for this segment was never opened, the turn list is returned
unchanged (`appendWorkToken` bails out when the id is not found).  The
stdout/stderr/result events instead create the missing step via upsert (see
the counterexample). -/
theorem C9_unknown_key_noop (s : ChatState) (e : WsEvent) (r : String) (i : ℕ) (t : Turn)
    (htype : e.type = "main_agent_thinking_token") (hr : wsRunIdOf e = some r)
    (hby : findTurnIndexByRun s.turns (some r) = some i)
    (hget : s.turns.get? i = some t)
    (hunknown : findStep t.workSteps (thinkingStepId (some r) e.segment_index) = none) :
    (chatReducer s (ChatAction.WS_EVENT e)).turns = s.turns := by
  rw [chatReducer_thinking_token_eq s e htype, hr]
  by_cases htok : wsTokenOf e = ""
  · simp only [caseThinkingToken]
    rw [if_pos htok]
    rfl
  · simp only [caseThinkingToken]
    rw [if_neg htok]
    show setTurnAt (ensureTurn (wsBaseState s e).turns (some r)).1
      (ensureTurn (wsBaseState s e).turns (some r)).2
      (thinkingTokenTurn (thinkingStepId (some r) e.segment_index) (wsTokenOf e)) = s.turns
    rw [ensureTurn_eq_byRun (wsBaseState s e).turns (some r) i hby]
    dsimp only
    have hget' : (wsBaseState s e).turns.get? i = some t := hget
    rw [setTurnAt_of_get _ _ _ _ hget']
    have hnoop : thinkingTokenTurn (thinkingStepId (some r) e.segment_index) (wsTokenOf e) t
        = t := by
      unfold thinkingTokenTurn
      rw [appendWorkToken_of_none t.workSteps _ _ ((findStep_none_iff _ _).mp hunknown)]
    rw [hnoop]
    exact set_get_self s.turns i t hget

/-- Witness for C9: a thinking token for a never-opened thinking step on a
turn created by `main_agent_start`. -/
theorem C9_unknown_key_noop_witness :
    findTurnIndexByRun (chatReducer initialChatState (ChatAction.WS_EVENT
      { type := "main_agent_start", run_id := some "r1" })).turns (some "r1") = some 0 ∧
    findStep (startTurn (makeTurn (some "r1") "" "streaming")).workSteps
      (thinkingStepId (some "r1") none) = none ∧
    (chatReducer (chatReducer initialChatState (ChatAction.WS_EVENT
        { type := "main_agent_start", run_id := some "r1" }))
      (ChatAction.WS_EVENT
        { type := "main_agent_thinking_token", run_id := some "r1", token := some "tok" })).turns =
      (chatReducer initialChatState (ChatAction.WS_EVENT
        { type := "main_agent_start", run_id := some "r1" })).turns :=
  ⟨rfl, rfl,
   C9_unknown_key_noop _ _ "r1" 0 (startTurn (makeTurn (some "r1") "" "streaming"))
     rfl rfl rfl rfl rfl⟩

/-- C10: an event whose type tag is none of the nineteen recognized cases
falls through to the `baseState` default: turns, kgGraph and error are
unchanged, yet `threadId` is overwritten by the event's `thread_id` when
present and `activeRunId` by the event's non-blank `run_id` when present —
unrecognized events are not fully inert at the public interface. -/
theorem C10_default_frame (s : ChatState) (e : WsEvent)
    (htype : e.type ∉ ["main_agent_error", "main_agent_start", "main_agent_thinking_start",
      "main_agent_thinking_token", "main_agent_thinking_end", "main_agent_thinking_title",
      "main_agent_segment_start", "main_agent_segment_token", "main_agent_segment_end",
      "main_agent_tool_start", "main_agent_bash_command_token", "main_agent_repl_start",
      "main_agent_repl_code_token", "main_agent_repl_stdout", "main_agent_repl_stderr",
      "main_agent_repl_env", "main_agent_repl_end", "main_agent_tool_result",
      "main_agent_complete"]) :
    (chatReducer s (ChatAction.WS_EVENT e)).turns = s.turns ∧
    (chatReducer s (ChatAction.WS_EVENT e)).kgGraph = s.kgGraph ∧
    (chatReducer s (ChatAction.WS_EVENT e)).error = s.error ∧
    (chatReducer s (ChatAction.WS_EVENT e)).threadId = e.thread_id.or s.threadId ∧
    (chatReducer s (ChatAction.WS_EVENT e)).activeRunId = (wsRunIdOf e).or s.activeRunId := by
  simp only [List.mem_cons, List.not_mem_nil, or_false, not_or] at htype
  obtain ⟨h1, h2, h3, h4, h5, h6, h7, h8, h9, h10, h11, h12, h13, h14, h15, h16, h17,
    h18, h19⟩ := htype
  rw [chatReducer_default_eq s e h1 h2 h3 h4 h5 h6 h7 h8 h9 h10 h11 h12 h13 h14 h15 h16
    h17 h18 h19]
  exact ⟨rfl, rfl, rfl, rfl, rfl⟩

/-- Witness for C10: an unknown tag carrying a thread id and a run id on the
initial state. -/
theorem C10_default_frame_witness :
    (({ type := "totally_unknown", thread_id := some "th", run_id := some "r9" } :
        WsEvent).type ∉
      ["main_agent_error", "main_agent_start", "main_agent_thinking_start",
       "main_agent_thinking_token", "main_agent_thinking_end", "main_agent_thinking_title",
       "main_agent_segment_start", "main_agent_segment_token", "main_agent_segment_end",
       "main_agent_tool_start", "main_agent_bash_command_token", "main_agent_repl_start",
       "main_agent_repl_code_token", "main_agent_repl_stdout", "main_agent_repl_stderr",
       "main_agent_repl_env", "main_agent_repl_end", "main_agent_tool_result",
       "main_agent_complete"]) ∧
    ((chatReducer initialChatState (ChatAction.WS_EVENT
        { type := "totally_unknown", thread_id := some "th", run_id := some "r9" })).turns =
      initialChatState.turns ∧
    (chatReducer initialChatState (ChatAction.WS_EVENT
        { type := "totally_unknown", thread_id := some "th", run_id := some "r9" })).kgGraph =
      initialChatState.kgGraph ∧
    (chatReducer initialChatState (ChatAction.WS_EVENT
        { type := "totally_unknown", thread_id := some "th", run_id := some "r9" })).error =
      initialChatState.error ∧
    (chatReducer initialChatState (ChatAction.WS_EVENT
        { type := "totally_unknown", thread_id := some "th", run_id := some "r9" })).threadId =
      ({ type := "totally_unknown", thread_id := some "th", run_id := some "r9" } :
        WsEvent).thread_id.or initialChatState.threadId ∧
    (chatReducer initialChatState (ChatAction.WS_EVENT
        { type := "totally_unknown", thread_id := some "th", run_id := some "r9" })).activeRunId =
      (wsRunIdOf
        { type := "totally_unknown", thread_id := some "th", run_id := some "r9" }).or
        initialChatState.activeRunId) :=
  ⟨by decide, C10_default_frame initialChatState
    { type := "totally_unknown", thread_id := some "th", run_id := some "r9" } (by decide)⟩

end NanoSpec
